import Mathlib

/-!
# Verification of the sfbinpack chess training-data codec

Shallow embedding of the Rust sources of the `binpack` crate (chess core,
position/move codecs, packed stem, chunk framing) together with proofs of the
specification claims about them.

Machine integers are modelled as `Nat` (unsigned; wrapping operations take an
explicit `% 2^w`) and `Int` (signed, with range hypotheses where a claim
quantifies over a machine type).  Fallible operations return `Except`.
-/

namespace SfBinpack

/-! ## `common/arithmetic.rs` and `u16` primitives -/

/-- `u16::rotate_left(1)`: the high bit moves to bit 0. -/
def u16_rotate_left1 (r : Nat) : Nat :=
  ((r <<< 1) % 65536) ||| (r >>> 15)

/-- `u16::rotate_right(1)`: bit 0 moves to the high bit. -/
def u16_rotate_right1 (r : Nat) : Nat :=
  (r >>> 1) ||| ((r &&& 1) <<< 15)

/-- `a as u16` for an `i16` value `a`: the two's-complement bit pattern. -/
def i16_to_u16 (a : Int) : Nat :=
  (a % 65536).toNat

/-- `r as i16` for a `u16` value `r`: reinterpret the bit pattern as signed. -/
def u16_to_i16 (r : Nat) : Int :=
  if r < 32768 then (r : Int) else (r : Int) - 65536

/-- `arithmetic.rs::signed_to_unsigned` (the zig-zag encoder):
`let mut r = a as u16; if r & 0x8000 != 0 { r ^= 0x7FFF; } r.rotate_left(1)`. -/
def signed_to_unsigned (a : Int) : Nat :=
  let r := i16_to_u16 a
  let r1 := if r &&& 0x8000 ≠ 0 then r ^^^ 0x7FFF else r
  u16_rotate_left1 r1

/-- `arithmetic.rs::unsigned_to_signed` (the zig-zag decoder):
`let mut v = r.rotate_right(1); if v & 0x8000 != 0 { v ^= 0x7FFF; } v as i16`. -/
def unsigned_to_signed (r : Nat) : Int :=
  let v := u16_rotate_right1 r
  let v1 := if v &&& 0x8000 ≠ 0 then v ^^^ 0x7FFF else v
  u16_to_i16 v1

/-! ## `chess/` data model -/

/-- `chess/color.rs::Color`. -/
inductive Color where
  | White
  | Black
deriving DecidableEq, Repr

/-- `Color::ordinal`: White is 0, Black is 1. -/
def Color.ordinal : Color → Nat
  | .White => 0
  | .Black => 1

/-- `Color::from_ordinal` (panics outside 0/1; total here, other values unused). -/
def Color.from_ordinal (n : Nat) : Color :=
  if n = 1 then .Black else .White

/-- `Not for Color`. -/
def Color.opp : Color → Color
  | .White => .Black
  | .Black => .White

/-- `chess/piecetype.rs::PieceType`. -/
inductive PieceType where
  | Pawn
  | Knight
  | Bishop
  | Rook
  | Queen
  | King
  | NoPiece
deriving DecidableEq, Repr

/-- `PieceType::ordinal`. -/
def PieceType.ordinal : PieceType → Nat
  | .Pawn => 0
  | .Knight => 1
  | .Bishop => 2
  | .Rook => 3
  | .Queen => 4
  | .King => 5
  | .NoPiece => 6

/-- `PieceType::from_ordinal` (panics outside 0..6; total here, other values unused). -/
def PieceType.from_ordinal (n : Nat) : PieceType :=
  match n with
  | 0 => .Pawn
  | 1 => .Knight
  | 2 => .Bishop
  | 3 => .Rook
  | 4 => .Queen
  | 5 => .King
  | _ => .NoPiece

/-- `chess/coords.rs::Square`: the index, with 64 standing for `Square::NONE`. -/
abbrev Square := Nat

def Square.NONE : Square := 64

/-- `Square::rank` as a raw rank index (`index >> 3`). -/
def Square.rankIdx (sq : Square) : Nat := sq >>> 3

/-- `Square::file` as a raw file index (`index & 7`). -/
def Square.fileIdx (sq : Square) : Nat := sq &&& 7

/-- `chess/piece.rs::Piece`: lowest bit the color, higher bits the piece type. -/
structure Piece where
  id : Nat
deriving DecidableEq, Repr

/-- `Piece::new`. -/
def Piece.new (pt : PieceType) (c : Color) : Piece :=
  ⟨(pt.ordinal <<< 1) ||| c.ordinal⟩

/-- `Piece::none()`. -/
def Piece.noPiece : Piece := Piece.new .NoPiece .White

/-- `Piece::from_id`. -/
def Piece.from_id (id : Nat) : Piece := ⟨id⟩

/-- `Piece::piece_type`. -/
def Piece.piece_type (p : Piece) : PieceType := PieceType.from_ordinal (p.id >>> 1)

/-- `Piece::color`. -/
def Piece.color (p : Piece) : Color := Color.from_ordinal (p.id &&& 1)

def Piece.WHITE_PAWN : Piece := Piece.new .Pawn .White
def Piece.BLACK_PAWN : Piece := Piece.new .Pawn .Black
def Piece.WHITE_ROOK : Piece := Piece.new .Rook .White
def Piece.BLACK_ROOK : Piece := Piece.new .Rook .Black
def Piece.WHITE_KING : Piece := Piece.new .King .White
def Piece.BLACK_KING : Piece := Piece.new .King .Black

/-- `chess/castling_rights.rs::CastlingRights` as the underlying `u8` bit set. -/
abbrev CastlingRights := Nat

def CastlingRights.NONE : CastlingRights := 0x0
def CastlingRights.WHITE_KING_SIDE : CastlingRights := 0x1
def CastlingRights.WHITE_QUEEN_SIDE : CastlingRights := 0x2
def CastlingRights.BLACK_KING_SIDE : CastlingRights := 0x4
def CastlingRights.BLACK_QUEEN_SIDE : CastlingRights := 0x8
def CastlingRights.WHITE : CastlingRights := 0x3
def CastlingRights.BLACK : CastlingRights := 0xC
def CastlingRights.ALL : CastlingRights := 0xF

/-- `CastlingRights::contains`. -/
def CastlingRights.containsCR (a b : CastlingRights) : Bool := (a &&& b) == b

/-- `!rights` on the underlying `u8`. -/
def CastlingRights.complement (a : CastlingRights) : CastlingRights := 255 ^^^ a

/-- `chess/castling_rights.rs::CastleType`. -/
inductive CastleType where
  | Short
  | Long
deriving DecidableEq, Repr

/-- `chess/move.rs::MoveType`. -/
inductive MoveType where
  | Normal
  | Promotion
  | Castle
  | EnPassant
deriving DecidableEq, Repr

/-- `MoveType::ordinal`. -/
def MoveType.ordinal : MoveType → Nat
  | .Normal => 0
  | .Promotion => 1
  | .Castle => 2
  | .EnPassant => 3

/-- `MoveType::from_ordinal` (panics outside 0..3; total here, other values unused). -/
def MoveType.from_ordinal (n : Nat) : MoveType :=
  match n with
  | 0 => .Normal
  | 1 => .Promotion
  | 2 => .Castle
  | _ => .EnPassant

/-- `chess/move.rs::Move`. -/
structure Move where
  fromSq : Square
  toSq : Square
  move_type : MoveType
  promoted_piece : Piece
deriving DecidableEq, Repr

/-- `Move::null()`. -/
def Move.null : Move := ⟨Square.NONE, Square.NONE, .Normal, Piece.noPiece⟩

/-- `Move::normal`. -/
def Move.normal (f t : Square) : Move := ⟨f, t, .Normal, Piece.noPiece⟩

/-- `Move::en_passant`. -/
def Move.en_passant (f t : Square) : Move := ⟨f, t, .EnPassant, Piece.noPiece⟩

/-- `Move::promotion`. -/
def Move.promotion (f t : Square) (p : Piece) : Move := ⟨f, t, .Promotion, p⟩

/-- `Move::castle`. -/
def Move.castle (f t : Square) : Move := ⟨f, t, .Castle, Piece.noPiece⟩

/-- `Move::castle_type`: short iff the destination is on the H file. -/
def Move.castle_type (m : Move) : CastleType :=
  if m.toSq.fileIdx = 7 then .Short else .Long

/-! ## `common/compressed_move.rs` -/

/-- `CompressedMove`: 16-bit packed move, MSB-first layout
`[type:2][from:6][to:6][promo:2]`. -/
structure CompressedMove where
  packed : Nat
deriving DecidableEq, Repr

/-- `CompressedMove::from_move`. -/
def CompressedMove.from_move (m : Move) : CompressedMove :=
  if m.fromSq ≠ m.toSq then
    let packed := (m.move_type.ordinal <<< 14) ||| (m.fromSq <<< 8) ||| (m.toSq <<< 2)
    let packed :=
      if m.move_type = MoveType.Promotion then
        packed ||| (m.promoted_piece.piece_type.ordinal - PieceType.Knight.ordinal)
      else packed
    ⟨packed⟩
  else ⟨0⟩

/-- `CompressedMove::compress`. -/
def CompressedMove.compress (m : Move) : CompressedMove := CompressedMove.from_move m

/-- `CompressedMove::move_type`. -/
def CompressedMove.move_type (c : CompressedMove) : MoveType :=
  MoveType.from_ordinal (c.packed >>> 14)

/-- `CompressedMove::from` (the source square). -/
def CompressedMove.fromSq (c : CompressedMove) : Square := (c.packed >>> 8) &&& 63

/-- `CompressedMove::to` (the destination square). -/
def CompressedMove.toSq (c : CompressedMove) : Square := (c.packed >>> 2) &&& 63

/-- `CompressedMove::promoted_piece`; the color is inferred from the
destination rank (rank 1 ⇒ Black, else White). -/
def CompressedMove.promoted_piece (c : CompressedMove) : Piece :=
  if c.move_type = MoveType.Promotion then
    let color := if c.toSq.rankIdx = 0 then Color.Black else Color.White
    let piece_type := PieceType.from_ordinal ((c.packed &&& 3) + PieceType.Knight.ordinal)
    Piece.new piece_type color
  else Piece.noPiece

/-- `CompressedMove::decompress`. -/
def CompressedMove.decompress (c : CompressedMove) : Move :=
  if c.packed = 0 then Move.null
  else ⟨c.fromSq, c.toSq, c.move_type, c.promoted_piece⟩

/-- `CompressedMove::read_from_big_endian`. -/
def CompressedMove.read_from_big_endian (b0 b1 : Nat) : CompressedMove :=
  ⟨(b0 <<< 8) ||| b1⟩

/-- The space of valid move encodings quantified over by the move-codec claim:
the null move, or a move with distinct on-board squares whose promotion data
is consistent with its type (promotions carry a Knight/Bishop/Rook/Queen of
the color implied by the destination rank, castles are king-to-own-rook
encodings, every other type carries no promotion piece). -/
def Move.valid (m : Move) : Prop :=
  m = Move.null ∨
  (m.fromSq < 64 ∧ m.toSq < 64 ∧ m.fromSq ≠ m.toSq ∧
    match m.move_type with
    | .Normal => m.promoted_piece = Piece.noPiece
    | .EnPassant => m.promoted_piece = Piece.noPiece
    | .Castle =>
        m.promoted_piece = Piece.noPiece ∧
          ((m.fromSq = 4 ∧ (m.toSq = 0 ∨ m.toSq = 7)) ∨
            (m.fromSq = 60 ∧ (m.toSq = 56 ∨ m.toSq = 63)))
    | .Promotion =>
        (m.promoted_piece.piece_type = .Knight ∨ m.promoted_piece.piece_type = .Bishop ∨
          m.promoted_piece.piece_type = .Rook ∨ m.promoted_piece.piece_type = .Queen) ∧
        m.promoted_piece =
          Piece.new m.promoted_piece.piece_type m.promoted_piece.color ∧
        ((m.toSq.rankIdx = 0 ∧ m.promoted_piece.color = .Black) ∨
          (m.toSq.rankIdx ≠ 0 ∧ m.promoted_piece.color = .White)))

instance (m : Move) : Decidable m.valid := by
  unfold Move.valid
  cases m.move_type <;> dsimp <;> infer_instance

/-! ## `chess/bitboard.rs` helpers (u64 values as `Nat`) -/

/-- `u64::trailing_zeros` (64 for zero input). -/
def trailingZeros64 (n : Nat) : Nat :=
  (((List.range 64).find? (fun i => n.testBit i)).getD 64)

/-- `u64::swap_bytes`. -/
def bswap64 (b : Nat) : Nat :=
  ((b >>> 56) &&& 255) |||
  (((b >>> 48) &&& 255) <<< 8) |||
  (((b >>> 40) &&& 255) <<< 16) |||
  (((b >>> 32) &&& 255) <<< 24) |||
  (((b >>> 24) &&& 255) <<< 32) |||
  (((b >>> 16) &&& 255) <<< 40) |||
  (((b >>> 8) &&& 255) <<< 48) |||
  ((b &&& 255) <<< 56)

/-- `u64::wrapping_sub`. -/
def wsub64 (a b : Nat) : Nat :=
  (a + 18446744073709551616 - b % 18446744073709551616) % 18446744073709551616

/-- `Bitboard::from_before`: all bits strictly below `index`. -/
def Bitboard.from_before (index : Nat) : Nat := (1 <<< index) - 1

/-- `Bitboard::from_square`. -/
def Bitboard.from_square (index : Square) : Nat := 1 <<< index

/-- `!bitboard` on a `u64`. -/
def Bitboard.complement (b : Nat) : Nat := 18446744073709551615 ^^^ b

/-- popcount restricted to the low 64 bits (`u64::count_ones`). -/
def popcount64 (n : Nat) : Nat := ((List.range 64).filter (fun i => n.testBit i)).length

/-! ## `chess/attacks.rs` precomputed tables -/

/-- `PAWN_ATTACKS[White]`. -/
def PAWN_ATTACKS_WHITE : List Nat := [
  0x200, 0x500, 0xa00, 0x1400,
  0x2800, 0x5000, 0xa000, 0x4000,
  0x20000, 0x50000, 0xa0000, 0x140000,
  0x280000, 0x500000, 0xa00000, 0x400000,
  0x2000000, 0x5000000, 0xa000000, 0x14000000,
  0x28000000, 0x50000000, 0xa0000000, 0x40000000,
  0x200000000, 0x500000000, 0xa00000000, 0x1400000000,
  0x2800000000, 0x5000000000, 0xa000000000, 0x4000000000,
  0x20000000000, 0x50000000000, 0xa0000000000, 0x140000000000,
  0x280000000000, 0x500000000000, 0xa00000000000, 0x400000000000,
  0x2000000000000, 0x5000000000000, 0xa000000000000, 0x14000000000000,
  0x28000000000000, 0x50000000000000, 0xa0000000000000, 0x40000000000000,
  0x200000000000000, 0x500000000000000, 0xa00000000000000, 0x1400000000000000,
  0x2800000000000000, 0x5000000000000000, 0xa000000000000000, 0x4000000000000000,
  0x0, 0x0, 0x0, 0x0,
  0x0, 0x0, 0x0, 0x0]

/-- `PAWN_ATTACKS[Black]`. -/
def PAWN_ATTACKS_BLACK : List Nat := [
  0x0, 0x0, 0x0, 0x0,
  0x0, 0x0, 0x0, 0x0,
  0x2, 0x5, 0xa, 0x14,
  0x28, 0x50, 0xa0, 0x40,
  0x200, 0x500, 0xa00, 0x1400,
  0x2800, 0x5000, 0xa000, 0x4000,
  0x20000, 0x50000, 0xa0000, 0x140000,
  0x280000, 0x500000, 0xa00000, 0x400000,
  0x2000000, 0x5000000, 0xa000000, 0x14000000,
  0x28000000, 0x50000000, 0xa0000000, 0x40000000,
  0x200000000, 0x500000000, 0xa00000000, 0x1400000000,
  0x2800000000, 0x5000000000, 0xa000000000, 0x4000000000,
  0x20000000000, 0x50000000000, 0xa0000000000, 0x140000000000,
  0x280000000000, 0x500000000000, 0xa00000000000, 0x400000000000,
  0x2000000000000, 0x5000000000000, 0xa000000000000, 0x14000000000000,
  0x28000000000000, 0x50000000000000, 0xa0000000000000, 0x40000000000000]

/-- `KNIGHT_ATTACKS`. -/
def KNIGHT_ATTACKS : List Nat := [
  0x0000000000020400, 0x0000000000050800, 0x00000000000A1100, 0x0000000000142200,
  0x0000000000284400, 0x0000000000508800, 0x0000000000A01000, 0x0000000000402000,
  0x0000000002040004, 0x0000000005080008, 0x000000000A110011, 0x0000000014220022,
  0x0000000028440044, 0x0000000050880088, 0x00000000A0100010, 0x0000000040200020,
  0x0000000204000402, 0x0000000508000805, 0x0000000A1100110A, 0x0000001422002214,
  0x0000002844004428, 0x0000005088008850, 0x000000A0100010A0, 0x0000004020002040,
  0x0000020400040200, 0x0000050800080500, 0x00000A1100110A00, 0x0000142200221400,
  0x0000284400442800, 0x0000508800885000, 0x0000A0100010A000, 0x0000402000204000,
  0x0002040004020000, 0x0005080008050000, 0x000A1100110A0000, 0x0014220022140000,
  0x0028440044280000, 0x0050880088500000, 0x00A0100010A00000, 0x0040200020400000,
  0x0204000402000000, 0x0508000805000000, 0x0A1100110A000000, 0x1422002214000000,
  0x2844004428000000, 0x5088008850000000, 0xA0100010A0000000, 0x4020002040000000,
  0x0400040200000000, 0x0800080500000000, 0x1100110A00000000, 0x2200221400000000,
  0x4400442800000000, 0x8800885000000000, 0x100010A000000000, 0x2000204000000000,
  0x0004020000000000, 0x0008050000000000, 0x00110A0000000000, 0x0022140000000000,
  0x0044280000000000, 0x0088500000000000, 0x0010A00000000000, 0x0020400000000000]

/-- `KING_ATTACKS`. -/
def KING_ATTACKS : List Nat := [
  0x0000000000000302, 0x0000000000000705, 0x0000000000000E0A, 0x0000000000001C14,
  0x0000000000003828, 0x0000000000007050, 0x000000000000E0A0, 0x000000000000C040,
  0x0000000000030203, 0x0000000000070507, 0x00000000000E0A0E, 0x00000000001C141C,
  0x0000000000382838, 0x0000000000705070, 0x0000000000E0A0E0, 0x0000000000C040C0,
  0x0000000003020300, 0x0000000007050700, 0x000000000E0A0E00, 0x000000001C141C00,
  0x0000000038283800, 0x0000000070507000, 0x00000000E0A0E000, 0x00000000C040C000,
  0x0000000302030000, 0x0000000705070000, 0x0000000E0A0E0000, 0x0000001C141C0000,
  0x0000003828380000, 0x0000007050700000, 0x000000E0A0E00000, 0x000000C040C00000,
  0x0000030203000000, 0x0000070507000000, 0x00000E0A0E000000, 0x00001C141C000000,
  0x0000382838000000, 0x0000705070000000, 0x0000E0A0E0000000, 0x0000C040C0000000,
  0x0003020300000000, 0x0007050700000000, 0x000E0A0E00000000, 0x001C141C00000000,
  0x0038283800000000, 0x0070507000000000, 0x00E0A0E000000000, 0x00C040C000000000,
  0x0302030000000000, 0x0705070000000000, 0x0E0A0E0000000000, 0x1C141C0000000000,
  0x3828380000000000, 0x7050700000000000, 0xE0A0E00000000000, 0xC040C00000000000,
  0x0203000000000000, 0x0507000000000000, 0x0A0E000000000000, 0x141C000000000000,
  0x2838000000000000, 0x5070000000000000, 0xA0E0000000000000, 0x40C0000000000000]

/-- `attacks::pawn`. -/
def attacks.pawn (color : Color) (sq : Square) : Nat :=
  match color with
  | .White => PAWN_ATTACKS_WHITE.getD sq 0
  | .Black => PAWN_ATTACKS_BLACK.getD sq 0

/-- `attacks::knight`. -/
def attacks.knight (sq : Square) : Nat := KNIGHT_ATTACKS.getD sq 0

/-- `attacks::king`. -/
def attacks.king (sq : Square) : Nat := KING_ATTACKS.getD sq 0

/-! ## `chess/hyperbola.rs`: hyperbola-quintessence sliding attacks -/

/-- One ray of `HyperbolaQsc::init_mask`'s direction table: starting at rank
`r`, file `f`, walk in direction `(i, j)` writing `8*i+j` at each on-board
square. The fuel of 8 covers the longest possible ray. -/
def HyperbolaQsc.dirWrite (i j : Int) : Int → Int → List Int → Nat → List Int
  | _, _, d, 0 => d
  | r, f, d, fuel + 1 =>
    if 0 ≤ r ∧ r < 8 ∧ 0 ≤ f ∧ f < 8 then
      HyperbolaQsc.dirWrite i j (r + i) (f + j) (d.set (8 * r + f).toNat (8 * i + j)) fuel
    else d

/-- The per-square direction table `d` of `init_mask`. -/
def HyperbolaQsc.dArray (x : Nat) : List Int :=
  let f : Int := (x &&& 7 : Nat)
  let r : Int := (x >>> 3 : Nat)
  [((-1 : Int), (-1 : Int)), (-1, 0), (-1, 1), (0, -1), (0, 1), (1, -1), (1, 0), (1, 1)].foldl
    (fun d ij => HyperbolaQsc.dirWrite ij.1 ij.2 (r + ij.1) (f + ij.2) d 8)
    (List.replicate 64 0)

/-- `init_mask`'s downward walks: `while y >= 0 && d[y] == v { bit y; y -= step }`. -/
def HyperbolaQsc.walkDown (d : List Int) (v : Int) (step : Int) : Int → Nat → Nat → Nat
  | _, acc, 0 => acc
  | y, acc, fuel + 1 =>
    if 0 ≤ y ∧ d.getD y.toNat 0 = v then
      HyperbolaQsc.walkDown d v step (y - step) (acc ||| (1 <<< y.toNat)) fuel
    else acc

/-- `init_mask`'s upward walks: `while y < 64 && d[y] == v { bit y; y += step }`. -/
def HyperbolaQsc.walkUp (d : List Int) (v : Int) (step : Int) : Int → Nat → Nat → Nat
  | _, acc, 0 => acc
  | y, acc, fuel + 1 =>
    if y < 64 ∧ d.getD y.toNat 0 = v then
      HyperbolaQsc.walkUp d v step (y + step) (acc ||| (1 <<< y.toNat)) fuel
    else acc

/-- `init_mask`'s vertical downward walk: `while y >= 0 { bit y; y -= 8 }`. -/
def HyperbolaQsc.walkDownV : Int → Nat → Nat → Nat
  | _, acc, 0 => acc
  | y, acc, fuel + 1 =>
    if 0 ≤ y then HyperbolaQsc.walkDownV (y - 8) (acc ||| (1 <<< y.toNat)) fuel
    else acc

/-- `init_mask`'s vertical upward walk: `while y < 64 { bit y; y += 8 }`. -/
def HyperbolaQsc.walkUpV : Int → Nat → Nat → Nat
  | _, acc, 0 => acc
  | y, acc, fuel + 1 =>
    if y < 64 then HyperbolaQsc.walkUpV (y + 8) (acc ||| (1 <<< y.toNat)) fuel
    else acc

/-- `mask[x].diagonal` of `init_mask`. -/
def HyperbolaQsc.diagonalMask (x : Nat) : Nat :=
  let d := HyperbolaQsc.dArray x
  HyperbolaQsc.walkUp d 9 9 ((x : Int) + 9)
    (HyperbolaQsc.walkDown d (-9) 9 ((x : Int) - 9) 0 8) 8

/-- `mask[x].antidiagonal` of `init_mask`. -/
def HyperbolaQsc.antidiagonalMask (x : Nat) : Nat :=
  let d := HyperbolaQsc.dArray x
  HyperbolaQsc.walkUp d 7 7 ((x : Int) + 7)
    (HyperbolaQsc.walkDown d (-7) 7 ((x : Int) - 7) 0 8) 8

/-- `mask[x].vertical` of `init_mask`. -/
def HyperbolaQsc.verticalMask (x : Nat) : Nat :=
  HyperbolaQsc.walkUpV ((x : Int) + 8) (HyperbolaQsc.walkDownV ((x : Int) - 8) 0 8) 8

/-- Left half of one `init_rank` entry: `x2` from `f-1` downward. -/
def HyperbolaQsc.rankLeft (o : Nat) : Int → Nat → Nat → Nat
  | _, y2, 0 => y2
  | x2, y2, fuel + 1 =>
    if 0 ≤ x2 then
      let b := 1 <<< x2.toNat
      if o &&& b = b then y2 ||| b
      else HyperbolaQsc.rankLeft o (x2 - 1) (y2 ||| b) fuel
    else y2

/-- Right half of one `init_rank` entry: `x2` from `f+1` upward. -/
def HyperbolaQsc.rankRight (o : Nat) : Nat → Nat → Nat → Nat
  | _, y2, 0 => y2
  | x2, y2, fuel + 1 =>
    if x2 < 8 then
      let b := 1 <<< x2
      if o &&& b = b then y2 ||| b
      else HyperbolaQsc.rankRight o (x2 + 1) (y2 ||| b) fuel
    else y2

/-- `rank_attack[x * 8 + f]` of `init_rank` (6-bit inner occupancy `x`,
file `f`). -/
def HyperbolaQsc.rankAttackEntry (x f : Nat) : Nat :=
  let o := 2 * x
  HyperbolaQsc.rankRight o (f + 1) (HyperbolaQsc.rankLeft o ((f : Int) - 1) 0 8) 8

/-- Lookup into the 512-entry `rank_attack` array at index `idx`. -/
def HyperbolaQsc.rank_attack_get (idx : Nat) : Nat :=
  HyperbolaQsc.rankAttackEntry (idx / 8) (idx % 8)

/-- `HyperbolaQsc::attack`. -/
def HyperbolaQsc.attack (pieces : Nat) (x : Nat) (mask : Nat) : Nat :=
  let o := pieces &&& mask
  (wsub64 o (1 <<< x) ^^^ bswap64 (wsub64 (bswap64 o) (0x8000000000000000 >>> x))) &&& mask

/-- `HyperbolaQsc::horizontal_attack`. -/
def HyperbolaQsc.horizontal_attack (pieces : Nat) (x : Nat) : Nat :=
  let file_mask := x &&& 7
  let rank_mask := x &&& 56
  let o := (pieces >>> rank_mask) &&& 126
  let idx := o * 4 + file_mask
  (HyperbolaQsc.rank_attack_get idx) <<< rank_mask

/-- `HyperbolaQsc::vertical_attack`. -/
def HyperbolaQsc.vertical_attack (pieces : Nat) (sq : Nat) : Nat :=
  HyperbolaQsc.attack pieces sq (HyperbolaQsc.verticalMask sq)

/-- `HyperbolaQsc::diagonal_attack`. -/
def HyperbolaQsc.diagonal_attack (pieces : Nat) (sq : Nat) : Nat :=
  HyperbolaQsc.attack pieces sq (HyperbolaQsc.diagonalMask sq)

/-- `HyperbolaQsc::antidiagonal_attack`. -/
def HyperbolaQsc.antidiagonal_attack (pieces : Nat) (sq : Nat) : Nat :=
  HyperbolaQsc.attack pieces sq (HyperbolaQsc.antidiagonalMask sq)

/-- `HyperbolaQsc::bishop_attack`. -/
def HyperbolaQsc.bishop_attack (sq : Square) (occupied : Nat) : Nat :=
  HyperbolaQsc.diagonal_attack occupied sq ||| HyperbolaQsc.antidiagonal_attack occupied sq

/-- `HyperbolaQsc::rook_attack`. -/
def HyperbolaQsc.rook_attack (sq : Square) (occupied : Nat) : Nat :=
  HyperbolaQsc.vertical_attack occupied sq ||| HyperbolaQsc.horizontal_attack occupied sq

/-- `attacks::bishop`. -/
def attacks.bishop (sq : Square) (occupied : Nat) : Nat :=
  HyperbolaQsc.bishop_attack sq occupied

/-- `attacks::rook`. -/
def attacks.rook (sq : Square) (occupied : Nat) : Nat :=
  HyperbolaQsc.rook_attack sq occupied

/-- `attacks::queen`. -/
def attacks.queen (sq : Square) (occupied : Nat) : Nat :=
  attacks.bishop sq occupied ||| attacks.rook sq occupied

/-- `attacks::piece_attacks` (panics for pawns / none; total here). -/
def attacks.piece_attacks (pt : PieceType) (sq : Square) (occupied : Nat) : Nat :=
  match pt with
  | .Knight => attacks.knight sq
  | .Bishop => attacks.bishop sq occupied
  | .Rook => attacks.rook sq occupied
  | .Queen => attacks.queen sq occupied
  | .King => attacks.king sq
  | _ => 0

/-! ## `chess/position.rs` -/

/-- `Position`: six piece-type boards (PNBRQK order), two color boards
(White, Black), the 64-square piece list, side to move, castling rights,
half-move clock (`u8`), full-move number (`u16`), en-passant square. -/
structure Position where
  bb : List Nat
  bb_color : List Nat
  pieces : List Piece
  stm : Color
  castling_rights : CastlingRights
  halfm : Nat
  fullm : Nat
  enpassant : Square
deriving DecidableEq, Repr

/-- `Position::empty`. -/
def Position.empty : Position :=
  ⟨[0, 0, 0, 0, 0, 0], [0, 0], List.replicate 64 Piece.noPiece, .White,
    CastlingRights.NONE, 0, 1, Square.NONE⟩

/-- `Position::new`: the standard starting position. -/
def Position.new : Position :=
  { bb := [0x00ff00000000ff00, 0x4200000000000042, 0x2400000000000024,
      0x8100000000000081, 0x0800000000000008, 0x1000000000000010]
    bb_color := [0xffff, 0xffff000000000000]
    pieces :=
      (List.range 64).map (fun i =>
        if i = 0 ∨ i = 7 then Piece.new .Rook .White
        else if i = 1 ∨ i = 6 then Piece.new .Knight .White
        else if i = 2 ∨ i = 5 then Piece.new .Bishop .White
        else if i = 3 then Piece.new .Queen .White
        else if i = 4 then Piece.new .King .White
        else if 8 ≤ i ∧ i ≤ 15 then Piece.new .Pawn .White
        else if 48 ≤ i ∧ i ≤ 55 then Piece.new .Pawn .Black
        else if i = 56 ∨ i = 63 then Piece.new .Rook .Black
        else if i = 57 ∨ i = 62 then Piece.new .Knight .Black
        else if i = 58 ∨ i = 61 then Piece.new .Bishop .Black
        else if i = 59 then Piece.new .Queen .Black
        else if i = 60 then Piece.new .King .Black
        else Piece.noPiece)
    stm := .White
    castling_rights := CastlingRights.ALL
    halfm := 0
    fullm := 1
    enpassant := Square.NONE }

/-- `Position::side_to_move`. -/
def Position.side_to_move (pos : Position) : Color := pos.stm

/-- `Position::occupied`. -/
def Position.occupied (pos : Position) : Nat :=
  pos.bb_color.getD 0 0 ||| pos.bb_color.getD 1 0

/-- `Position::pieces_bb`. -/
def Position.pieces_bb (pos : Position) (color : Color) : Nat :=
  pos.bb_color.getD color.ordinal 0

/-- `Position::pieces_bb_type`. -/
def Position.pieces_bb_type (pos : Position) (pt : PieceType) : Nat :=
  pos.bb.getD pt.ordinal 0

/-- `Position::pieces_bb_color`. -/
def Position.pieces_bb_color (pos : Position) (color : Color) (pt : PieceType) : Nat :=
  pos.bb_color.getD color.ordinal 0 &&& pos.bb.getD pt.ordinal 0

/-- `Position::piece_at`. -/
def Position.piece_at (pos : Position) (sq : Square) : Piece :=
  pos.pieces.getD sq Piece.noPiece

/-- `Position::castling_rights` accessor. -/
def Position.castling_rightsAcc (pos : Position) : CastlingRights := pos.castling_rights

/-- `Position::ep_square`. -/
def Position.ep_square (pos : Position) : Square := pos.enpassant

/-- `Position::set_castling_rights`. -/
def Position.set_castling_rights (pos : Position) (rights : CastlingRights) : Position :=
  { pos with castling_rights := rights }

/-- `Position::set_ep_square_unchecked`. -/
def Position.set_ep_square_unchecked (pos : Position) (sq : Square) : Position :=
  { pos with enpassant := sq }

/-- `Position::add_castling_rights`. -/
def Position.add_castling_rights (pos : Position) (rights : CastlingRights) : Position :=
  { pos with castling_rights := pos.castling_rights ||| rights }

/-- `Position::set_side_to_move`. -/
def Position.set_side_to_move (pos : Position) (side : Color) : Position :=
  { pos with stm := side }

/-- `Position::set_ply`: `fullm = ply / 2 + 1`. -/
def Position.set_ply (pos : Position) (ply : Nat) : Position :=
  { pos with fullm := ply / 2 + 1 }

/-- `Position::ply`. -/
def Position.ply (pos : Position) : Nat :=
  (pos.fullm - 1) * 2 + pos.stm.ordinal

/-- `Position::set_rule50_counter`: the `u16` counter is truncated to the
`u8` field (`counter as u8`). -/
def Position.set_rule50_counter (pos : Position) (counter : Nat) : Position :=
  { pos with halfm := counter % 256 }

/-- `Position::rule50_counter`. -/
def Position.rule50_counter (pos : Position) : Nat := pos.halfm

/-- `Position::place_piece`. -/
def Position.place_piece (pos : Position) (side : Color) (pc : Piece) (sq : Square) :
    Position :=
  let mask := 1 <<< sq
  { pos with
    bb_color := pos.bb_color.set side.ordinal (pos.bb_color.getD side.ordinal 0 ||| mask)
    bb := pos.bb.set pc.piece_type.ordinal (pos.bb.getD pc.piece_type.ordinal 0 ||| mask)
    pieces := pos.pieces.set sq pc }

/-- `Position::place`. -/
def Position.place (pos : Position) (pc : Piece) (sq : Square) : Position :=
  pos.place_piece pc.color pc sq

/-- `Position::remove_piecetype`. -/
def Position.remove_piecetype (pos : Position) (side : Color) (pt : PieceType)
    (sq : Square) : Position :=
  let mask := 1 <<< sq
  { pos with
    bb_color := pos.bb_color.set side.ordinal (pos.bb_color.getD side.ordinal 0 ^^^ mask)
    bb := pos.bb.set pt.ordinal (pos.bb.getD pt.ordinal 0 ^^^ mask)
    pieces := pos.pieces.set sq Piece.noPiece }

/-- `Position::is_attacked`: is `sq` attacked by color `c`. -/
def Position.is_attacked (pos : Position) (sq : Square) (c : Color) : Prop :=
  (attacks.pawn c.opp sq &&& pos.pieces_bb_color c .Pawn |||
   attacks.knight sq &&& pos.pieces_bb_color c .Knight |||
   attacks.king sq &&& pos.pieces_bb_color c .King |||
   attacks.bishop sq pos.occupied &&&
     (pos.pieces_bb_color c .Bishop ||| pos.pieces_bb_color c .Queen) |||
   attacks.rook sq pos.occupied &&&
     (pos.pieces_bb_color c .Rook ||| pos.pieces_bb_color c .Queen)) > 0

instance (pos : Position) (sq : Square) (c : Color) : Decidable (pos.is_attacked sq c) := by
  unfold Position.is_attacked
  infer_instance

/-- `Position::king_sq`. -/
def Position.king_sq (pos : Position) (c : Color) : Square :=
  trailingZeros64 (pos.pieces_bb_color c .King)

/-- `Position::is_checked`. -/
def Position.is_checked (pos : Position) (c : Color) : Prop :=
  pos.is_attacked (pos.king_sq c) c.opp

instance (pos : Position) (c : Color) : Decidable (pos.is_checked c) := by
  unfold Position.is_checked
  infer_instance

/-- `Position::update_castling_rights_color`. -/
def Position.update_castling_rights_color (pos : Position) (color : Color)
    (fromSq toSq : Square) : Position :=
  if color = .White then
    let p := if fromSq = 4 ∨ toSq = 4 then
        { pos with castling_rights :=
            pos.castling_rights &&& CastlingRights.complement CastlingRights.WHITE }
      else pos
    let p := if fromSq = 0 ∨ toSq = 0 then
        { p with castling_rights :=
            p.castling_rights &&& CastlingRights.complement CastlingRights.WHITE_QUEEN_SIDE }
      else p
    if fromSq = 7 ∨ toSq = 7 then
      { p with castling_rights :=
          p.castling_rights &&& CastlingRights.complement CastlingRights.WHITE_KING_SIDE }
    else p
  else
    let p := if fromSq = 60 ∨ toSq = 60 then
        { pos with castling_rights :=
            pos.castling_rights &&& CastlingRights.complement CastlingRights.BLACK }
      else pos
    let p := if fromSq = 56 ∨ toSq = 56 then
        { p with castling_rights :=
            p.castling_rights &&& CastlingRights.complement CastlingRights.BLACK_QUEEN_SIDE }
      else p
    if fromSq = 63 ∨ toSq = 63 then
      { p with castling_rights :=
          p.castling_rights &&& CastlingRights.complement CastlingRights.BLACK_KING_SIDE }
    else p

/-- The simulated en-passant capture tested inside `Position::do_move`'s
legality loop: the enemy pawn moves from `enemy_sq` to `ep`, our pushed pawn
on `toSq` is removed. -/
def Position.ep_sim (stm : Color) (toSq ep enemy_sq : Square) (pos : Position) : Position :=
  let enemy_pawn := pos.piece_at enemy_sq
  let p1 := (pos.remove_piecetype stm.opp .Pawn enemy_sq).place_piece stm.opp enemy_pawn ep
  p1.remove_piecetype stm .Pawn toSq

/-- The en-passant legality loop of `Position::do_move`: pop candidate enemy
pawns LSB-first, simulate the en-passant capture, test whether the capturing
side's own king is attacked, undo the simulation; on the first legal capture
set the en-passant square and stop. The fuel of 64 covers any 64-bit mask. -/
def Position.ep_candidate_loop (stm : Color) (piece : Piece) (toSq ep : Square) :
    Nat → Position → Nat → Position
  | _, pos, 0 => pos
  | mask, pos, fuel + 1 =>
    if mask = 0 then pos
    else
      let enemy_sq := trailingZeros64 mask
      let mask1 := mask &&& (mask - 1)
      let enemy_pawn := pos.piece_at enemy_sq
      let p2 := Position.ep_sim stm toSq ep enemy_sq pos
      let checked := p2.is_checked stm.opp
      let p3 := ((p2.place_piece stm.opp enemy_pawn enemy_sq).remove_piecetype
          stm.opp .Pawn ep).place_piece stm piece toSq
      if checked then Position.ep_candidate_loop stm piece toSq ep mask1 p3 fuel
      else { p3 with enpassant := ep }

/-- `Position::do_move` up to (and including) clearing the en-passant square:
piece movement, capture, castling-rights bookkeeping, clocks. -/
def Position.do_move_pre (pos : Position) (mv : Move) : Position :=
  let fromSq := mv.fromSq
  let toSq := mv.toSq
  let piece := pos.piece_at fromSq
  let pt := piece.piece_type
  let pos1 := pos.remove_piecetype pos.stm pt fromSq
  let pos2 :=
    if mv.move_type ≠ MoveType.Castle then
      let captured := pos1.piece_at toSq
      if captured ≠ Piece.noPiece then
        let cap_pt := captured.piece_type
        let p := pos1.remove_piecetype pos.stm.opp cap_pt toSq
        let p :=
          if cap_pt = PieceType.Rook then
            p.update_castling_rights_color pos.stm.opp fromSq toSq
          else p
        { p with halfm := 0 }
      else pos1
    else pos1
  let pos3 :=
    if pt = PieceType.King ∨ pt = PieceType.Rook then
      pos2.update_castling_rights_color pos.stm fromSq toSq
    else pos2
  let pos4 :=
    match mv.move_type with
    | .Promotion => pos3.place_piece pos.stm mv.promoted_piece toSq
    | .EnPassant =>
        let captured_sq := toSq ^^^ 8
        (pos3.remove_piecetype pos.stm.opp .Pawn captured_sq).place_piece pos.stm piece toSq
    | .Normal => pos3.place_piece pos.stm piece toSq
    | .Castle =>
        if mv.castle_type = CastleType.Short then
          let rook_to := if pos.stm = Color.White then 5 else 61
          let king_to := if pos.stm = Color.White then 6 else 62
          let rook := pos3.piece_at toSq
          ((pos3.remove_piecetype pos.stm .Rook toSq).place_piece pos.stm rook
              rook_to).place_piece pos.stm piece king_to
        else
          let rook_to := if pos.stm = Color.White then 3 else 59
          let king_to := if pos.stm = Color.White then 2 else 58
          let rook := pos3.piece_at toSq
          ((pos3.remove_piecetype pos.stm .Rook toSq).place_piece pos.stm rook
              rook_to).place_piece pos.stm piece king_to
  let pos5 := { pos4 with halfm := if pt = PieceType.Pawn then 0 else (pos4.halfm + 1) % 256 }
  let pos6 :=
    if pos.stm = Color.Black then { pos5 with fullm := (pos5.fullm + 1) % 65536 } else pos5
  { pos6 with enpassant := Square.NONE }

/-- The candidate mask of the en-passant block: enemy pawns that
pseudo-attack the en-passant target square. -/
def Position.ep_candidates (pos : Position) (mv : Move) : Nat :=
  attacks.pawn pos.stm (mv.toSq ^^^ 8) &&&
    (pos.do_move_pre mv).pieces_bb_color pos.stm.opp .Pawn

/-- `Position::do_move`. -/
def Position.do_move (pos : Position) (mv : Move) : Position :=
  let fromSq := mv.fromSq
  let toSq := mv.toSq
  let piece := pos.piece_at fromSq
  let pt := piece.piece_type
  let pos7 := pos.do_move_pre mv
  let pos8 :=
    if pt = PieceType.Pawn ∧ ((toSq : Int) - (fromSq : Int)).natAbs = 16 then
      let ep := toSq ^^^ 8
      let ep_mask := attacks.pawn pos.stm ep
      let enemy_mask := pos7.pieces_bb_color pos.stm.opp .Pawn
      if ep_mask &&& enemy_mask > 0 then
        Position.ep_candidate_loop pos.stm piece toSq ep (ep_mask &&& enemy_mask) pos7 64
      else pos7
    else pos7
  { pos8 with stm := pos.stm.opp }

/-- `Position::after_move`. -/
def Position.after_move (pos : Position) (mv : Move) : Position := pos.do_move mv

/-! ## `common/compressed_position.rs` -/

/-- Pop the occupied squares LSB-first (`BitboardIterator`); fuel 64 covers
any 64-bit board. -/
def natToLsbList : Nat → Nat → List Square
  | 0, _ => []
  | _, 0 => []
  | fuel + 1, n => trailingZeros64 n :: natToLsbList fuel (n &&& (n - 1))

/-- `CompressedPosition`: the occupancy board plus 16 bytes of packed
nibbles, two per byte, low nibble first. -/
structure CompressedPosition where
  occupied : Nat
  packed_state : List Nat
deriving DecidableEq, Repr

/-- `CompressedPosition::read_from_big_endian`. -/
def CompressedPosition.read_from_big_endian (data : List Nat) : CompressedPosition :=
  { occupied :=
      (data.getD 0 0 <<< 56) ||| (data.getD 1 0 <<< 48) ||| (data.getD 2 0 <<< 40) |||
      (data.getD 3 0 <<< 32) ||| (data.getD 4 0 <<< 24) ||| (data.getD 5 0 <<< 16) |||
      (data.getD 6 0 <<< 8) ||| data.getD 7 0
    packed_state := (data.drop 8).take 16 }

/-- `CompressedPosition::write_to_big_endian` (24 output bytes). -/
def CompressedPosition.write_to_big_endian (c : CompressedPosition) : List Nat :=
  [(c.occupied >>> 56) % 256, (c.occupied >>> 48) &&& 255, (c.occupied >>> 40) &&& 255,
   (c.occupied >>> 32) &&& 255, (c.occupied >>> 24) &&& 255, (c.occupied >>> 16) &&& 255,
   (c.occupied >>> 8) &&& 255, c.occupied &&& 255] ++ c.packed_state

/-- The nibble decoder closure of `CompressedPosition::decompress`. -/
def CompressedPosition.decompress_piece (pos : Position) (sq : Square) (nibble : Nat) :
    Position :=
  if nibble ≤ 11 then pos.place (Piece.from_id nibble) sq
  else if nibble = 12 then
    if sq.rankIdx = 3 then
      (pos.place Piece.WHITE_PAWN sq).set_ep_square_unchecked (sq - 8)
    else
      (pos.place Piece.BLACK_PAWN sq).set_ep_square_unchecked (sq + 8)
  else if nibble = 13 then
    let p := pos.place Piece.WHITE_ROOK sq
    if sq = 0 then p.add_castling_rights CastlingRights.WHITE_QUEEN_SIDE
    else p.add_castling_rights CastlingRights.WHITE_KING_SIDE
  else if nibble = 14 then
    let p := pos.place Piece.BLACK_ROOK sq
    if sq = 56 then p.add_castling_rights CastlingRights.BLACK_QUEEN_SIDE
    else p.add_castling_rights CastlingRights.BLACK_KING_SIDE
  else
    (pos.place Piece.BLACK_KING sq).set_side_to_move .Black

/-- The chunk walk of `CompressedPosition::decompress`: one byte feeds two
squares, low nibble first, stopping when the squares run out. -/
def CompressedPosition.decompress_loop : List Nat → List Square → Position → Position
  | [], _, pos => pos
  | _ :: _, [], pos => pos
  | chunk :: chunks, sq :: sqs, pos =>
    let pos1 := CompressedPosition.decompress_piece pos sq (chunk &&& 0xF)
    match sqs with
    | [] => pos1
    | sq2 :: rest =>
        CompressedPosition.decompress_loop chunks rest
          (CompressedPosition.decompress_piece pos1 sq2 (chunk >>> 4))

/-- `CompressedPosition::decompress`. -/
def CompressedPosition.decompress (c : CompressedPosition) : Position :=
  let pos := Position.empty.set_castling_rights CastlingRights.NONE
  CompressedPosition.decompress_loop c.packed_state (natToLsbList 64 c.occupied) pos

/-- The `pack_piece` closure of `CompressedPosition::compress`. -/
def CompressedPosition.pack_piece (pos : Position) (sq : Square) : Nat :=
  let piece := pos.piece_at sq
  let piece_id := piece.id
  if piece.piece_type = PieceType.Pawn ∧ pos.ep_square ≠ Square.NONE ∧
      ((piece.color = Color.White ∧ sq.rankIdx = 3 ∧ pos.ep_square = sq - 8) ∨
        (piece.color = Color.Black ∧ sq.rankIdx = 4 ∧ pos.ep_square = sq + 8)) then 12
  else if piece = Piece.WHITE_ROOK ∧
      ((sq = 0 ∧
          CastlingRights.containsCR pos.castling_rights CastlingRights.WHITE_QUEEN_SIDE) ∨
        (sq = 7 ∧
          CastlingRights.containsCR pos.castling_rights CastlingRights.WHITE_KING_SIDE)) then 13
  else if piece = Piece.BLACK_ROOK ∧
      ((sq = 56 ∧
          CastlingRights.containsCR pos.castling_rights CastlingRights.BLACK_QUEEN_SIDE) ∨
        (sq = 63 ∧
          CastlingRights.containsCR pos.castling_rights CastlingRights.BLACK_KING_SIDE)) then 14
  else if piece = Piece.BLACK_KING ∧ pos.stm = Color.Black then 15
  else piece_id

/-- The nibble-writing walk of `CompressedPosition::compress`. -/
def CompressedPosition.compress_loop (pos : Position) :
    List Square → Nat → Nat → List Nat → List Nat
  | [], _, _, packed => packed
  | sq :: rest, nibble_idx, idx, packed =>
    let nibble := CompressedPosition.pack_piece pos sq
    if nibble_idx % 2 = 0 then
      CompressedPosition.compress_loop pos rest (nibble_idx + 1) idx (packed.set idx nibble)
    else
      CompressedPosition.compress_loop pos rest (nibble_idx + 1) (idx + 1)
        (packed.set idx (packed.getD idx 0 ||| (nibble <<< 4)))

/-- `CompressedPosition::compress`. -/
def CompressedPosition.compress (pos : Position) : CompressedPosition :=
  { occupied := pos.occupied
    packed_state :=
      CompressedPosition.compress_loop pos (natToLsbList 64 pos.occupied) 0 0
        (List.replicate 16 0) }

/-- The per-square effect of `CompressedPosition::decompress` once the nibble
stream has been unpacked from the bytes: fold the nibble decoder over the
occupied squares, each square receiving the nibble that `compress` packed for
it. -/
def CompressedPosition.decode_fold (pos : Position) : List Square → Position → Position
  | [], p => p
  | sq :: rest, p =>
      CompressedPosition.decode_fold pos rest
        (CompressedPosition.decompress_piece p sq (CompressedPosition.pack_piece pos sq))

/-- The square holding the pawn that just made a double push, for a position
whose en-passant square is set: an en-passant square on rank 2 sits behind a
white pawn one rank above it, one on rank 5 behind a black pawn one rank
below it. -/
def Position.epPawnSq (pos : Position) : Square :=
  if pos.ep_square.rankIdx = 2 then pos.ep_square + 8 else pos.ep_square - 8

/-- The structural invariant of positions reachable by legal play, as far as
the position codec depends on it: the board lists have their nominal lengths,
the bitboards are 64-bit and agree square by square with the mailbox `pieces`
list, every stored piece id is a real piece, a castling right is only held
with the matching rook on its home corner, the en-passant square (when set)
is on rank 2 or 5 with the pushed pawn in front of it, Black to move implies
a black king on the board, and at most 32 squares are occupied. -/
def Position.WellFormed (pos : Position) : Prop :=
  pos.bb.length = 6 ∧ pos.bb_color.length = 2 ∧ pos.pieces.length = 64 ∧
  (∀ i : Fin 6, pos.bb.getD i.val 0 < 2 ^ 64) ∧
  (∀ c : Fin 2, pos.bb_color.getD c.val 0 < 2 ^ 64) ∧
  (∀ sq : Fin 64,
    (pos.piece_at sq.val = Piece.noPiece →
      (∀ i : Fin 6, (pos.bb.getD i.val 0).testBit sq.val = false) ∧
      (∀ c : Fin 2, (pos.bb_color.getD c.val 0).testBit sq.val = false)) ∧
    (pos.piece_at sq.val ≠ Piece.noPiece →
      (pos.piece_at sq.val).id < 12 ∧
      (∀ i : Fin 6, (pos.bb.getD i.val 0).testBit sq.val =
        decide (i.val = (pos.piece_at sq.val).piece_type.ordinal)) ∧
      (∀ c : Fin 2, (pos.bb_color.getD c.val 0).testBit sq.val =
        decide (c.val = (pos.piece_at sq.val).color.ordinal)))) ∧
  pos.castling_rights < 16 ∧
  (CastlingRights.containsCR pos.castling_rights CastlingRights.WHITE_KING_SIDE →
    pos.piece_at 7 = Piece.WHITE_ROOK) ∧
  (CastlingRights.containsCR pos.castling_rights CastlingRights.WHITE_QUEEN_SIDE →
    pos.piece_at 0 = Piece.WHITE_ROOK) ∧
  (CastlingRights.containsCR pos.castling_rights CastlingRights.BLACK_KING_SIDE →
    pos.piece_at 63 = Piece.BLACK_ROOK) ∧
  (CastlingRights.containsCR pos.castling_rights CastlingRights.BLACK_QUEEN_SIDE →
    pos.piece_at 56 = Piece.BLACK_ROOK) ∧
  (pos.ep_square = Square.NONE ∨
    (pos.ep_square.rankIdx = 2 ∧ pos.piece_at (pos.ep_square + 8) = Piece.WHITE_PAWN) ∨
    (pos.ep_square.rankIdx = 5 ∧ pos.piece_at (pos.ep_square - 8) = Piece.BLACK_PAWN)) ∧
  (pos.stm = Color.Black → ∃ sq : Fin 64, pos.piece_at sq.val = Piece.BLACK_KING) ∧
  (natToLsbList 64 pos.occupied).length ≤ 32

instance (pos : Position) : Decidable pos.WellFormed := by
  unfold Position.WellFormed
  infer_instance

/-- Invariant of the decompression fold: with `m` the set of squares still to
be processed, the partial position `p` reproduces `pos` on every processed
square and is still empty elsewhere; the side to move, castling rights and
en-passant square are exactly the contributions of the processed squares. -/
def CodecInv (pos : Position) (m : Nat) (p : Position) : Prop :=
  p.bb.length = 6 ∧ p.bb_color.length = 2 ∧ p.pieces.length = 64 ∧
  (∀ i : Fin 6, p.bb.getD i.val 0 = pos.bb.getD i.val 0 &&& Bitboard.complement m) ∧
  (∀ c : Fin 2, p.bb_color.getD c.val 0 =
    pos.bb_color.getD c.val 0 &&& Bitboard.complement m) ∧
  (∀ sq : Fin 64, p.pieces.getD sq.val Piece.noPiece =
    if m.testBit sq.val then Piece.noPiece else pos.pieces.getD sq.val Piece.noPiece) ∧
  (p.stm = if pos.stm = Color.Black ∧
      (∃ sq : Fin 64, ¬m.testBit sq.val ∧ pos.piece_at sq.val = Piece.BLACK_KING)
    then Color.Black else Color.White) ∧
  (p.castling_rights =
    (if CastlingRights.containsCR pos.castling_rights CastlingRights.WHITE_KING_SIDE ∧
        ¬m.testBit 7 then CastlingRights.WHITE_KING_SIDE else 0) |||
    (if CastlingRights.containsCR pos.castling_rights CastlingRights.WHITE_QUEEN_SIDE ∧
        ¬m.testBit 0 then CastlingRights.WHITE_QUEEN_SIDE else 0) |||
    (if CastlingRights.containsCR pos.castling_rights CastlingRights.BLACK_KING_SIDE ∧
        ¬m.testBit 63 then CastlingRights.BLACK_KING_SIDE else 0) |||
    (if CastlingRights.containsCR pos.castling_rights CastlingRights.BLACK_QUEEN_SIDE ∧
        ¬m.testBit 56 then CastlingRights.BLACK_QUEEN_SIDE else 0)) ∧
  (p.enpassant = if pos.ep_square ≠ Square.NONE ∧ ¬m.testBit pos.epPawnSq
    then pos.ep_square else Square.NONE)

/-! ## `common/entry.rs` -/

/-- `TrainingDataEntry`. -/
structure TrainingDataEntry where
  pos : Position
  mv : Move
  score : Int
  ply : Nat
  result : Int
deriving DecidableEq, Repr

/-- `TrainingDataEntry::is_continuation`. -/
def TrainingDataEntry.is_continuation (self other : TrainingDataEntry) : Prop :=
  self.result = -other.result ∧ self.ply + 1 = other.ply ∧
    self.pos.after_move self.mv = other.pos

/-- `CompressedMove::write_to_big_endian` (2 output bytes). -/
def CompressedMove.write_to_big_endian (c : CompressedMove) : List Nat :=
  [(c.packed >>> 8) % 256, c.packed &&& 0xFF]

/-- `PackedTrainingDataEntry`: the 32-byte packed stem. -/
structure PackedTrainingDataEntry where
  data : List Nat
deriving DecidableEq, Repr

/-- `PackedTrainingDataEntry::from_entry`: 24-byte position, 2-byte move,
2-byte zig-zag score, 2-byte `ply | (zigzag(result) << 14)` word, 2-byte
rule-50 counter, every word big-endian. -/
def PackedTrainingDataEntry.from_entry (entry : TrainingDataEntry) :
    PackedTrainingDataEntry :=
  let compressed_pos := CompressedPosition.compress entry.pos
  let compressed_move := CompressedMove.compress entry.mv
  let pr := entry.ply ||| ((signed_to_unsigned entry.result <<< 14) % 65536)
  ⟨compressed_pos.write_to_big_endian ++ compressed_move.write_to_big_endian ++
    [(signed_to_unsigned entry.score >>> 8) % 256, signed_to_unsigned entry.score % 256,
     (pr >>> 8) % 256, pr % 256,
     (entry.pos.rule50_counter >>> 8) % 256, entry.pos.rule50_counter % 256]⟩

/-- `PackedTrainingDataEntry::read_u16_be`. -/
def PackedTrainingDataEntry.read_u16_be (p : PackedTrainingDataEntry) (offset : Nat) : Nat :=
  (p.data.getD offset 0 <<< 8) ||| p.data.getD (offset + 1) 0

/-- `PackedTrainingDataEntry::unpack_entry`. -/
def PackedTrainingDataEntry.unpack_entry (p : PackedTrainingDataEntry) : TrainingDataEntry :=
  let compressed_pos := CompressedPosition.read_from_big_endian p.data
  let pos := compressed_pos.decompress
  let compressed_move := CompressedMove.read_from_big_endian (p.data.getD 24 0) (p.data.getD 25 0)
  let mv := compressed_move.decompress
  let score := unsigned_to_signed (p.read_u16_be 26)
  let pr := p.read_u16_be 28
  let ply := pr &&& 0x3FFF
  let result := unsigned_to_signed (pr >>> 14)
  let pos1 := pos.set_ply ply
  let pos2 := pos1.set_rule50_counter (p.read_u16_be 30)
  ⟨pos2, mv, score, ply, result⟩

/-! ## `common/compressed_training_file_reader.rs` -/

/-- `binpack_error.rs::BinpackError` (the `Io` payload is dropped). -/
inductive BinpackError where
  | Io
  | InvalidMagic
  | InvalidFormat (msg : String)
deriving DecidableEq, Repr

def MAX_CHUNK_SIZE : Nat := 100 * 1024 * 1024

/-- `CompressedTrainingDataFileReader::read_chunk_header` over the bytes at
the current file offset: a failed 8-byte `read_exact` surfaces as
`InvalidMagic`; then the magic check, then the 100 MiB bound on the
little-endian payload length. -/
def read_chunk_header (bytes : List Nat) : Except BinpackError Nat :=
  if bytes.length < 8 then .error .InvalidMagic
  else if ¬ (bytes.take 4 = [66, 73, 78, 80]) then .error .InvalidMagic
  else
    let chunk_size :=
      bytes.getD 4 0 ||| (bytes.getD 5 0 <<< 8) ||| (bytes.getD 6 0 <<< 16) |||
        (bytes.getD 7 0 <<< 24)
    if chunk_size > MAX_CHUNK_SIZE then
      .error (.InvalidFormat "Chunk size larger than supported. Malformed file?")
    else .ok chunk_size

/-- Consistency facts about the state entering the en-passant legality loop
(`s = do_move_pre`): the boards are well-shaped, the en-passant target square
is empty, the pushed pawn `piece` sits on `toSq`. They hold whenever a legal
double pawn push was just played on a consistent position. -/
def EpStateOk (stm : Color) (piece : Piece) (toSq ep : Square) (s : Position) : Prop :=
  s.bb_color.length = 2 ∧ s.bb.length = 6 ∧
  (s.bb_color.getD stm.opp.ordinal 0).testBit ep = false ∧
  (s.bb.getD 0 0).testBit ep = false ∧
  (s.bb_color.getD stm.ordinal 0).testBit toSq = true ∧
  (s.bb.getD 0 0).testBit toSq = true ∧
  s.piece_at ep = Piece.noPiece ∧ s.piece_at toSq = piece ∧
  piece.piece_type = PieceType.Pawn

instance (stm : Color) (piece : Piece) (toSq ep : Square) (s : Position) :
    Decidable (EpStateOk stm piece toSq ep s) := by
  unfold EpStateOk
  infer_instance

/-- The concrete position exhibiting the half-move-clock divergence: kings on
e1/e8, a white rook on a2, a black pawn on a4, half-move clock 5. -/
def clockBugPos : Position :=
  { ((((Position.empty.place (Piece.new .King .White) 4).place
        (Piece.new .King .Black) 60).place
        (Piece.new .Rook .White) 8).place
        (Piece.new .Pawn .Black) 24) with halfm := 5 }

/-! ### Facts about the 16-bit primitives -/

lemma testBit_high_u16 {x : Nat} (h : x < 65536) {j : Nat} (hj : 16 ≤ j) :
    x.testBit j = false :=
  Nat.testBit_lt_two_pow (lt_of_lt_of_le (by simpa using h) (Nat.pow_le_pow_right (by omega) hj))

lemma testBit_and_one (x i : Nat) : (x &&& 1).testBit i = (decide (i = 0) && x.testBit 0) := by
  rw [Nat.and_one_is_mod, show (2 : Nat) = 2 ^ 1 from by norm_num, Nat.testBit_mod_two_pow]
  rcases eq_or_ne i 0 with rfl | hi
  · simp
  · simp [hi, show ¬ i < 1 from by omega]

lemma testBit_rotl {x : Nat} (h : x < 65536) (i : Nat) :
    (u16_rotate_left1 x).testBit i =
      if i = 0 then x.testBit 15 else if i < 16 then x.testBit (i - 1) else false := by
  unfold u16_rotate_left1
  rw [show (65536 : Nat) = 2 ^ 16 from by norm_num]
  simp only [Nat.testBit_or, Nat.testBit_mod_two_pow, Nat.testBit_shiftLeft,
    Nat.testBit_shiftRight]
  rcases eq_or_ne i 0 with rfl | h0
  · simp
  · by_cases hlt : i < 16
    · have h15 : x.testBit (15 + i) = false := testBit_high_u16 h (by omega)
      simp [h0, hlt, h15, show i ≥ 1 from by omega]
    · have h15 : x.testBit (15 + i) = false := testBit_high_u16 h (by omega)
      simp [h0, hlt, h15]

lemma testBit_rotr {x : Nat} (h : x < 65536) (i : Nat) :
    (u16_rotate_right1 x).testBit i =
      if i = 15 then x.testBit 0 else if i < 15 then x.testBit (i + 1) else false := by
  unfold u16_rotate_right1
  simp only [Nat.testBit_or, Nat.testBit_shiftLeft, Nat.testBit_shiftRight, testBit_and_one]
  rcases eq_or_ne i 15 with rfl | h15
  · simp [testBit_high_u16 h (show 16 ≤ 1 + 15 from by omega)]
  · by_cases hlt : i < 15
    · simp [h15, hlt, show ¬ 15 ≤ i from by omega, Nat.add_comm 1 i]
    · simp [h15, hlt, show 15 ≤ i from by omega, show i - 15 ≠ 0 from by omega,
        testBit_high_u16 h (show 16 ≤ 1 + i from by omega)]

lemma u16_rotate_left1_lt {x : Nat} (h : x < 65536) : u16_rotate_left1 x < 65536 := by
  have h1 : (x <<< 1) % 65536 < 2 ^ 16 := by
    have := Nat.mod_lt (x <<< 1) (show 0 < 65536 from by norm_num)
    omega
  have h2 : x >>> 15 < 2 ^ 16 := by
    rw [Nat.shiftRight_eq_div_pow]
    omega
  calc u16_rotate_left1 x < 2 ^ 16 := Nat.or_lt_two_pow h1 h2
    _ = 65536 := by norm_num

lemma u16_rotate_right1_lt {x : Nat} (h : x < 65536) : u16_rotate_right1 x < 65536 := by
  have h2 : x >>> 1 < 2 ^ 16 := by
    rw [Nat.shiftRight_eq_div_pow]
    omega
  have h3 : (x &&& 1) <<< 15 < 2 ^ 16 := by
    rw [Nat.shiftLeft_eq]
    have h1 : x &&& 1 ≤ 1 := Nat.and_le_right
    nlinarith [h1]
  calc u16_rotate_right1 x < 2 ^ 16 := Nat.or_lt_two_pow h2 h3
    _ = 65536 := by norm_num

lemma rotr_rotl {x : Nat} (h : x < 65536) :
    u16_rotate_right1 (u16_rotate_left1 x) = x := by
  apply Nat.eq_of_testBit_eq
  intro i
  rw [testBit_rotr (u16_rotate_left1_lt h), testBit_rotl h, testBit_rotl h]
  rcases eq_or_ne i 15 with rfl | h15
  · simp
  · by_cases hlt : i < 15
    · simp [h15, hlt, show i + 1 ≠ 0 from by omega, show i + 1 < 16 from by omega]
    · have h16 : 16 ≤ i := by omega
      simp [h15, hlt, show ¬ i < 16 from by omega, testBit_high_u16 h h16]

lemma rotl_rotr {x : Nat} (h : x < 65536) :
    u16_rotate_left1 (u16_rotate_right1 x) = x := by
  have hr : u16_rotate_right1 x < 65536 := u16_rotate_right1_lt h
  apply Nat.eq_of_testBit_eq
  intro i
  rw [testBit_rotl hr i]
  rcases eq_or_ne i 0 with rfl | h0
  · rw [if_pos rfl, testBit_rotr h]
    simp
  · rw [if_neg h0]
    by_cases hlt : i < 16
    · rw [if_pos hlt, testBit_rotr h]
      rcases eq_or_ne (i - 1) 15 with he | hne
      · have : i = 16 := by omega
        omega
      · rw [if_neg hne, if_pos (by omega : i - 1 < 15), show i - 1 + 1 = i from by omega]
    · rw [if_neg hlt, Eq.comm]
      exact testBit_high_u16 h (by omega)

lemma i16_to_u16_lt (a : Int) : i16_to_u16 a < 65536 := by
  unfold i16_to_u16
  have h1 : 0 ≤ a % 65536 := Int.emod_nonneg a (by norm_num)
  have h2 : a % 65536 < 65536 := Int.emod_lt_of_pos a (by norm_num)
  omega

lemma xor_7FFF_lt {r : Nat} (h : r < 65536) : r ^^^ 0x7FFF < 65536 := by
  calc r ^^^ 0x7FFF < 2 ^ 16 := Nat.xor_lt_two_pow (by simpa using h) (by norm_num)
    _ = 65536 := by norm_num

/-- `x &&& 0x8000 ≠ 0` tests bit 15. -/
lemma and_8000_ne_zero_iff (x : Nat) : x &&& 0x8000 ≠ 0 ↔ x.testBit 15 = true := by
  rw [show (0x8000 : Nat) = 2 ^ 15 from by norm_num]
  rw [Nat.and_two_pow]
  rcases hb : x.testBit 15 with _ | _ <;> simp [hb]

/-- Xor with `0x7FFF` leaves bit 15 unchanged. -/
lemma testBit15_xor_7FFF (x : Nat) : (x ^^^ 0x7FFF).testBit 15 = x.testBit 15 := by
  rw [Nat.testBit_xor]
  have h : (0x7FFF : Nat).testBit 15 = false := by
    rw [show (0x7FFF : Nat) = 2 ^ 15 - 1 from by norm_num, Nat.testBit_two_pow_sub_one]
    simp
  simp [h]

lemma u16_i16_u16 {r : Nat} (h : r < 65536) : i16_to_u16 (u16_to_i16 r) = r := by
  unfold i16_to_u16 u16_to_i16
  by_cases hlt : r < 32768
  · rw [if_pos hlt]
    omega
  · rw [if_neg hlt]
    omega

lemma i16_u16_i16 {a : Int} (hlo : -32768 ≤ a) (hhi : a < 32768) :
    u16_to_i16 (i16_to_u16 a) = a := by
  unfold i16_to_u16 u16_to_i16
  rcases le_or_lt 0 a with hpos | hneg
  · rw [Int.emod_eq_of_lt hpos (by omega)]
    have : (a.toNat : Int) = a := Int.toNat_of_nonneg hpos
    rw [if_pos (by omega)]
    omega
  · have he : a % 65536 = a + 65536 := by omega
    rw [he]
    rw [if_neg (by omega)]
    omega

/-- The zig-zag branch applied on the encoder side. -/
lemma s2u_eq (a : Int) :
    signed_to_unsigned a =
      u16_rotate_left1
        (if (i16_to_u16 a).testBit 15 then i16_to_u16 a ^^^ 0x7FFF else i16_to_u16 a) := by
  unfold signed_to_unsigned
  by_cases hb : (i16_to_u16 a).testBit 15
  · simp only [(and_8000_ne_zero_iff (i16_to_u16 a)).mpr hb, hb]
    simp [and_8000_ne_zero_iff, hb]
  · have : ¬ (i16_to_u16 a &&& 0x8000 ≠ 0) := fun hc => hb ((and_8000_ne_zero_iff _).mp hc)
    simp only [this, hb]
    simp [and_8000_ne_zero_iff, hb]

/-- The zig-zag branch applied on the decoder side. -/
lemma u2s_eq (r : Nat) :
    unsigned_to_signed r =
      u16_to_i16
        (if (u16_rotate_right1 r).testBit 15 then u16_rotate_right1 r ^^^ 0x7FFF
         else u16_rotate_right1 r) := by
  unfold unsigned_to_signed
  by_cases hb : (u16_rotate_right1 r).testBit 15
  · simp [and_8000_ne_zero_iff, hb]
  · simp [and_8000_ne_zero_iff, hb]

lemma unsigned_to_signed_signed_to_unsigned {a : Int} (hlo : -32768 ≤ a) (hhi : a < 32768) :
    unsigned_to_signed (signed_to_unsigned a) = a := by
  have hr0 : i16_to_u16 a < 65536 := i16_to_u16_lt a
  rw [s2u_eq, u2s_eq]
  by_cases hb : (i16_to_u16 a).testBit 15
  · rw [if_pos hb]
    have hr1 : i16_to_u16 a ^^^ 0x7FFF < 65536 := xor_7FFF_lt hr0
    rw [rotr_rotl hr1]
    rw [if_pos (by rw [testBit15_xor_7FFF]; exact hb)]
    rw [Nat.xor_cancel_right]
    exact i16_u16_i16 hlo hhi
  · rw [if_neg hb, rotr_rotl hr0, if_neg hb]
    exact i16_u16_i16 hlo hhi

lemma signed_to_unsigned_unsigned_to_signed {r : Nat} (h : r < 65536) :
    signed_to_unsigned (unsigned_to_signed r) = r := by
  have hv0 : u16_rotate_right1 r < 65536 := u16_rotate_right1_lt h
  rw [u2s_eq, s2u_eq]
  by_cases hb : (u16_rotate_right1 r).testBit 15
  · rw [if_pos hb]
    have hv1 : u16_rotate_right1 r ^^^ 0x7FFF < 65536 := xor_7FFF_lt hv0
    rw [u16_i16_u16 hv1]
    rw [if_pos (by rw [testBit15_xor_7FFF]; exact hb)]
    rw [Nat.xor_cancel_right]
    exact rotl_rotr h
  · rw [if_neg hb, u16_i16_u16 hv0, if_neg hb]
    exact rotl_rotr h

/-- **C8.** `signed_to_unsigned` and `unsigned_to_signed` are mutually inverse
bijections over all 16-bit values: decoding after encoding is the identity on
every `i16` value, encoding after decoding is the identity on every `u16`
value, and the encoder maps `0 ↦ 0`, `-1 ↦ 1`, `1 ↦ 2`, `-2 ↦ 3`, `2 ↦ 4`. -/
theorem zigzag_bijective :
    (∀ a : Int, -32768 ≤ a → a < 32768 →
        unsigned_to_signed (signed_to_unsigned a) = a) ∧
    (∀ r : Nat, r < 65536 → signed_to_unsigned (unsigned_to_signed r) = r) ∧
    signed_to_unsigned 0 = 0 ∧ signed_to_unsigned (-1) = 1 ∧
    signed_to_unsigned 1 = 2 ∧ signed_to_unsigned (-2) = 3 ∧
    signed_to_unsigned 2 = 4 := by
  refine ⟨fun a hlo hhi => unsigned_to_signed_signed_to_unsigned hlo hhi,
    fun r h => signed_to_unsigned_unsigned_to_signed h, ?_, ?_, ?_, ?_, ?_⟩ <;> decide

/-- Witness for C8 at concrete inputs. -/
theorem zigzag_bijective_witness :
    unsigned_to_signed (signed_to_unsigned (-12345)) = -12345 ∧
    signed_to_unsigned (unsigned_to_signed 54321) = 54321 :=
  ⟨zigzag_bijective.1 (-12345) (by decide) (by decide),
   zigzag_bijective.2.1 54321 (by decide)⟩

/-! ### The 16-bit move packing -/

lemma testBit_ge {x n j : Nat} (h : x < 2 ^ n) (hj : n ≤ j) : x.testBit j = false :=
  Nat.testBit_lt_two_pow (lt_of_lt_of_le h (Nat.pow_le_pow_right (by omega) hj))

lemma testBit_movePack {t f v p : Nat} (ht : t < 4) (hf : f < 64) (hv : v < 64)
    (hp : p < 4) (i : Nat) :
    ((t <<< 14) ||| (f <<< 8) ||| (v <<< 2) ||| p).testBit i =
      if i < 2 then p.testBit i
      else if i < 8 then v.testBit (i - 2)
      else if i < 14 then f.testBit (i - 8)
      else t.testBit (i - 14) := by
  simp only [Nat.testBit_or, Nat.testBit_shiftLeft, ge_iff_le]
  by_cases h2 : i < 2
  · rw [if_pos h2]
    simp [show ¬ (14 ≤ i) from by omega, show ¬ (8 ≤ i) from by omega,
      show ¬ (2 ≤ i) from by omega]
  · rw [if_neg h2]
    by_cases h8 : i < 8
    · rw [if_pos h8]
      simp [show ¬ (14 ≤ i) from by omega, show ¬ (8 ≤ i) from by omega,
        show 2 ≤ i from by omega, testBit_ge hp (show 2 ≤ i from by omega)]
    · rw [if_neg h8]
      by_cases h14 : i < 14
      · rw [if_pos h14]
        simp [show ¬ (14 ≤ i) from by omega, show 8 ≤ i from by omega,
          show 2 ≤ i from by omega, testBit_ge hp (show 2 ≤ i from by omega),
          testBit_ge hv (show 6 ≤ i - 2 from by omega)]
      · rw [if_neg h14]
        simp [show 14 ≤ i from by omega, show 8 ≤ i from by omega,
          show 2 ≤ i from by omega, testBit_ge hp (show 2 ≤ i from by omega),
          testBit_ge hv (show 6 ≤ i - 2 from by omega),
          testBit_ge hf (show 6 ≤ i - 8 from by omega)]

lemma movePack_fields {t f v p : Nat} (ht : t < 4) (hf : f < 64) (hv : v < 64) (hp : p < 4) :
    ((t <<< 14) ||| (f <<< 8) ||| (v <<< 2) ||| p) >>> 14 = t ∧
    (((t <<< 14) ||| (f <<< 8) ||| (v <<< 2) ||| p) >>> 8) &&& 63 = f ∧
    (((t <<< 14) ||| (f <<< 8) ||| (v <<< 2) ||| p) >>> 2) &&& 63 = v ∧
    ((t <<< 14) ||| (f <<< 8) ||| (v <<< 2) ||| p) &&& 3 = p := by
  have h63 : (63 : Nat) = 2 ^ 6 - 1 := by norm_num
  have h3 : (3 : Nat) = 2 ^ 2 - 1 := by norm_num
  refine ⟨?_, ?_, ?_, ?_⟩
  · apply Nat.eq_of_testBit_eq
    intro i
    rw [Nat.testBit_shiftRight, testBit_movePack ht hf hv hp]
    simp [show ¬ (14 + i < 2) from by omega, show ¬ (14 + i < 8) from by omega,
      show ¬ (14 + i < 14) from by omega, Nat.add_sub_cancel_left]
  · apply Nat.eq_of_testBit_eq
    intro i
    rw [h63, Nat.testBit_and, Nat.testBit_two_pow_sub_one, Nat.testBit_shiftRight,
      testBit_movePack ht hf hv hp]
    by_cases hi : i < 6
    · simp [show ¬ (8 + i < 2) from by omega, show ¬ (8 + i < 8) from by omega,
        show 8 + i < 14 from by omega, Nat.add_sub_cancel_left, hi]
    · simp [hi, testBit_ge hf (show 6 ≤ i from by omega)]
  · apply Nat.eq_of_testBit_eq
    intro i
    rw [h63, Nat.testBit_and, Nat.testBit_two_pow_sub_one, Nat.testBit_shiftRight,
      testBit_movePack ht hf hv hp]
    by_cases hi : i < 6
    · simp [show ¬ (2 + i < 2) from by omega, show 2 + i < 8 from by omega,
        Nat.add_sub_cancel_left, hi]
    · simp [hi, testBit_ge hv (show 6 ≤ i from by omega)]
  · apply Nat.eq_of_testBit_eq
    intro i
    rw [h3, Nat.testBit_and, Nat.testBit_two_pow_sub_one, testBit_movePack ht hf hv hp]
    by_cases hi : i < 2
    · simp [hi]
    · simp [hi, testBit_ge hp (show 2 ≤ i from by omega)]

lemma MoveType.from_ordinal_ordinal (mt : MoveType) : MoveType.from_ordinal mt.ordinal = mt := by
  cases mt <;> rfl

lemma MoveType.ordinal_lt (mt : MoveType) : mt.ordinal < 4 := by
  cases mt <;> simp [MoveType.ordinal]

/-- The 16-bit move codec round-trips on every valid move. -/
lemma move_roundtrip_aux (m : Move) (hv : m.valid) :
    (CompressedMove.compress m).decompress = m := by
  rcases hv with rfl | ⟨hf, ht, hne, hrest⟩
  · decide
  · rcases m with ⟨f, v, mt, pp⟩
    simp only at hf ht hne hrest
    by_cases hmt : mt = MoveType.Promotion
    · subst hmt
      obtain ⟨hptv, hppeq, hcol⟩ := hrest
      have hpo : pp.piece_type.ordinal - PieceType.Knight.ordinal < 4 ∧
          pp.piece_type.ordinal - PieceType.Knight.ordinal + PieceType.Knight.ordinal =
            pp.piece_type.ordinal := by
        rcases hptv with h | h | h | h <;> rw [h] <;> decide
      obtain ⟨hzt, hzf, hzv, hzp⟩ :=
        movePack_fields (MoveType.ordinal_lt .Promotion) hf ht hpo.1
      have hcomp : CompressedMove.compress ⟨f, v, .Promotion, pp⟩ =
          ⟨(MoveType.Promotion.ordinal <<< 14) ||| (f <<< 8) ||| (v <<< 2) |||
            (pp.piece_type.ordinal - PieceType.Knight.ordinal)⟩ := by
        simp [CompressedMove.compress, CompressedMove.from_move, hne]
      rw [hcomp]
      have hnz : (MoveType.Promotion.ordinal <<< 14) ||| (f <<< 8) ||| (v <<< 2) |||
          (pp.piece_type.ordinal - PieceType.Knight.ordinal) ≠ 0 := by
        intro h0
        rw [h0] at hzt
        simp [MoveType.ordinal] at hzt
      have hmty : CompressedMove.move_type ⟨(MoveType.Promotion.ordinal <<< 14) |||
          (f <<< 8) ||| (v <<< 2) ||| (pp.piece_type.ordinal - PieceType.Knight.ordinal)⟩ =
          MoveType.Promotion := by
        rw [CompressedMove.move_type, hzt, MoveType.from_ordinal_ordinal]
      have hfeq : CompressedMove.fromSq ⟨(MoveType.Promotion.ordinal <<< 14) |||
          (f <<< 8) ||| (v <<< 2) ||| (pp.piece_type.ordinal - PieceType.Knight.ordinal)⟩ = f := by
        rw [CompressedMove.fromSq, hzf]
      have hteq : CompressedMove.toSq ⟨(MoveType.Promotion.ordinal <<< 14) |||
          (f <<< 8) ||| (v <<< 2) ||| (pp.piece_type.ordinal - PieceType.Knight.ordinal)⟩ = v := by
        rw [CompressedMove.toSq, hzv]
      have hpeq : CompressedMove.promoted_piece ⟨(MoveType.Promotion.ordinal <<< 14) |||
          (f <<< 8) ||| (v <<< 2) ||| (pp.piece_type.ordinal - PieceType.Knight.ordinal)⟩ = pp := by
        rw [CompressedMove.promoted_piece, if_pos hmty, hteq, hzp, hpo.2]
        rcases hcol with ⟨hr0, hcb⟩ | ⟨hr0, hcw⟩
        · rw [if_pos hr0]
          conv_rhs => rw [hppeq, hcb]
          rcases hptv with h | h | h | h <;> rw [h] <;> decide
        · rw [if_neg hr0]
          conv_rhs => rw [hppeq, hcw]
          rcases hptv with h | h | h | h <;> rw [h] <;> decide
      rw [CompressedMove.decompress, if_neg hnz, hfeq, hteq, hmty, hpeq]
    · obtain ⟨hzt, hzf, hzv, hzp⟩ :=
        movePack_fields (MoveType.ordinal_lt mt) hf ht (show (0 : Nat) < 4 from by norm_num)
      rw [Nat.or_zero] at hzt hzf hzv hzp
      have hcomp : CompressedMove.compress ⟨f, v, mt, pp⟩ =
          ⟨(mt.ordinal <<< 14) ||| (f <<< 8) ||| (v <<< 2)⟩ := by
        simp [CompressedMove.compress, CompressedMove.from_move, hne, hmt]
      rw [hcomp]
      have hnz : (mt.ordinal <<< 14) ||| (f <<< 8) ||| (v <<< 2) ≠ 0 := by
        intro h0
        rw [h0] at hzf hzv
        simp only [Nat.zero_shiftRight, Nat.zero_and] at hzf hzv
        exact hne (hzf.symm.trans hzv)
      have hmty : CompressedMove.move_type ⟨(mt.ordinal <<< 14) ||| (f <<< 8) |||
          (v <<< 2)⟩ = mt := by
        rw [CompressedMove.move_type, hzt, MoveType.from_ordinal_ordinal]
      have hpp : pp = Piece.noPiece := by
        cases mt <;> simp_all
      have hfeq : CompressedMove.fromSq ⟨(mt.ordinal <<< 14) ||| (f <<< 8) |||
          (v <<< 2)⟩ = f := by
        rw [CompressedMove.fromSq, hzf]
      have hteq : CompressedMove.toSq ⟨(mt.ordinal <<< 14) ||| (f <<< 8) |||
          (v <<< 2)⟩ = v := by
        rw [CompressedMove.toSq, hzv]
      have hpeq : CompressedMove.promoted_piece ⟨(mt.ordinal <<< 14) ||| (f <<< 8) |||
          (v <<< 2)⟩ = pp := by
        rw [CompressedMove.promoted_piece, if_neg (by rw [hmty]; exact hmt), hpp]
      rw [CompressedMove.decompress, if_neg hnz, hfeq, hteq, hmty, hpeq]

/-- **C4.** The 16-bit move codec round-trips on every valid move (castles
encoded as king-to-own-rook-square, en-passant via the empty target square,
and the null move included). -/
theorem move_codec_roundtrip (m : Move) (hv : m.valid) :
    (CompressedMove.compress m).decompress = m := move_roundtrip_aux m hv

/-- Witness for C4 at a concrete promotion move. -/
theorem move_codec_roundtrip_witness :
    (Move.promotion 48 56 (Piece.new .Queen .White)).valid ∧
    (CompressedMove.compress
        (Move.promotion 48 56 (Piece.new .Queen .White))).decompress =
      Move.promotion 48 56 (Piece.new .Queen .White) :=
  ⟨by decide, move_codec_roundtrip _ (by decide)⟩


/-! ### C10: the rule-50 counter is stored in eight bits -/

/-- **C10.** `set_rule50_counter` truncates to eight bits: reading back gives
the counter mod 256, and unpacking a packed stem reports the 2-byte rule-50
field reduced mod 256. -/
theorem rule50_counter_eight_bits :
    (∀ (pos : Position) (c : Nat),
        (pos.set_rule50_counter c).rule50_counter = c % 256) ∧
    (∀ p : PackedTrainingDataEntry,
        p.unpack_entry.pos.rule50_counter = p.read_u16_be 30 % 256) :=
  ⟨fun _ _ => rfl, fun _ => rfl⟩

/-! ### C9: chunk-header validation -/

/-- **C9.** On a header of at least eight bytes, `read_chunk_header` fails
with `InvalidMagic` exactly when the first four bytes are not `BINP`; with
the magic right it fails as malformed when the little-endian payload length
exceeds 100 MiB and otherwise returns that length. -/
theorem read_chunk_header_cases (bytes : List Nat) (h8 : 8 ≤ bytes.length) :
    (bytes.take 4 ≠ [66, 73, 78, 80] →
        read_chunk_header bytes = .error .InvalidMagic) ∧
    (bytes.take 4 = [66, 73, 78, 80] →
      (bytes.getD 4 0 ||| (bytes.getD 5 0 <<< 8) ||| (bytes.getD 6 0 <<< 16) |||
          (bytes.getD 7 0 <<< 24)) > MAX_CHUNK_SIZE →
        read_chunk_header bytes =
          .error (.InvalidFormat "Chunk size larger than supported. Malformed file?")) ∧
    (bytes.take 4 = [66, 73, 78, 80] →
      (bytes.getD 4 0 ||| (bytes.getD 5 0 <<< 8) ||| (bytes.getD 6 0 <<< 16) |||
          (bytes.getD 7 0 <<< 24)) ≤ MAX_CHUNK_SIZE →
        read_chunk_header bytes =
          .ok (bytes.getD 4 0 ||| (bytes.getD 5 0 <<< 8) ||| (bytes.getD 6 0 <<< 16) |||
            (bytes.getD 7 0 <<< 24))) := by
  refine ⟨?_, ?_, ?_⟩
  · intro hm
    unfold read_chunk_header
    rw [if_neg (by omega), if_pos hm]
  · intro hm hsz
    unfold read_chunk_header
    rw [if_neg (by omega), if_neg (by simp [hm])]
    simp only []
    rw [if_pos hsz]
  · intro hm hsz
    unfold read_chunk_header
    rw [if_neg (by omega), if_neg (by simp [hm])]
    simp only []
    rw [if_neg (by omega)]

/-- Witness for C9: a well-formed header with payload length 5. -/
theorem read_chunk_header_cases_witness :
    8 ≤ ([66, 73, 78, 80, 5, 0, 0, 0] : List Nat).length ∧
    read_chunk_header [66, 73, 78, 80, 5, 0, 0, 0] = .ok 5 :=
  ⟨by decide,
    by
      have h := (read_chunk_header_cases [66, 73, 78, 80, 5, 0, 0, 0] (by decide)).2.2
        (by decide) (by decide)
      simpa using h⟩

/-! ### C6: the half-move clock after a capture (code bug) -/

/-- **C6** (divergence witness). `Rxa4` is a capture by a non-pawn, yet
`do_move` leaves the half-move clock at 1 — the capture branch zeroes it and
the unconditional non-pawn increment then overwrites the zero. The spec
(§4.2 step 5) requires 0 after any capture. The full-move counter behaves as
specified (White moved, so it stays 1). -/
theorem halfmove_clock_capture_divergence :
    clockBugPos.piece_at 8 = Piece.new .Rook .White ∧
    clockBugPos.piece_at 24 ≠ Piece.noPiece ∧
    clockBugPos.halfm = 5 ∧
    (clockBugPos.do_move (Move.normal 8 24)).halfm = 1 ∧
    (clockBugPos.do_move (Move.normal 8 24)).fullm = 1 := by
  decide


/-! ### C7: layout of the packed stem's ply/result word -/

lemma getD_append_ge {l1 l2 : List Nat} {n : Nat} (h : l1.length ≤ n) :
    (l1 ++ l2).getD n 0 = l2.getD (n - l1.length) 0 := by
  simp [List.getD_eq_getElem?_getD, List.getElem?_append_right h]

lemma compress_loop_length (pos : Position) :
    ∀ (sqs : List Square) (n i : Nat) (packed : List Nat),
      (CompressedPosition.compress_loop pos sqs n i packed).length = packed.length := by
  intro sqs
  induction sqs with
  | nil => intro n i packed; rfl
  | cons sq rest ih =>
    intro n i packed
    unfold CompressedPosition.compress_loop
    by_cases hpar : n % 2 = 0
    · rw [if_pos hpar, ih]
      simp
    · rw [if_neg hpar, ih]
      simp

lemma compress_packed_state_length (pos : Position) :
    (CompressedPosition.compress pos).packed_state.length = 16 := by
  unfold CompressedPosition.compress
  simp [compress_loop_length]

lemma write_to_big_endian_length (c : CompressedPosition) :
    c.write_to_big_endian.length = 8 + c.packed_state.length := by
  unfold CompressedPosition.write_to_big_endian
  simp
  omega

/-- Byte layout of the tail of a packed stem: offsets 26-27 hold the
big-endian zig-zag score, offsets 28-29 the big-endian
`ply | (zigzag(result) << 14)` word, offsets 30-31 the rule-50 counter. -/
lemma from_entry_data_layout (entry : TrainingDataEntry) :
    (PackedTrainingDataEntry.from_entry entry).data.getD 26 0 =
      (signed_to_unsigned entry.score >>> 8) % 256 ∧
    (PackedTrainingDataEntry.from_entry entry).data.getD 27 0 =
      signed_to_unsigned entry.score % 256 ∧
    (PackedTrainingDataEntry.from_entry entry).data.getD 28 0 =
      ((entry.ply ||| ((signed_to_unsigned entry.result <<< 14) % 65536)) >>> 8) % 256 ∧
    (PackedTrainingDataEntry.from_entry entry).data.getD 29 0 =
      (entry.ply ||| ((signed_to_unsigned entry.result <<< 14) % 65536)) % 256 ∧
    (PackedTrainingDataEntry.from_entry entry).data.getD 30 0 =
      (entry.pos.rule50_counter >>> 8) % 256 ∧
    (PackedTrainingDataEntry.from_entry entry).data.getD 31 0 =
      entry.pos.rule50_counter % 256 := by
  unfold PackedTrainingDataEntry.from_entry
  have h24 : (CompressedPosition.compress entry.pos).write_to_big_endian.length = 24 := by
    rw [write_to_big_endian_length, compress_packed_state_length]
  have h2 : (CompressedMove.compress entry.mv).write_to_big_endian.length = 2 := rfl
  have hmle : ∀ n : Nat, 2 ≤ n →
      (CompressedMove.compress entry.mv).write_to_big_endian.length ≤ n := by
    intro n hn
    rw [h2]
    exact hn
  refine ⟨?_, ?_, ?_, ?_, ?_, ?_⟩ <;>
    · dsimp only
      rw [List.append_assoc, getD_append_ge (by omega), h24,
        getD_append_ge (hmle _ (by omega)), h2]
      try rfl

/-- **C7** (counterexample). For the entry with the empty position, the null
move, score −127, ply 39, result 0, byte 27 of the packed stem is the low
byte of the zig-zag score (253), not the low byte of
`(zigzag(result) << 14) | (ply & 0x3FFF)` (39): the ply/result word does not
live at offsets 26-27. -/
theorem packed_stem_word_at_26_refuted :
    (PackedTrainingDataEntry.from_entry
        ⟨Position.empty, Move.null, -127, 39, 0⟩).data.getD 27 0 ≠
      ((signed_to_unsigned 0 <<< 14) ||| (39 &&& 0x3FFF)) % 256 := by
  decide

/-- **C7** (amended). For every entry with a `u16` ply, bytes 28 and 29 of
the packed stem hold the big-endian 16-bit word
`ply | (zigzag(result) << 14)` — the full ply is OR-ed in unmasked — while
bytes 26 and 27 hold the big-endian zig-zag score. -/
theorem packed_stem_ply_result_word (entry : TrainingDataEntry)
    (hply : entry.ply < 65536) :
    (PackedTrainingDataEntry.from_entry entry).data.getD 28 0 =
      ((entry.ply ||| ((signed_to_unsigned entry.result <<< 14) % 65536)) >>> 8) % 256 ∧
    (PackedTrainingDataEntry.from_entry entry).data.getD 29 0 =
      (entry.ply ||| ((signed_to_unsigned entry.result <<< 14) % 65536)) % 256 ∧
    (PackedTrainingDataEntry.from_entry entry).data.getD 26 0 =
      (signed_to_unsigned entry.score >>> 8) % 256 ∧
    (PackedTrainingDataEntry.from_entry entry).data.getD 27 0 =
      signed_to_unsigned entry.score % 256 := by
  obtain ⟨h26, h27, h28, h29, _, _⟩ := from_entry_data_layout entry
  exact ⟨h28, h29, h26, h27⟩

/-- Witness for the amended C7 at the concrete counterexample entry. -/
theorem packed_stem_ply_result_word_witness :
    (PackedTrainingDataEntry.from_entry
        ⟨Position.empty, Move.null, -127, 39, 0⟩).data.getD 28 0 = 0 ∧
    (PackedTrainingDataEntry.from_entry
        ⟨Position.empty, Move.null, -127, 39, 0⟩).data.getD 29 0 = 39 := by
  have h := packed_stem_ply_result_word ⟨Position.empty, Move.null, -127, 39, 0⟩ (by decide)
  exact ⟨h.1.trans (by decide), h.2.1.trans (by decide)⟩


/-! ### C5: the en-passant rule of `do_move` -/

lemma testBit_one_shift (k i : Nat) : (1 <<< k).testBit i = decide (i = k) := by
  rw [Nat.testBit_shiftLeft]
  rcases lt_trichotomy i k with h | rfl | h
  · simp [show ¬ (k ≤ i) from by omega, show i ≠ k from by omega]
  · simp [Nat.testBit_zero]
  · have h1 : (1 : Nat).testBit (i - k) = false := by
      rw [show (1 : Nat) = 2 ^ 0 from by norm_num]
      exact Nat.testBit_two_pow_of_ne (by omega)
    simp [show k ≤ i from by omega, h1, show i ≠ k from by omega]

lemma xor_or_self_restore {x : Nat} {t : Nat} (h : x.testBit t = true) :
    (x ^^^ (1 <<< t)) ||| (1 <<< t) = x := by
  apply Nat.eq_of_testBit_eq
  intro i
  simp only [Nat.testBit_or, Nat.testBit_xor, testBit_one_shift]
  rcases eq_or_ne i t with rfl | hne
  · simp [h]
  · simp [hne]

lemma bit_restore_enemy {x : Nat} {c e : Nat} (hc : x.testBit c = true)
    (he : x.testBit e = false) (hne : c ≠ e) :
    ((((x ^^^ (1 <<< c)) ||| (1 <<< e)) ||| (1 <<< c)) ^^^ (1 <<< e)) = x := by
  apply Nat.eq_of_testBit_eq
  intro i
  simp only [Nat.testBit_or, Nat.testBit_xor, testBit_one_shift]
  rcases eq_or_ne i c with rfl | hic
  · simp [hc, hne, he]
  · rcases eq_or_ne i e with rfl | hie
    · simp [he, hic]
    · simp [hic, hie]

lemma bit_restore_pawnbb {x : Nat} {c e t : Nat} (hc : x.testBit c = true)
    (he : x.testBit e = false) (ht : x.testBit t = true)
    (hce : c ≠ e) (hct : c ≠ t) (het : e ≠ t) :
    ((((((x ^^^ (1 <<< c)) ||| (1 <<< e)) ^^^ (1 <<< t)) ||| (1 <<< c)) ^^^ (1 <<< e)) |||
        (1 <<< t)) = x := by
  apply Nat.eq_of_testBit_eq
  intro i
  simp only [Nat.testBit_or, Nat.testBit_xor, testBit_one_shift]
  rcases eq_or_ne i c with rfl | hic
  · simp [hc, hce, hct]
  · rcases eq_or_ne i e with rfl | hie
    · simp [he, hic, het]
    · rcases eq_or_ne i t with rfl | hit
      · simp [ht, hic, hie]
      · simp [hic, hie, hit]

lemma list_set_getD_self {α : Type} [Inhabited α] (l : List α) (i : Nat) :
    l.set i (l.getD i default) = l := by
  by_cases h : i < l.length
  · apply List.ext_getElem
    · simp
    · intro n h1 h2
      rcases eq_or_ne n i with rfl | hne
      · rw [List.getElem_set_self]
        rw [List.getD_eq_getElem?_getD, List.getElem?_eq_getElem h]
        rfl
      · rw [List.getElem_set_ne (by omega)]
  · rw [List.set_eq_of_length_le (by omega)]


lemma getD_set_self_nat (l : List Nat) (i : Nat) (h : i < l.length) (a : Nat) :
    (l.set i a).getD i 0 = a := by
  rw [List.getD_eq_getElem?_getD, List.getElem?_set_self (by simpa using h)]
  rfl

lemma getD_set_ne_nat (l : List Nat) {i j : Nat} (h : i ≠ j) (a : Nat) :
    (l.set i a).getD j 0 = l.getD j 0 := by
  rw [List.getD_eq_getElem?_getD, List.getElem?_set_ne h, ← List.getD_eq_getElem?_getD]

/-- `getD` agrees with `getElem` in range. -/
lemma getD_eq_getElem_of_lt {α : Type} (l : List α) (d : α) {i : Nat} (h : i < l.length) :
    l.getD i d = l[i] := by
  rw [List.getD_eq_getElem?_getD, List.getElem?_eq_getElem h]
  rfl

/-- Inside the en-passant loop, undoing the simulated capture restores the
state exactly: the candidate square holds an enemy pawn, the en-passant
target square is empty, and the pushed pawn sits on `toSq`. -/
lemma ep_sim_undo (stm : Color) (piece : Piece) (toSq ep c : Square) (s : Position)
    (hlen2 : s.bb_color.length = 2) (hlen6 : s.bb.length = 6)
    (hpt : (s.piece_at c).piece_type = PieceType.Pawn)
    (hbc_c : (s.bb_color.getD stm.opp.ordinal 0).testBit c = true)
    (hbb_c : (s.bb.getD 0 0).testBit c = true)
    (hbc_e : (s.bb_color.getD stm.opp.ordinal 0).testBit ep = false)
    (hbb_e : (s.bb.getD 0 0).testBit ep = false)
    (hbcs_t : (s.bb_color.getD stm.ordinal 0).testBit toSq = true)
    (hbb_t : (s.bb.getD 0 0).testBit toSq = true)
    (hpieces_e : s.piece_at ep = Piece.noPiece)
    (hpieces_t : s.piece_at toSq = piece)
    (hpiece_pt : piece.piece_type = PieceType.Pawn)
    (hce : c ≠ ep) (hct : c ≠ toSq) (het : ep ≠ toSq) :
    (((Position.ep_sim stm toSq ep c s).place_piece stm.opp (s.piece_at c)
        c).remove_piecetype stm.opp .Pawn ep).place_piece stm piece toSq = s := by
  have hso : stm.ordinal < 2 := by cases stm <;> decide
  have heo : stm.opp.ordinal < 2 := by cases stm <;> decide
  have hsne : stm.ordinal ≠ stm.opp.ordinal := by cases stm <;> decide
  unfold Position.ep_sim Position.place_piece Position.remove_piecetype
  dsimp only
  rcases s with ⟨bb, bbc, pcs, stm0, cr, hm, fm, epsq⟩
  simp only [Position.piece_at] at hpieces_e hpieces_t hpt ⊢
  simp only at hlen2 hlen6 hbc_c hbb_c hbc_e hbb_e hbcs_t hbb_t
  rw [hpt, hpiece_pt]
  simp only [PieceType.ordinal]
  congr 1
  · -- the six piece-type boards: only index 0 (pawns) is touched
    apply List.ext_getElem
    · simp
    · intro n h1 h2
      rcases eq_or_ne n 0 with rfl | hn0
      · rw [List.getElem_set_self (by (repeat rw [List.length_set]); omega)]
        rw [getD_set_self_nat _ _ (by (repeat rw [List.length_set]); omega),
          getD_set_self_nat _ _ (by (repeat rw [List.length_set]); omega),
          getD_set_self_nat _ _ (by (repeat rw [List.length_set]); omega),
          getD_set_self_nat _ _ (by (repeat rw [List.length_set]); omega),
          getD_set_self_nat _ _ (by (repeat rw [List.length_set]); omega)]
        rw [bit_restore_pawnbb hbb_c hbb_e hbb_t hce hct het]
        exact (getD_eq_getElem_of_lt bb 0 h2).symm ▸ rfl
      · rw [List.getElem_set_ne (Ne.symm hn0), List.getElem_set_ne (Ne.symm hn0),
          List.getElem_set_ne (Ne.symm hn0), List.getElem_set_ne (Ne.symm hn0),
          List.getElem_set_ne (Ne.symm hn0), List.getElem_set_ne (Ne.symm hn0)]
  · -- the two color boards
    apply List.ext_getElem
    · simp
    · intro n h1 h2
      rcases eq_or_ne n stm.ordinal with rfl | hns
      · rw [List.getElem_set_self (by (repeat rw [List.length_set]); omega)]
        rw [getD_set_ne_nat _ (Ne.symm hsne), getD_set_ne_nat _ (Ne.symm hsne),
          getD_set_self_nat _ _ (by (repeat rw [List.length_set]); omega),
          getD_set_ne_nat _ (Ne.symm hsne), getD_set_ne_nat _ (Ne.symm hsne)]
        rw [xor_or_self_restore hbcs_t]
        exact (getD_eq_getElem_of_lt bbc 0 h2).symm ▸ rfl
      · rcases eq_or_ne n stm.opp.ordinal with rfl | hne2
        · rw [List.getElem_set_ne hsne,
            List.getElem_set_self (by (repeat rw [List.length_set]); omega)]
          rw [getD_set_ne_nat _ hsne,
            getD_set_self_nat _ _ (by (repeat rw [List.length_set]); omega),
            getD_set_self_nat _ _ (by (repeat rw [List.length_set]); omega),
            getD_set_self_nat _ _ (by (repeat rw [List.length_set]); omega)]
          rw [bit_restore_enemy hbc_c hbc_e hce]
          exact (getD_eq_getElem_of_lt bbc 0 h2).symm ▸ rfl
        · exfalso
          have hn2 : n < 2 := by
            have := h2
            omega
          cases stm <;> simp [Color.ordinal, Color.opp] at hns hne2 <;> omega
  · -- the piece table
    apply List.ext_getElem
    · simp
    · intro n h1 h2
      rcases eq_or_ne n toSq with rfl | hnt
      · rw [List.getElem_set_self (by (repeat rw [List.length_set]); omega)]
        rw [← getD_eq_getElem_of_lt pcs Piece.noPiece h2, hpieces_t]
      · rw [List.getElem_set_ne (Ne.symm hnt)]
        rcases eq_or_ne n ep with rfl | hne
        · rw [List.getElem_set_self (by (repeat rw [List.length_set]); omega)]
          rw [← getD_eq_getElem_of_lt pcs Piece.noPiece h2, hpieces_e]
        · rw [List.getElem_set_ne (Ne.symm hne)]
          rcases eq_or_ne n c with rfl | hnc
          · rw [List.getElem_set_self (by (repeat rw [List.length_set]); omega)]
            rw [← getD_eq_getElem_of_lt pcs Piece.noPiece h2]
          · rw [List.getElem_set_ne (Ne.symm hnc), List.getElem_set_ne (Ne.symm hnt),
              List.getElem_set_ne (Ne.symm hne), List.getElem_set_ne (Ne.symm hnc)]


lemma xor8_ne (n : Nat) : n ^^^ 8 ≠ n := by
  intro h
  have h3 := congrArg (fun x => x.testBit 3) h
  simp only [Nat.testBit_xor] at h3
  have h8 : (8 : Nat).testBit 3 = true := by decide
  rw [h8] at h3
  rcases hb : n.testBit 3 <;> rw [hb] at h3 <;> simp at h3

lemma attacks_pawn_eq_zero_of_ge (c : Color) (sq : Square) (h : 64 ≤ sq) :
    attacks.pawn c sq = 0 := by
  cases c
  · show PAWN_ATTACKS_WHITE.getD sq 0 = 0
    rw [List.getD_eq_getElem?_getD,
      List.getElem?_eq_none
        (le_trans (le_of_eq (show PAWN_ATTACKS_WHITE.length = 64 from rfl)) h)]
    rfl
  · show PAWN_ATTACKS_BLACK.getD sq 0 = 0
    rw [List.getD_eq_getElem?_getD,
      List.getElem?_eq_none
        (le_trans (le_of_eq (show PAWN_ATTACKS_BLACK.length = 64 from rfl)) h)]
    rfl

lemma attacks_pawn_lt (c : Color) (sq : Square) :
    attacks.pawn c sq < 18446744073709551616 := by
  rcases lt_or_ge sq 64 with h | h
  · cases c
    · exact (show ∀ s : Fin 64, attacks.pawn .White s.val < 18446744073709551616
        from by decide) ⟨sq, h⟩
    · exact (show ∀ s : Fin 64, attacks.pawn .Black s.val < 18446744073709551616
        from by decide) ⟨sq, h⟩
  · rw [attacks_pawn_eq_zero_of_ge c sq h]
    norm_num

lemma pawn_attack_not_self (c : Color) (sq : Square) :
    (attacks.pawn c sq).testBit sq = false := by
  rcases lt_or_ge sq 64 with h | h
  · cases c
    · exact (show ∀ s : Fin 64, (attacks.pawn .White s.val).testBit s.val = false
        from by decide) ⟨sq, h⟩
    · exact (show ∀ s : Fin 64, (attacks.pawn .Black s.val).testBit s.val = false
        from by decide) ⟨sq, h⟩
  · rw [attacks_pawn_eq_zero_of_ge c sq h, Nat.zero_testBit]

lemma pawn_attack_not_push_sq (c : Color) (ep : Square) :
    (attacks.pawn c ep).testBit (ep ^^^ 8) = false := by
  rcases lt_or_ge ep 64 with h | h
  · cases c
    · exact (show ∀ s : Fin 64, (attacks.pawn .White s.val).testBit (s.val ^^^ 8) = false
        from by decide) ⟨ep, h⟩
    · exact (show ∀ s : Fin 64, (attacks.pawn .Black s.val).testBit (s.val ^^^ 8) = false
        from by decide) ⟨ep, h⟩
  · rw [attacks_pawn_eq_zero_of_ge c ep h, Nat.zero_testBit]

lemma natToLsbList_succ (f m : Nat) (hm : m ≠ 0) :
    natToLsbList (f + 1) m = trailingZeros64 m :: natToLsbList f (m &&& (m - 1)) := by
  cases m with
  | zero => exact absurd rfl hm
  | succ k => rfl

lemma trailingZeros64_testBit {m : Nat} (hm0 : m ≠ 0)
    (hm : m < 18446744073709551616) : m.testBit (trailingZeros64 m) = true := by
  obtain ⟨i, hi⟩ := Nat.ne_zero_implies_bit_true hm0
  have hm2 : m < 2 ^ 64 := by
    calc m < 18446744073709551616 := hm
      _ = 2 ^ 64 := by norm_num
  have hi64 : i < 64 := by
    by_contra hge
    rw [testBit_ge hm2 (by omega)] at hi
    exact Bool.false_ne_true hi
  unfold trailingZeros64
  rcases hf : (List.range 64).find? (fun j => m.testBit j) with _ | j
  · exfalso
    rw [List.find?_eq_none] at hf
    have := hf i (List.mem_range.mpr hi64)
    simp [hi] at this
  · have hj := List.find?_some hf
    simpa using hj

lemma mem_natToLsbList_testBit :
    ∀ (fuel m c : Nat), m < 18446744073709551616 → c ∈ natToLsbList fuel m →
      m.testBit c = true := by
  intro fuel
  induction fuel with
  | zero =>
    intro m c _ hc
    simp [natToLsbList] at hc
  | succ f ih =>
    intro m c hm hc
    rcases eq_or_ne m 0 with rfl | hm0
    · rw [show natToLsbList (f + 1) 0 = [] from rfl] at hc
      simp at hc
    · rw [natToLsbList_succ f m hm0] at hc
      rcases List.mem_cons.mp hc with rfl | htail
      · exact trailingZeros64_testBit hm0 hm
      · have hand : m &&& (m - 1) < 18446744073709551616 :=
          lt_of_le_of_lt Nat.and_le_left hm
        have h2 := ih (m &&& (m - 1)) c hand htail
        rw [Nat.testBit_and] at h2
        exact (Bool.and_eq_true_iff.mp h2).1


lemma natToLsbList_zero (mask : Nat) : natToLsbList 0 mask = [] := by
  cases mask <;> rfl

lemma natToLsbList_fuel_zero (f : Nat) : natToLsbList f 0 = [] := by
  cases f <;> rfl

lemma ep_candidate_loop_zero_fuel (stm : Color) (piece : Piece) (toSq ep mask : Square)
    (s : Position) : Position.ep_candidate_loop stm piece toSq ep mask s 0 = s := rfl

lemma ep_candidate_loop_mask_zero (stm : Color) (piece : Piece) (toSq ep : Square)
    (s : Position) (f : Nat) :
    Position.ep_candidate_loop stm piece toSq ep 0 s (f + 1) = s := rfl

lemma ep_candidate_loop_succ_eq (stm : Color) (piece : Piece) (toSq ep mask : Square)
    (s : Position) (f : Nat) (hm0 : mask ≠ 0) :
    Position.ep_candidate_loop stm piece toSq ep mask s (f + 1) =
      (if (Position.ep_sim stm toSq ep (trailingZeros64 mask) s).is_checked stm.opp then
        Position.ep_candidate_loop stm piece toSq ep (mask &&& (mask - 1))
          ((((Position.ep_sim stm toSq ep (trailingZeros64 mask) s).place_piece stm.opp
              (s.piece_at (trailingZeros64 mask))
              (trailingZeros64 mask)).remove_piecetype stm.opp .Pawn ep).place_piece stm
            piece toSq) f
      else
        { (((Position.ep_sim stm toSq ep (trailingZeros64 mask) s).place_piece stm.opp
              (s.piece_at (trailingZeros64 mask))
              (trailingZeros64 mask)).remove_piecetype stm.opp .Pawn ep).place_piece stm
            piece toSq with enpassant := ep }) := by
  conv_lhs => unfold Position.ep_candidate_loop
  rw [if_neg hm0]

lemma ep_candidate_loop_spec (stm : Color) (piece : Piece) (toSq ep : Square)
    (s : Position) (hstate : EpStateOk stm piece toSq ep s) (hept : ep ≠ toSq) :
    ∀ (fuel mask : Nat), mask < 18446744073709551616 →
      (∀ c ∈ natToLsbList fuel mask,
        (s.piece_at c).piece_type = PieceType.Pawn ∧
        (s.bb_color.getD stm.opp.ordinal 0).testBit c = true ∧
        (s.bb.getD 0 0).testBit c = true ∧ c ≠ ep ∧ c ≠ toSq) →
      Position.ep_candidate_loop stm piece toSq ep mask s fuel =
        if ∃ c ∈ natToLsbList fuel mask,
            ¬ (Position.ep_sim stm toSq ep c s).is_checked stm.opp
        then { s with enpassant := ep } else s := by
  obtain ⟨hlen2, hlen6, hbc_e, hbb_e, hbcs_t, hbb_t, hpieces_e, hpieces_t, hpp⟩ := hstate
  intro fuel
  induction fuel with
  | zero =>
    intro mask hm hc
    rw [natToLsbList_zero, ep_candidate_loop_zero_fuel, if_neg (by simp)]
  | succ f ih =>
    intro mask hm hc
    rcases eq_or_ne mask 0 with rfl | hm0
    · rw [natToLsbList_fuel_zero, ep_candidate_loop_mask_zero, if_neg (by simp)]
    · have hcons := natToLsbList_succ f mask hm0
      obtain ⟨hq1, hq2, hq3, hq4, hq5⟩ :=
        hc (trailingZeros64 mask) (by rw [hcons]; exact List.mem_cons_self _ _)
      have hrestore := ep_sim_undo stm piece toSq ep (trailingZeros64 mask) s
        hlen2 hlen6 hq1 hq2 hq3 hbc_e hbb_e hbcs_t hbb_t hpieces_e hpieces_t hpp
        hq4 hq5 hept
      rw [ep_candidate_loop_succ_eq stm piece toSq ep mask s f hm0, hrestore]
      by_cases hchk : (Position.ep_sim stm toSq ep (trailingZeros64 mask) s).is_checked stm.opp
      · rw [if_pos hchk]
        have hand : mask &&& (mask - 1) < 18446744073709551616 :=
          lt_of_le_of_lt Nat.and_le_left hm
        rw [ih (mask &&& (mask - 1)) hand
          (fun c hmem => hc c (by rw [hcons]; exact List.mem_cons_of_mem _ hmem))]
        rw [hcons]
        by_cases hex : ∃ c ∈ natToLsbList f (mask &&& (mask - 1)),
            ¬ (Position.ep_sim stm toSq ep c s).is_checked stm.opp
        · rw [if_pos hex, if_pos (by
            obtain ⟨c, hc1, hc2⟩ := hex
            exact ⟨c, List.mem_cons_of_mem _ hc1, hc2⟩)]
        · rw [if_neg hex, if_neg (by
            intro hcon
            obtain ⟨c, hc1, hc2⟩ := hcon
            rcases List.mem_cons.mp hc1 with rfl | hmem
            · exact hc2 hchk
            · exact hex ⟨c, hmem, hc2⟩)]
      · rw [if_neg hchk, hcons, if_pos ⟨trailingZeros64 mask, List.mem_cons_self _ _, hchk⟩]


lemma do_move_eq (pos : Position) (mv : Move) :
    pos.do_move mv =
      { (if (pos.piece_at mv.fromSq).piece_type = PieceType.Pawn ∧
            ((mv.toSq : Int) - (mv.fromSq : Int)).natAbs = 16 then
          (if attacks.pawn pos.stm (mv.toSq ^^^ 8) &&&
              (pos.do_move_pre mv).pieces_bb_color pos.stm.opp .Pawn > 0 then
            Position.ep_candidate_loop pos.stm (pos.piece_at mv.fromSq) mv.toSq
              (mv.toSq ^^^ 8)
              (attacks.pawn pos.stm (mv.toSq ^^^ 8) &&&
                (pos.do_move_pre mv).pieces_bb_color pos.stm.opp .Pawn)
              (pos.do_move_pre mv) 64
          else pos.do_move_pre mv)
        else pos.do_move_pre mv) with stm := pos.stm.opp } := by
  unfold Position.do_move
  rfl

lemma do_move_pre_enpassant (pos : Position) (mv : Move) :
    (pos.do_move_pre mv).enpassant = Square.NONE := rfl

/-- **C5.** After `do_move` of a two-square pawn push the en-passant square
of the result is the square one rank behind the pawn exactly when some
simulated enemy-pawn en-passant capture does not leave the enemy king in
check; after every other move it is `NONE`.  The hypothesis supplies, for the
push case, the consistency facts of the intermediate state that hold after a
legal double push on a consistent position. -/
theorem do_move_en_passant_rule (pos : Position) (mv : Move)
    (hpush : ((pos.piece_at mv.fromSq).piece_type = PieceType.Pawn ∧
        ((mv.toSq : Int) - (mv.fromSq : Int)).natAbs = 16) →
      EpStateOk pos.stm (pos.piece_at mv.fromSq) mv.toSq (mv.toSq ^^^ 8)
          (pos.do_move_pre mv) ∧
        ∀ c ∈ natToLsbList 64 (Position.ep_candidates pos mv),
          ((pos.do_move_pre mv).piece_at c).piece_type = PieceType.Pawn) :
    (pos.do_move mv).enpassant =
      if (pos.piece_at mv.fromSq).piece_type = PieceType.Pawn ∧
          ((mv.toSq : Int) - (mv.fromSq : Int)).natAbs = 16 ∧
          ∃ c ∈ natToLsbList 64 (Position.ep_candidates pos mv),
            ¬ (Position.ep_sim pos.stm mv.toSq (mv.toSq ^^^ 8) c
                (pos.do_move_pre mv)).is_checked pos.stm.opp
      then mv.toSq ^^^ 8 else Square.NONE := by
  rw [do_move_eq]
  show (if _ then _ else _ : Position).enpassant = _
  by_cases hdp : (pos.piece_at mv.fromSq).piece_type = PieceType.Pawn ∧
      ((mv.toSq : Int) - (mv.fromSq : Int)).natAbs = 16
  · rw [if_pos hdp]
    obtain ⟨hstate, hcands⟩ := hpush hdp
    have hmask : attacks.pawn pos.stm (mv.toSq ^^^ 8) &&&
        (pos.do_move_pre mv).pieces_bb_color pos.stm.opp .Pawn =
        Position.ep_candidates pos mv := rfl
    have hmlt : Position.ep_candidates pos mv < 18446744073709551616 := by
      rw [← hmask]
      exact lt_of_le_of_lt Nat.and_le_left (attacks_pawn_lt _ _)
    have hept : (mv.toSq ^^^ 8) ≠ mv.toSq := xor8_ne mv.toSq
    have hcand_full : ∀ c ∈ natToLsbList 64 (Position.ep_candidates pos mv),
        ((pos.do_move_pre mv).piece_at c).piece_type = PieceType.Pawn ∧
        ((pos.do_move_pre mv).bb_color.getD pos.stm.opp.ordinal 0).testBit c = true ∧
        ((pos.do_move_pre mv).bb.getD 0 0).testBit c = true ∧
        c ≠ mv.toSq ^^^ 8 ∧ c ≠ mv.toSq := by
      intro c hcmem
      have htb := mem_natToLsbList_testBit 64 _ c hmlt hcmem
      rw [← hmask] at htb
      rw [Nat.testBit_and] at htb
      obtain ⟨htb1, htb2⟩ := Bool.and_eq_true_iff.mp htb
      unfold Position.pieces_bb_color at htb2
      rw [Nat.testBit_and] at htb2
      obtain ⟨htb3, htb4⟩ := Bool.and_eq_true_iff.mp htb2
      refine ⟨hcands c hcmem, htb3, htb4, ?_, ?_⟩
      · intro hceq
        rw [hceq] at htb1
        rw [pawn_attack_not_self] at htb1
        exact Bool.false_ne_true htb1
      · intro hceq
        rw [hceq] at htb1
        have := pawn_attack_not_push_sq pos.stm (mv.toSq ^^^ 8)
        rw [Nat.xor_cancel_right] at this
        rw [this] at htb1
        exact Bool.false_ne_true htb1
    by_cases hmz : attacks.pawn pos.stm (mv.toSq ^^^ 8) &&&
        (pos.do_move_pre mv).pieces_bb_color pos.stm.opp .Pawn > 0
    · rw [if_pos hmz]
      rw [hmask] at hmz ⊢
      rw [ep_candidate_loop_spec pos.stm (pos.piece_at mv.fromSq) mv.toSq
        (mv.toSq ^^^ 8) (pos.do_move_pre mv) hstate hept 64
        (Position.ep_candidates pos mv) hmlt hcand_full]
      by_cases hex : ∃ c ∈ natToLsbList 64 (Position.ep_candidates pos mv),
          ¬ (Position.ep_sim pos.stm mv.toSq (mv.toSq ^^^ 8) c
              (pos.do_move_pre mv)).is_checked pos.stm.opp
      · rw [if_pos hex, if_pos ⟨hdp.1, hdp.2, hex⟩]
      · rw [if_neg hex, if_neg (by
          intro hcon
          exact hex hcon.2.2), do_move_pre_enpassant]
    · rw [if_neg hmz]
      have hzero : Position.ep_candidates pos mv = 0 := by
        rw [← hmask]
        omega
      rw [if_neg (by
        intro hcon
        obtain ⟨c, hc1, _⟩ := hcon.2.2
        rw [hzero, natToLsbList_fuel_zero] at hc1
        simp at hc1), do_move_pre_enpassant]
  · rw [if_neg hdp, if_neg (by
      intro hcon
      exact hdp ⟨hcon.1, hcon.2.1⟩), do_move_pre_enpassant]


/-- Witness for C5: a double pawn push e2-e4 with a black pawn on d4 able to
capture en passant legally; `do_move` sets the en-passant square e3. -/
theorem do_move_en_passant_rule_witness :
    (((((Position.empty.place (Piece.new .King .White) 4).place
          (Piece.new .King .Black) 60).place
          (Piece.new .Pawn .White) 12).place
          (Piece.new .Pawn .Black) 27).do_move (Move.normal 12 28)).enpassant = 20 := by
  have h := do_move_en_passant_rule
    ((((Position.empty.place (Piece.new .King .White) 4).place
        (Piece.new .King .Black) 60).place
        (Piece.new .Pawn .White) 12).place
        (Piece.new .Pawn .Black) 27) (Move.normal 12 28) (by decide)
  rw [h, if_pos (by decide)]
  rfl

/-! ### C3: the position codec round-trip -/

lemma and_mask_mod (n k : Nat) : n &&& (2 ^ k - 1) = n % 2 ^ k := by
  apply Nat.eq_of_testBit_eq
  intro j
  rw [Nat.testBit_and, Nat.testBit_two_pow_sub_one, Nat.testBit_mod_two_pow]
  rw [Bool.and_comm]

lemma nibble_pair_low {a b : Nat} (ha : a < 16) (hb : b < 16) :
    (a ||| b <<< 4) &&& 15 = a :=
  (show ∀ x y : Fin 16, (x.val ||| y.val <<< 4) &&& 15 = x.val from by decide) ⟨a, ha⟩ ⟨b, hb⟩

lemma nibble_pair_high {a b : Nat} (ha : a < 16) (hb : b < 16) :
    (a ||| b <<< 4) >>> 4 = b :=
  (show ∀ x y : Fin 16, (x.val ||| y.val <<< 4) >>> 4 = y.val from by decide) ⟨a, ha⟩ ⟨b, hb⟩

lemma compress_loop_getD_lt (pos : Position) :
    ∀ (sqs : List Square) (n idx j : Nat) (packed : List Nat), j < idx →
      (CompressedPosition.compress_loop pos sqs n idx packed).getD j 0 =
        packed.getD j 0 := by
  intro sqs
  induction sqs with
  | nil => intro n idx j packed _; rfl
  | cons sq rest ih =>
    intro n idx j packed hj
    unfold CompressedPosition.compress_loop
    by_cases hpar : n % 2 = 0
    · rw [if_pos hpar, ih _ _ _ _ hj]
      exact getD_set_ne_nat packed (by omega) _
    · rw [if_neg hpar, ih _ _ _ _ (by omega)]
      exact getD_set_ne_nat packed (by omega) _

lemma compress_loop_cons_even (pos : Position) (sq : Square) (rest : List Square)
    (n idx : Nat) (packed : List Nat) (hn : n % 2 = 0) :
    CompressedPosition.compress_loop pos (sq :: rest) n idx packed =
      CompressedPosition.compress_loop pos rest (n + 1) idx
        (packed.set idx (CompressedPosition.pack_piece pos sq)) := by
  conv_lhs => unfold CompressedPosition.compress_loop
  rw [if_pos hn]

lemma compress_loop_cons_odd (pos : Position) (sq : Square) (rest : List Square)
    (n idx : Nat) (packed : List Nat) (hn : ¬n % 2 = 0) :
    CompressedPosition.compress_loop pos (sq :: rest) n idx packed =
      CompressedPosition.compress_loop pos rest (n + 1) (idx + 1)
        (packed.set idx
          (packed.getD idx 0 ||| (CompressedPosition.pack_piece pos sq <<< 4))) := by
  conv_lhs => unfold CompressedPosition.compress_loop
  rw [if_neg hn]

lemma decompress_loop_sqs_nil (chunks : List Nat) (p : Position) :
    CompressedPosition.decompress_loop chunks [] p = p := by
  cases chunks <;> rfl

lemma decompress_loop_cons_one (chunk : Nat) (chunks : List Nat) (a : Square)
    (p : Position) :
    CompressedPosition.decompress_loop (chunk :: chunks) [a] p =
      CompressedPosition.decompress_piece p a (chunk &&& 0xF) := rfl

lemma decompress_loop_cons_two (chunk : Nat) (chunks : List Nat) (a b : Square)
    (rest : List Square) (p : Position) :
    CompressedPosition.decompress_loop (chunk :: chunks) (a :: b :: rest) p =
      CompressedPosition.decompress_loop chunks rest
        (CompressedPosition.decompress_piece
          (CompressedPosition.decompress_piece p a (chunk &&& 0xF)) b (chunk >>> 4)) := rfl

/-- Reading back the packed nibble stream visits the squares with exactly the
nibbles `compress` packed for them, two per byte, low nibble first. -/
lemma decompress_compress_loop (pos : Position) :
    ∀ (sqs : List Square) (idx : Nat) (packed : List Nat) (p : Position),
      packed.length = 16 → idx + (sqs.length + 1) / 2 ≤ 16 →
      (∀ j, idx ≤ j → packed.getD j 0 = 0) →
      (∀ sq ∈ sqs, CompressedPosition.pack_piece pos sq < 16) →
      CompressedPosition.decompress_loop
          ((CompressedPosition.compress_loop pos sqs (2 * idx) idx packed).drop idx)
          sqs p =
        CompressedPosition.decode_fold pos sqs p
  | [], idx, packed, p => by
      intro _ _ _ _
      show CompressedPosition.decompress_loop (packed.drop idx) [] p = p
      exact decompress_loop_sqs_nil _ p
  | [a], idx, packed, p => by
      intro h16 hle hz hn
      have hna : CompressedPosition.pack_piece pos a < 16 := hn a (by simp)
      have hidx : idx < 16 := by
        simp only [List.length_singleton] at hle
        omega
      have hpar : (2 * idx) % 2 = 0 := Nat.mul_mod_right 2 idx
      rw [compress_loop_cons_even pos a [] (2 * idx) idx packed hpar]
      show CompressedPosition.decompress_loop
        ((packed.set idx (CompressedPosition.pack_piece pos a)).drop idx) [a] p = _
      have hlen : (packed.set idx (CompressedPosition.pack_piece pos a)).length = 16 := by
        rw [List.length_set]; exact h16
      have hdrop : (packed.set idx (CompressedPosition.pack_piece pos a)).drop idx =
          CompressedPosition.pack_piece pos a ::
            (packed.set idx (CompressedPosition.pack_piece pos a)).drop (idx + 1) := by
        rw [List.drop_eq_getElem_cons (by omega)]
        congr 1
        rw [← getD_eq_getElem_of_lt _ 0 (by omega)]
        exact getD_set_self_nat packed idx (by omega) _
      rw [hdrop, decompress_loop_cons_one]
      have hand : CompressedPosition.pack_piece pos a &&& 0xF =
          CompressedPosition.pack_piece pos a := by
        rw [show (0xF : Nat) = 2 ^ 4 - 1 from rfl, and_mask_mod,
          Nat.mod_eq_of_lt (by omega)]
      rw [hand]
      rfl
  | a :: b :: rest, idx, packed, p => by
      intro h16 hle hz hn
      have hna : CompressedPosition.pack_piece pos a < 16 := hn a (by simp)
      have hnb : CompressedPosition.pack_piece pos b < 16 := hn b (by simp)
      have hidx : idx < 16 := by
        have hp : (((a :: b :: rest).length) + 1) / 2 ≥ 1 := by
          simp only [List.length_cons]
          omega
        omega
      have hpar : (2 * idx) % 2 = 0 := Nat.mul_mod_right 2 idx
      have hpar1 : ¬(2 * idx + 1) % 2 = 0 := by omega
      rw [compress_loop_cons_even pos a (b :: rest) (2 * idx) idx packed hpar,
        compress_loop_cons_odd pos b rest (2 * idx + 1) idx _ hpar1,
        getD_set_self_nat packed idx (by omega) _, List.set_set]
      have h2 : 2 * idx + 1 + 1 = 2 * (idx + 1) := by omega
      rw [h2]
      have hLlen : (CompressedPosition.compress_loop pos rest (2 * (idx + 1)) (idx + 1)
          (packed.set idx (CompressedPosition.pack_piece pos a |||
            CompressedPosition.pack_piece pos b <<< 4))).length = 16 := by
        rw [compress_loop_length, List.length_set]; exact h16
      have hLget : (CompressedPosition.compress_loop pos rest (2 * (idx + 1)) (idx + 1)
          (packed.set idx (CompressedPosition.pack_piece pos a |||
            CompressedPosition.pack_piece pos b <<< 4))).getD idx 0 =
          CompressedPosition.pack_piece pos a |||
            CompressedPosition.pack_piece pos b <<< 4 := by
        rw [compress_loop_getD_lt pos rest _ _ _ _ (by omega)]
        exact getD_set_self_nat packed idx (by omega) _
      have hdrop : (CompressedPosition.compress_loop pos rest (2 * (idx + 1)) (idx + 1)
          (packed.set idx (CompressedPosition.pack_piece pos a |||
            CompressedPosition.pack_piece pos b <<< 4))).drop idx =
          (CompressedPosition.pack_piece pos a |||
            CompressedPosition.pack_piece pos b <<< 4) ::
          (CompressedPosition.compress_loop pos rest (2 * (idx + 1)) (idx + 1)
            (packed.set idx (CompressedPosition.pack_piece pos a |||
              CompressedPosition.pack_piece pos b <<< 4))).drop (idx + 1) := by
        rw [List.drop_eq_getElem_cons (by omega)]
        congr 1
        rw [← getD_eq_getElem_of_lt _ 0 (by omega)]
        exact hLget
      rw [hdrop, decompress_loop_cons_two]
      have hlow : (CompressedPosition.pack_piece pos a |||
          CompressedPosition.pack_piece pos b <<< 4) &&& 0xF =
          CompressedPosition.pack_piece pos a := nibble_pair_low hna hnb
      have hhigh : (CompressedPosition.pack_piece pos a |||
          CompressedPosition.pack_piece pos b <<< 4) >>> 4 =
          CompressedPosition.pack_piece pos b := nibble_pair_high hna hnb
      rw [hlow, hhigh]
      have ih := decompress_compress_loop pos rest (idx + 1)
        (packed.set idx (CompressedPosition.pack_piece pos a |||
          CompressedPosition.pack_piece pos b <<< 4))
        (CompressedPosition.decompress_piece
          (CompressedPosition.decompress_piece p a (CompressedPosition.pack_piece pos a))
          b (CompressedPosition.pack_piece pos b))
        (by rw [List.length_set]; exact h16)
        (by simp only [List.length_cons] at hle ⊢; omega)
        (by
          intro j hj
          exact (getD_set_ne_nat packed (show idx ≠ j by omega) _).trans
            (hz j (by omega)))
        (by
          intro sq hsq
          exact hn sq (List.mem_cons_of_mem a (List.mem_cons_of_mem b hsq)))
      exact ih

/-- `decompress` after `compress` is the nibble fold over the occupied
squares, starting from the empty board with no castling rights. -/
lemma decompress_compress (pos : Position)
    (hlen : (natToLsbList 64 pos.occupied).length ≤ 32)
    (hnib : ∀ sq ∈ natToLsbList 64 pos.occupied,
      CompressedPosition.pack_piece pos sq < 16) :
    (CompressedPosition.compress pos).decompress =
      CompressedPosition.decode_fold pos (natToLsbList 64 pos.occupied)
        (Position.empty.set_castling_rights CastlingRights.NONE) := by
  have h := decompress_compress_loop pos (natToLsbList 64 pos.occupied) 0
    (List.replicate 16 0) (Position.empty.set_castling_rights CastlingRights.NONE)
    (by simp) (by omega)
    (by
      intro j _
      rw [List.getD_eq_getElem?_getD, List.getElem?_replicate]
      by_cases hj : j < 16 <;> simp [hj]) hnib
  rw [show 2 * 0 = 0 from rfl, List.drop_zero] at h
  exact h

lemma testBit_compl (m j : Nat) (hj : j < 64) :
    (Bitboard.complement m).testBit j = !m.testBit j := by
  unfold Bitboard.complement
  rw [Nat.testBit_xor, show (18446744073709551615 : Nat) = 2 ^ 64 - 1 by norm_num,
    Nat.testBit_two_pow_sub_one]
  simp [hj]

lemma or_single_mask {a m m' : Nat} {sq : Nat} (ha64 : a < 2 ^ 64) (hsq : sq < 64)
    (habit : a.testBit sq = true)
    (hchar : ∀ j, m'.testBit j = (m.testBit j && !(j == sq))) :
    (a &&& Bitboard.complement m) ||| (1 <<< sq) = a &&& Bitboard.complement m' := by
  apply Nat.eq_of_testBit_eq
  intro j
  rw [Nat.testBit_or, Nat.testBit_and, Nat.testBit_and, testBit_one_shift]
  by_cases hj64 : j < 64
  · rw [testBit_compl m j hj64, testBit_compl m' j hj64, hchar j]
    by_cases hjs : j = sq
    · subst hjs
      simp [habit]
    · have hb : (j == sq) = false := by
        simp [hjs]
      have hd : decide (j = sq) = false := by
        simp [hjs]
      rw [hb, hd]
      simp
  · have hne : j ≠ sq := by omega
    rw [testBit_ge ha64 (by omega)]
    simp [hne]

lemma untouched_mask {a m m' : Nat} {sq : Nat} (ha64 : a < 2 ^ 64)
    (habit : a.testBit sq = false)
    (hchar : ∀ j, m'.testBit j = (m.testBit j && !(j == sq))) :
    a &&& Bitboard.complement m = a &&& Bitboard.complement m' := by
  apply Nat.eq_of_testBit_eq
  intro j
  rw [Nat.testBit_and, Nat.testBit_and]
  by_cases hj64 : j < 64
  · rw [testBit_compl m j hj64, testBit_compl m' j hj64, hchar j]
    by_cases hjs : j = sq
    · subst hjs
      simp [habit]
    · have hb : (j == sq) = false := by
        simp [hjs]
      rw [hb]
      simp
  · rw [testBit_ge ha64 (by omega)]
    simp

lemma find?_range_min (p : Nat → Bool) :
    ∀ (n a : Nat), (List.range n).find? p = some a → ∀ b, b < a → p b = false := by
  intro n
  induction n with
  | zero =>
    intro a h
    simp [List.range_zero] at h
  | succ k ih =>
    intro a h b hb
    rw [List.range_succ, List.find?_append] at h
    cases hf : (List.range k).find? p with
    | some c =>
      rw [hf] at h
      have hca : c = a := by
        simpa [Option.or] using h
      exact ih a (hca ▸ hf) b hb
    | none =>
      rw [hf] at h
      simp only [Option.or] at h
      by_cases hpk : p k
      · rw [List.find?_cons_of_pos _ hpk] at h
        have hak : a = k := by
          injection h with h'
          exact h'.symm
        subst hak
        have := List.find?_eq_none.mp hf b (List.mem_range.mpr hb)
        simpa using this
      · rw [List.find?_cons_of_neg _ hpk] at h
        simp [List.find?] at h

lemma trailingZeros64_min (m : Nat) : ∀ j, j < trailingZeros64 m → m.testBit j = false := by
  intro j hj
  unfold trailingZeros64 at hj
  cases hf : (List.range 64).find? (fun i => m.testBit i) with
  | none =>
    rw [hf] at hj
    simp only [Option.getD_none] at hj
    have := List.find?_eq_none.mp hf j (List.mem_range.mpr hj)
    simpa using this
  | some a =>
    rw [hf] at hj
    simp only [Option.getD_some] at hj
    exact find?_range_min _ 64 a hf j hj

lemma testBit_false_of_mod_two_pow {n k : Nat} (h : n % 2 ^ k = 0) {j : Nat}
    (hj : j < k) : n.testBit j = false := by
  have h2 := congrArg (fun x => x.testBit j) h
  simp only [Nat.testBit_mod_two_pow, Nat.zero_testBit] at h2
  simpa [hj] using h2

lemma mod_two_pow_eq_zero_of_testBit {n k : Nat}
    (h : ∀ j, j < k → n.testBit j = false) : n % 2 ^ k = 0 := by
  apply Nat.eq_of_testBit_eq
  intro j
  rw [Nat.testBit_mod_two_pow, Nat.zero_testBit]
  by_cases hj : j < k
  · simp [hj, h j hj]
  · simp [hj]

/-- Clearing the lowest set bit: `m &&& (m - 1)` keeps every bit of `m`
except the one at `trailingZeros64 m`. -/
lemma and_pred_testBit {m : Nat} (hm0 : m ≠ 0) (hm : m < 2 ^ 64) (j : Nat) :
    (m &&& (m - 1)).testBit j = (m.testBit j && !(j == trailingZeros64 m)) := by
  have ht : m.testBit (trailingZeros64 m) = true :=
    trailingZeros64_testBit hm0 (lt_of_lt_of_le hm (by norm_num))
  have hmin : ∀ i, i < trailingZeros64 m → m.testBit i = false :=
    trailingZeros64_min m
  have hmod : m % 2 ^ (trailingZeros64 m + 1) = 2 ^ trailingZeros64 m := by
    apply Nat.eq_of_testBit_eq
    intro i
    rw [Nat.testBit_mod_two_pow, Nat.testBit_two_pow]
    rcases lt_trichotomy i (trailingZeros64 m) with hlt | heq | hgt
    · rw [hmin i hlt]
      simp
      omega
    · subst heq
      simp [ht]
    · have h1 : ¬(i < trailingZeros64 m + 1) := by omega
      have h2 : trailingZeros64 m ≠ i := by omega
      simp [h1, h2]
  have hq := Nat.div_add_mod m (2 ^ (trailingZeros64 m + 1))
  rw [hmod] at hq
  have h2t : 1 ≤ 2 ^ trailingZeros64 m := Nat.one_le_two_pow
  have hmdecomp : m = 2 ^ (trailingZeros64 m + 1) * (m / 2 ^ (trailingZeros64 m + 1)) +
      2 ^ trailingZeros64 m := by omega
  have hpred : m - 1 = 2 ^ (trailingZeros64 m + 1) * (m / 2 ^ (trailingZeros64 m + 1)) +
      (2 ^ trailingZeros64 m - 1) := by omega
  have hlt1 : 2 ^ trailingZeros64 m < 2 ^ (trailingZeros64 m + 1) := by
    rw [pow_succ]
    omega
  have hlt2 : 2 ^ trailingZeros64 m - 1 < 2 ^ (trailingZeros64 m + 1) := by omega
  have hbm : ∀ i, m.testBit i = if i < trailingZeros64 m + 1 then
      (2 ^ trailingZeros64 m : Nat).testBit i
      else (m / 2 ^ (trailingZeros64 m + 1)).testBit (i - (trailingZeros64 m + 1)) := by
    intro i
    conv_lhs => rw [hmdecomp]
    exact Nat.testBit_mul_pow_two_add _ hlt1 i
  have hbp : ∀ i, (m - 1).testBit i = if i < trailingZeros64 m + 1 then
      (2 ^ trailingZeros64 m - 1 : Nat).testBit i
      else (m / 2 ^ (trailingZeros64 m + 1)).testBit (i - (trailingZeros64 m + 1)) := by
    intro i
    conv_lhs => rw [hpred]
    exact Nat.testBit_mul_pow_two_add _ hlt2 i
  rw [Nat.testBit_and, hbp j]
  rcases lt_trichotomy j (trailingZeros64 m) with hlt | heq | hgt
  · rw [hmin j hlt]
    simp
  · subst heq
    rw [if_pos (by omega), Nat.testBit_two_pow_sub_one]
    simp
  · rw [if_neg (by omega)]
    have hmj : m.testBit j = (m / 2 ^ (trailingZeros64 m + 1)).testBit
        (j - (trailingZeros64 m + 1)) := by
      rw [hbm j, if_neg (by omega)]
    rw [← hmj]
    have hne : (j == trailingZeros64 m) = false := by
      simp
      omega
    rw [hne]
    simp

lemma getD_set_self_gen {α : Type} (l : List α) (i : Nat) (h : i < l.length) (a d : α) :
    (l.set i a).getD i d = a := by
  rw [List.getD_eq_getElem?_getD, List.getElem?_set_self (by simpa using h)]
  rfl

lemma getD_set_ne_gen {α : Type} (l : List α) {i j : Nat} (h : i ≠ j) (a d : α) :
    (l.set i a).getD j d = l.getD j d := by
  rw [List.getD_eq_getElem?_getD, List.getElem?_set_ne h, ← List.getD_eq_getElem?_getD]

lemma rankIdx_eq_div (sq : Nat) : Square.rankIdx sq = sq / 8 := by
  unfold Square.rankIdx
  rw [Nat.shiftRight_eq_div_pow]

lemma piece_new_eta {pc : Piece} (h : pc.id < 12) :
    Piece.new pc.piece_type pc.color = pc :=
  (show ∀ i : Fin 12, Piece.new (Piece.from_id i.val).piece_type
      (Piece.from_id i.val).color = Piece.from_id i.val from by decide) ⟨pc.id, h⟩

lemma piece_eq_of_type_color {pc : Piece} (h : pc.id < 12) (pt : PieceType) (c : Color)
    (hpt : pc.piece_type = pt) (hc : pc.color = c) : pc = Piece.new pt c := by
  rw [← hpt, ← hc]
  exact (piece_new_eta h).symm

lemma piece_type_ordinal_lt {pc : Piece} (h : pc.id < 12) : pc.piece_type.ordinal < 6 :=
  (show ∀ i : Fin 12, (Piece.from_id i.val).piece_type.ordinal < 6 from by decide)
    ⟨pc.id, h⟩

lemma color_ordinal_lt (c : Color) : c.ordinal < 2 := by
  cases c <;> decide

lemma occ_testBit_true (pos : Position) (hwf : pos.WellFormed) {sq : Nat} (hsq : sq < 64)
    (h : pos.piece_at sq ≠ Piece.noPiece) : pos.occupied.testBit sq = true := by
  obtain ⟨-, -, -, -, -, hcons, -⟩ := hwf
  have h2 := ((hcons ⟨sq, hsq⟩).2 h).2.2
  unfold Position.occupied
  rw [Nat.testBit_or]
  cases hcol : (pos.piece_at sq).color with
  | White =>
    have h3 : (pos.bb_color.getD 0 0).testBit sq =
        decide (0 = (pos.piece_at sq).color.ordinal) := h2 ⟨0, by omega⟩
    rw [hcol, show decide (0 = Color.White.ordinal) = true from rfl] at h3
    rw [h3]
    rfl
  | Black =>
    have h3 : (pos.bb_color.getD 1 0).testBit sq =
        decide (1 = (pos.piece_at sq).color.ordinal) := h2 ⟨1, by omega⟩
    rw [hcol, show decide (1 = Color.Black.ordinal) = true from rfl] at h3
    rw [h3, Bool.or_true]

lemma occ_testBit_false (pos : Position) (hwf : pos.WellFormed) {sq : Nat}
    (hsq : sq < 64) (h : pos.piece_at sq = Piece.noPiece) :
    pos.occupied.testBit sq = false := by
  obtain ⟨-, -, -, -, -, hcons, -⟩ := hwf
  have h2 := ((hcons ⟨sq, hsq⟩).1 h).2
  have h0 : (pos.bb_color.getD 0 0).testBit sq = false := h2 ⟨0, by omega⟩
  have h1 : (pos.bb_color.getD 1 0).testBit sq = false := h2 ⟨1, by omega⟩
  unfold Position.occupied
  rw [Nat.testBit_or, h0, h1]
  rfl

lemma place_bb (p : Position) (pc : Piece) (sq : Square) :
    (p.place pc sq).bb =
      p.bb.set pc.piece_type.ordinal
        (p.bb.getD pc.piece_type.ordinal 0 ||| 1 <<< sq) := rfl

lemma place_bb_color (p : Position) (pc : Piece) (sq : Square) :
    (p.place pc sq).bb_color =
      p.bb_color.set pc.color.ordinal
        (p.bb_color.getD pc.color.ordinal 0 ||| 1 <<< sq) := rfl

lemma place_pieces (p : Position) (pc : Piece) (sq : Square) :
    (p.place pc sq).pieces = p.pieces.set sq pc := rfl

lemma place_stm (p : Position) (pc : Piece) (sq : Square) :
    (p.place pc sq).stm = p.stm := rfl

lemma place_cr (p : Position) (pc : Piece) (sq : Square) :
    (p.place pc sq).castling_rights = p.castling_rights := rfl

lemma place_ep (p : Position) (pc : Piece) (sq : Square) :
    (p.place pc sq).enpassant = p.enpassant := rfl

lemma pack_piece_eval (pos : Position) (sq : Square) :
    CompressedPosition.pack_piece pos sq =
      if (pos.piece_at sq).piece_type = PieceType.Pawn ∧ pos.ep_square ≠ Square.NONE ∧
          (((pos.piece_at sq).color = Color.White ∧ sq.rankIdx = 3 ∧
              pos.ep_square = sq - 8) ∨
            ((pos.piece_at sq).color = Color.Black ∧ sq.rankIdx = 4 ∧
              pos.ep_square = sq + 8)) then 12
      else if pos.piece_at sq = Piece.WHITE_ROOK ∧
          ((sq = 0 ∧ CastlingRights.containsCR pos.castling_rights
              CastlingRights.WHITE_QUEEN_SIDE) ∨
            (sq = 7 ∧ CastlingRights.containsCR pos.castling_rights
              CastlingRights.WHITE_KING_SIDE)) then 13
      else if pos.piece_at sq = Piece.BLACK_ROOK ∧
          ((sq = 56 ∧ CastlingRights.containsCR pos.castling_rights
              CastlingRights.BLACK_QUEEN_SIDE) ∨
            (sq = 63 ∧ CastlingRights.containsCR pos.castling_rights
              CastlingRights.BLACK_KING_SIDE)) then 14
      else if pos.piece_at sq = Piece.BLACK_KING ∧ pos.stm = Color.Black then 15
      else (pos.piece_at sq).id := rfl

lemma decompress_piece_12_white (p : Position) (sq : Square) (h : sq.rankIdx = 3) :
    CompressedPosition.decompress_piece p sq 12 =
      (p.place Piece.WHITE_PAWN sq).set_ep_square_unchecked (sq - 8) := by
  unfold CompressedPosition.decompress_piece
  rw [if_neg (by omega), if_pos rfl, if_pos h]

lemma decompress_piece_12_black (p : Position) (sq : Square) (h : ¬sq.rankIdx = 3) :
    CompressedPosition.decompress_piece p sq 12 =
      (p.place Piece.BLACK_PAWN sq).set_ep_square_unchecked (sq + 8) := by
  unfold CompressedPosition.decompress_piece
  rw [if_neg (by omega), if_pos rfl, if_neg h]

lemma decompress_piece_13_q (p : Position) :
    CompressedPosition.decompress_piece p 0 13 =
      (p.place Piece.WHITE_ROOK 0).add_castling_rights
        CastlingRights.WHITE_QUEEN_SIDE := rfl

lemma decompress_piece_13_k (p : Position) (sq : Square) (h : ¬sq = 0) :
    CompressedPosition.decompress_piece p sq 13 =
      (p.place Piece.WHITE_ROOK sq).add_castling_rights
        CastlingRights.WHITE_KING_SIDE := by
  unfold CompressedPosition.decompress_piece
  rw [if_neg (by omega), if_neg (by omega), if_pos rfl]
  simp only [if_neg h]

lemma decompress_piece_14_q (p : Position) :
    CompressedPosition.decompress_piece p 56 14 =
      (p.place Piece.BLACK_ROOK 56).add_castling_rights
        CastlingRights.BLACK_QUEEN_SIDE := rfl

lemma decompress_piece_14_k (p : Position) (sq : Square) (h : ¬sq = 56) :
    CompressedPosition.decompress_piece p sq 14 =
      (p.place Piece.BLACK_ROOK sq).add_castling_rights
        CastlingRights.BLACK_KING_SIDE := by
  unfold CompressedPosition.decompress_piece
  rw [if_neg (by omega), if_neg (by omega), if_neg (by omega), if_pos rfl]
  simp only [if_neg h]

lemma decompress_piece_15 (p : Position) (sq : Square) :
    CompressedPosition.decompress_piece p sq 15 =
      (p.place Piece.BLACK_KING sq).set_side_to_move .Black := by
  unfold CompressedPosition.decompress_piece
  rw [if_neg (by omega), if_neg (by omega), if_neg (by omega), if_neg (by omega)]

lemma decompress_piece_le11 (p : Position) (sq : Square) (n : Nat) (h : n ≤ 11) :
    CompressedPosition.decompress_piece p sq n = p.place (Piece.from_id n) sq := by
  unfold CompressedPosition.decompress_piece
  rw [if_pos h]

/-- Placing the original piece of `pos` on a processed square advances the
board-shaped clauses of `CodecInv` from mask `m` to the mask with that square
cleared. -/
lemma place_codec_clauses (pos : Position) (m m' : Nat) (p : Position) (sq : Nat)
    (hsq : sq < 64)
    (hchar : ∀ j, m'.testBit j = (m.testBit j && !(j == sq)))
    (hid : (pos.piece_at sq).id < 12)
    (hbbiff : ∀ i : Fin 6, (pos.bb.getD i.val 0).testBit sq =
      decide (i.val = (pos.piece_at sq).piece_type.ordinal))
    (hbciff : ∀ c : Fin 2, (pos.bb_color.getD c.val 0).testBit sq =
      decide (c.val = (pos.piece_at sq).color.ordinal))
    (hbb64 : ∀ i : Fin 6, pos.bb.getD i.val 0 < 2 ^ 64)
    (hbc64 : ∀ c : Fin 2, pos.bb_color.getD c.val 0 < 2 ^ 64)
    (hbl : p.bb.length = 6) (hbcl : p.bb_color.length = 2) (hpl : p.pieces.length = 64)
    (hbbE : ∀ i : Fin 6, p.bb.getD i.val 0 = pos.bb.getD i.val 0 &&& Bitboard.complement m)
    (hbcE : ∀ c : Fin 2, p.bb_color.getD c.val 0 =
      pos.bb_color.getD c.val 0 &&& Bitboard.complement m)
    (hpcE : ∀ s : Fin 64, p.pieces.getD s.val Piece.noPiece =
      if m.testBit s.val then Piece.noPiece else pos.pieces.getD s.val Piece.noPiece) :
    (p.place (pos.piece_at sq) sq).bb.length = 6 ∧
    (p.place (pos.piece_at sq) sq).bb_color.length = 2 ∧
    (p.place (pos.piece_at sq) sq).pieces.length = 64 ∧
    (∀ i : Fin 6, (p.place (pos.piece_at sq) sq).bb.getD i.val 0 =
      pos.bb.getD i.val 0 &&& Bitboard.complement m') ∧
    (∀ c : Fin 2, (p.place (pos.piece_at sq) sq).bb_color.getD c.val 0 =
      pos.bb_color.getD c.val 0 &&& Bitboard.complement m') ∧
    (∀ s : Fin 64, (p.place (pos.piece_at sq) sq).pieces.getD s.val Piece.noPiece =
      if m'.testBit s.val then Piece.noPiece
      else pos.pieces.getD s.val Piece.noPiece) := by
  have hptord : (pos.piece_at sq).piece_type.ordinal < 6 := piece_type_ordinal_lt hid
  have hcord : (pos.piece_at sq).color.ordinal < 2 := color_ordinal_lt _
  refine ⟨?_, ?_, ?_, ?_, ?_, ?_⟩
  · rw [place_bb, List.length_set]
    exact hbl
  · rw [place_bb_color, List.length_set]
    exact hbcl
  · rw [place_pieces, List.length_set]
    exact hpl
  · intro i
    rw [place_bb]
    by_cases hi : i.val = (pos.piece_at sq).piece_type.ordinal
    · have hset : (p.bb.set (pos.piece_at sq).piece_type.ordinal
          (p.bb.getD (pos.piece_at sq).piece_type.ordinal 0 ||| 1 <<< sq)).getD i.val 0 =
          p.bb.getD (pos.piece_at sq).piece_type.ordinal 0 ||| 1 <<< sq := by
        rw [hi]
        exact getD_set_self_gen _ _ (by rw [hbl]; exact hptord) _ _
      rw [hset]
      have hE : p.bb.getD (pos.piece_at sq).piece_type.ordinal 0 =
          pos.bb.getD (pos.piece_at sq).piece_type.ordinal 0 &&& Bitboard.complement m :=
        hbbE ⟨_, hptord⟩
      rw [hE, hi]
      refine or_single_mask (hbb64 ⟨_, hptord⟩) hsq ?_ hchar
      have hb := hbbiff ⟨_, hptord⟩
      simpa using hb
    · have hset : (p.bb.set (pos.piece_at sq).piece_type.ordinal
          (p.bb.getD (pos.piece_at sq).piece_type.ordinal 0 ||| 1 <<< sq)).getD i.val 0 =
          p.bb.getD i.val 0 := getD_set_ne_gen _ (fun hh => hi hh.symm) _ _
      rw [hset, hbbE i]
      refine untouched_mask (hbb64 i) ?_ hchar
      rw [hbbiff i]
      simp [hi]
  · intro c
    rw [place_bb_color]
    by_cases hc : c.val = (pos.piece_at sq).color.ordinal
    · have hset : (p.bb_color.set (pos.piece_at sq).color.ordinal
          (p.bb_color.getD (pos.piece_at sq).color.ordinal 0 ||| 1 <<< sq)).getD c.val 0 =
          p.bb_color.getD (pos.piece_at sq).color.ordinal 0 ||| 1 <<< sq := by
        rw [hc]
        exact getD_set_self_gen _ _ (by rw [hbcl]; exact hcord) _ _
      rw [hset]
      have hE : p.bb_color.getD (pos.piece_at sq).color.ordinal 0 =
          pos.bb_color.getD (pos.piece_at sq).color.ordinal 0 &&& Bitboard.complement m :=
        hbcE ⟨_, hcord⟩
      rw [hE, hc]
      refine or_single_mask (hbc64 ⟨_, hcord⟩) hsq ?_ hchar
      have hb := hbciff ⟨_, hcord⟩
      simpa using hb
    · have hset : (p.bb_color.set (pos.piece_at sq).color.ordinal
          (p.bb_color.getD (pos.piece_at sq).color.ordinal 0 ||| 1 <<< sq)).getD c.val 0 =
          p.bb_color.getD c.val 0 := getD_set_ne_gen _ (fun hh => hc hh.symm) _ _
      rw [hset, hbcE c]
      refine untouched_mask (hbc64 c) ?_ hchar
      rw [hbciff c]
      simp [hc]
  · intro s
    rw [place_pieces]
    by_cases hs : s.val = sq
    · have hset : (p.pieces.set sq (pos.piece_at sq)).getD s.val Piece.noPiece =
          pos.piece_at sq := by
        rw [hs]
        exact getD_set_self_gen _ _ (by rw [hpl]; exact hsq) _ _
      rw [hset]
      have hm' : m'.testBit s.val = false := by
        rw [hs, hchar]
        simp
      rw [hm']
      rw [if_neg (by simp)]
      rw [hs]
      rfl
    · have hset : (p.pieces.set sq (pos.piece_at sq)).getD s.val Piece.noPiece =
          p.pieces.getD s.val Piece.noPiece := getD_set_ne_gen _ (fun hh => hs hh.symm) _ _
      rw [hset, hpcE s]
      have hm' : m'.testBit s.val = m.testBit s.val := by
        rw [hchar]
        simp [hs]
      rw [hm']

lemma stm_formula_shift (pos : Position) (m m' : Nat) (sq : Nat)
    (hchar : ∀ j, m'.testBit j = (m.testBit j && !(j == sq)))
    (hnk : pos.stm = Color.Black → pos.piece_at sq ≠ Piece.BLACK_KING) :
    (if pos.stm = Color.Black ∧
        (∃ s : Fin 64, ¬m.testBit s.val ∧ pos.piece_at s.val = Piece.BLACK_KING)
      then Color.Black else Color.White) =
    (if pos.stm = Color.Black ∧
        (∃ s : Fin 64, ¬m'.testBit s.val ∧ pos.piece_at s.val = Piece.BLACK_KING)
      then Color.Black else Color.White) := by
  apply if_congr _ rfl rfl
  constructor
  · rintro ⟨hB, s, hns, hbk⟩
    refine ⟨hB, s, fun hc => hns ?_, hbk⟩
    rw [hchar s.val] at hc
    exact (Bool.and_eq_true_iff.mp hc).1
  · rintro ⟨hB, s, hns, hbk⟩
    refine ⟨hB, s, fun hc => hns ?_, hbk⟩
    have hne : s.val ≠ sq := fun hh => hnk hB (hh ▸ hbk)
    rw [hchar s.val, hc]
    simp [hne]

lemma cr_term_shift {m m' : Nat} {sq k : Nat} (v : Nat) (cond : Prop) [Decidable cond]
    (hchar : ∀ j, m'.testBit j = (m.testBit j && !(j == sq)))
    (hk : sq = k → ¬cond) :
    (if cond ∧ ¬m.testBit k then v else 0) =
      (if cond ∧ ¬m'.testBit k then v else 0) := by
  by_cases hc : cond
  · have hne : k ≠ sq := fun hh => hk hh.symm hc
    have hbit : m'.testBit k = m.testBit k := by
      rw [hchar k]
      simp [hne]
    rw [hbit]
  · rw [if_neg (fun hh => hc hh.1), if_neg (fun hh => hc hh.1)]

lemma ep_formula_shift (pos : Position) (m m' : Nat) (sq : Nat)
    (hchar : ∀ j, m'.testBit j = (m.testBit j && !(j == sq)))
    (hne : pos.ep_square ≠ Square.NONE → pos.epPawnSq ≠ sq) :
    (if pos.ep_square ≠ Square.NONE ∧ ¬m.testBit pos.epPawnSq then pos.ep_square
      else Square.NONE) =
    (if pos.ep_square ≠ Square.NONE ∧ ¬m'.testBit pos.epPawnSq then pos.ep_square
      else Square.NONE) := by
  by_cases hc : pos.ep_square ≠ Square.NONE
  · have hb : m'.testBit pos.epPawnSq = m.testBit pos.epPawnSq := by
      rw [hchar]
      simp [hne hc]
    rw [hb]
  · rw [if_neg (fun hh => hc hh.1), if_neg (fun hh => hc hh.1)]

/-- For a well-formed position with the en-passant square set, the pushed
pawn sits on `epPawnSq`, in the middle of the board, with the matching color
and rank. -/
lemma epPawnSq_spec (pos : Position) (hwf : pos.WellFormed)
    (hne : pos.ep_square ≠ Square.NONE) :
    ∃ e : Nat, @Eq Nat pos.epPawnSq e ∧ 24 ≤ e ∧ e < 40 ∧
      ((Square.rankIdx e = 3 ∧ pos.piece_at e = Piece.WHITE_PAWN ∧
          @Eq Nat pos.ep_square (e - 8)) ∨
        (Square.rankIdx e = 4 ∧ pos.piece_at e = Piece.BLACK_PAWN ∧
          @Eq Nat pos.ep_square (e + 8))) := by
  obtain ⟨-, -, -, -, -, -, -, -, -, -, -, hep, -, -⟩ := hwf
  rcases hep with h | ⟨hr, hp⟩ | ⟨hr, hp⟩
  · exact absurd h hne
  · rw [rankIdx_eq_div] at hr
    refine ⟨pos.ep_square + 8, ?_, by omega, by omega, Or.inl ⟨?_, ?_, ?_⟩⟩
    · unfold Position.epPawnSq
      rw [if_pos (by rw [rankIdx_eq_div]; omega)]
    · rw [rankIdx_eq_div]
      omega
    · exact hp
    · omega
  · rw [rankIdx_eq_div] at hr
    refine ⟨pos.ep_square - 8, ?_, by omega, by omega, Or.inr ⟨?_, ?_, ?_⟩⟩
    · unfold Position.epPawnSq
      rw [if_neg (by rw [rankIdx_eq_div]; omega)]
    · rw [rankIdx_eq_div]
      omega
    · exact hp
    · omega

lemma pack_piece_lt_16 (pos : Position) (hwf : pos.WellFormed) (sq : Nat)
    (hsq : sq < 64) (hocc : pos.occupied.testBit sq = true) :
    CompressedPosition.pack_piece pos sq < 16 := by
  have hne : pos.piece_at sq ≠ Piece.noPiece := by
    intro h
    rw [occ_testBit_false pos hwf hsq h] at hocc
    exact Bool.false_ne_true hocc
  have hid : (pos.piece_at sq).id < 12 := by
    obtain ⟨-, -, -, -, -, hcons, -⟩ := hwf
    exact (((hcons ⟨sq, hsq⟩).2) hne).1
  rw [pack_piece_eval]
  split_ifs <;> omega

lemma epPawnSq_ne_corner (pos : Position) (hwf : pos.WellFormed) {k : Nat}
    (hk : k < 8 ∨ 56 ≤ k) (hnep : pos.ep_square ≠ Square.NONE) :
    pos.epPawnSq ≠ k := by
  obtain ⟨e, hepe, h24, h40, -⟩ := epPawnSq_spec pos hwf hnep
  intro hh
  rw [hepe] at hh
  have h2 : @Eq Nat e k := hh
  omega

lemma or_reorder1 (b c d x : Nat) : (0 ||| b ||| c ||| d) ||| x = x ||| b ||| c ||| d := by
  apply Nat.eq_of_testBit_eq
  intro j
  simp only [Nat.testBit_or, Nat.zero_testBit, Bool.false_or]
  cases b.testBit j <;> cases c.testBit j <;> cases d.testBit j <;> cases x.testBit j <;>
    rfl

lemma or_reorder2 (a c d x : Nat) : (a ||| 0 ||| c ||| d) ||| x = a ||| x ||| c ||| d := by
  apply Nat.eq_of_testBit_eq
  intro j
  simp only [Nat.testBit_or, Nat.zero_testBit, Bool.false_or, Bool.or_false]
  cases a.testBit j <;> cases c.testBit j <;> cases d.testBit j <;> cases x.testBit j <;>
    rfl

lemma or_reorder3 (a b d x : Nat) : (a ||| b ||| 0 ||| d) ||| x = a ||| b ||| x ||| d := by
  apply Nat.eq_of_testBit_eq
  intro j
  simp only [Nat.testBit_or, Nat.zero_testBit, Bool.false_or, Bool.or_false]
  cases a.testBit j <;> cases b.testBit j <;> cases d.testBit j <;> cases x.testBit j <;>
    rfl

lemma or_reorder4 (a b c x : Nat) : (a ||| b ||| c ||| 0) ||| x = a ||| b ||| c ||| x := by
  apply Nat.eq_of_testBit_eq
  intro j
  simp only [Nat.testBit_or, Nat.zero_testBit, Bool.false_or, Bool.or_false]

/-- One step of the decompression fold: processing a square with the nibble
`compress` packed for it advances `CodecInv` from mask `m` to the mask `m'`
with that square's bit cleared. -/
lemma decode_step (pos : Position) (hwf : pos.WellFormed) (m m' : Nat) (p : Position)
    (sq : Nat) (hsq : sq < 64) (hbit : m.testBit sq = true)
    (hocc : pos.occupied.testBit sq = true)
    (hchar : ∀ j, m'.testBit j = (m.testBit j && !(j == sq)))
    (hinv : CodecInv pos m p) :
    CodecInv pos m'
      (CompressedPosition.decompress_piece p sq
        (CompressedPosition.pack_piece pos sq)) := by
  obtain ⟨hbl, hbcl, hpl, hbbE, hbcE, hpcE, hstmE, hcrE, hepE⟩ := hinv
  have hne : pos.piece_at sq ≠ Piece.noPiece := by
    intro h
    rw [occ_testBit_false pos hwf hsq h] at hocc
    exact Bool.false_ne_true hocc
  have hwfd := hwf
  obtain ⟨-, -, -, hbb64, hbc64, hcons, -, hwks, hwqs, hbks, hbqs, -, -, -⟩ := hwfd
  obtain ⟨hid0, hbbiff0, hbciff0⟩ := (hcons ⟨sq, hsq⟩).2 hne
  have hid : (pos.piece_at sq).id < 12 := hid0
  have hbbiff : ∀ i : Fin 6, (pos.bb.getD i.val 0).testBit sq =
      decide (i.val = (pos.piece_at sq).piece_type.ordinal) := hbbiff0
  have hbciff : ∀ c : Fin 2, (pos.bb_color.getD c.val 0).testBit sq =
      decide (c.val = (pos.piece_at sq).color.ordinal) := hbciff0
  obtain ⟨pbl, pbcl, ppl, pbbE, pbcE, ppcE⟩ :=
    place_codec_clauses pos m m' p sq hsq hchar hid hbbiff hbciff hbb64 hbc64
      hbl hbcl hpl hbbE hbcE hpcE
  rw [pack_piece_eval]
  split_ifs with h12 h13 h14 h15
  · -- nibble 12: the double-pushed pawn
    obtain ⟨hpt, hepne, hwb⟩ := h12
    obtain ⟨e, hepe, h24, h40, hor⟩ := epPawnSq_spec pos hwf hepne
    rcases hwb with ⟨hcw, hr3, hep8⟩ | ⟨hcb, hr4, hep8⟩
    · have hpc : pos.piece_at sq = Piece.WHITE_PAWN :=
        piece_eq_of_type_color hid PieceType.Pawn Color.White hpt hcw
      rw [decompress_piece_12_white p sq hr3, ← hpc]
      have hep8' : @Eq Nat pos.ep_square (sq - 8) := hep8
      have hr3' : sq / 8 = 3 := by
        rw [← rankIdx_eq_div]
        exact hr3
      have hes : @Eq Nat pos.epPawnSq sq := by
        rw [hepe]
        rcases hor with ⟨hre, -, hee⟩ | ⟨hre, -, hee⟩ <;> rw [rankIdx_eq_div] at hre <;>
          omega
      refine ⟨pbl, pbcl, ppl, pbbE, pbcE, ppcE, ?_, ?_, ?_⟩
      · show p.stm = _
        rw [hstmE]
        refine stm_formula_shift pos m m' sq hchar (fun _ => ?_)
        rw [hpc]
        decide
      · show p.castling_rights = _
        rw [hcrE]
        have ht1 : (if CastlingRights.containsCR pos.castling_rights
              CastlingRights.WHITE_KING_SIDE ∧ ¬m.testBit 7
            then CastlingRights.WHITE_KING_SIDE else 0) =
            (if CastlingRights.containsCR pos.castling_rights
              CastlingRights.WHITE_KING_SIDE ∧ ¬m'.testBit 7
            then CastlingRights.WHITE_KING_SIDE else 0) :=
          cr_term_shift _ _ hchar (fun hh => absurd hh (by omega))
        have ht2 : (if CastlingRights.containsCR pos.castling_rights
              CastlingRights.WHITE_QUEEN_SIDE ∧ ¬m.testBit 0
            then CastlingRights.WHITE_QUEEN_SIDE else 0) =
            (if CastlingRights.containsCR pos.castling_rights
              CastlingRights.WHITE_QUEEN_SIDE ∧ ¬m'.testBit 0
            then CastlingRights.WHITE_QUEEN_SIDE else 0) :=
          cr_term_shift _ _ hchar (fun hh => absurd hh (by omega))
        have ht3 : (if CastlingRights.containsCR pos.castling_rights
              CastlingRights.BLACK_KING_SIDE ∧ ¬m.testBit 63
            then CastlingRights.BLACK_KING_SIDE else 0) =
            (if CastlingRights.containsCR pos.castling_rights
              CastlingRights.BLACK_KING_SIDE ∧ ¬m'.testBit 63
            then CastlingRights.BLACK_KING_SIDE else 0) :=
          cr_term_shift _ _ hchar (fun hh => absurd hh (by omega))
        have ht4 : (if CastlingRights.containsCR pos.castling_rights
              CastlingRights.BLACK_QUEEN_SIDE ∧ ¬m.testBit 56
            then CastlingRights.BLACK_QUEEN_SIDE else 0) =
            (if CastlingRights.containsCR pos.castling_rights
              CastlingRights.BLACK_QUEEN_SIDE ∧ ¬m'.testBit 56
            then CastlingRights.BLACK_QUEEN_SIDE else 0) :=
          cr_term_shift _ _ hchar (fun hh => absurd hh (by omega))
        rw [ht1, ht2, ht3, ht4]
      · show sq - 8 = _
        have hcone : ¬m'.testBit pos.epPawnSq = true := by
          rw [hes, hchar sq]
          simp
        rw [if_pos ⟨hepne, hcone⟩]
        exact hep8'.symm
    · have hpc : pos.piece_at sq = Piece.BLACK_PAWN :=
        piece_eq_of_type_color hid PieceType.Pawn Color.Black hpt hcb
      have hr4' : sq / 8 = 4 := by
        rw [← rankIdx_eq_div]
        exact hr4
      rw [decompress_piece_12_black p sq (by rw [rankIdx_eq_div]; omega), ← hpc]
      have hep8' : @Eq Nat pos.ep_square (sq + 8) := hep8
      have hes : @Eq Nat pos.epPawnSq sq := by
        rw [hepe]
        rcases hor with ⟨hre, -, hee⟩ | ⟨hre, -, hee⟩ <;> rw [rankIdx_eq_div] at hre <;>
          omega
      refine ⟨pbl, pbcl, ppl, pbbE, pbcE, ppcE, ?_, ?_, ?_⟩
      · show p.stm = _
        rw [hstmE]
        refine stm_formula_shift pos m m' sq hchar (fun _ => ?_)
        rw [hpc]
        decide
      · show p.castling_rights = _
        rw [hcrE]
        have ht1 : (if CastlingRights.containsCR pos.castling_rights
              CastlingRights.WHITE_KING_SIDE ∧ ¬m.testBit 7
            then CastlingRights.WHITE_KING_SIDE else 0) =
            (if CastlingRights.containsCR pos.castling_rights
              CastlingRights.WHITE_KING_SIDE ∧ ¬m'.testBit 7
            then CastlingRights.WHITE_KING_SIDE else 0) :=
          cr_term_shift _ _ hchar (fun hh => absurd hh (by omega))
        have ht2 : (if CastlingRights.containsCR pos.castling_rights
              CastlingRights.WHITE_QUEEN_SIDE ∧ ¬m.testBit 0
            then CastlingRights.WHITE_QUEEN_SIDE else 0) =
            (if CastlingRights.containsCR pos.castling_rights
              CastlingRights.WHITE_QUEEN_SIDE ∧ ¬m'.testBit 0
            then CastlingRights.WHITE_QUEEN_SIDE else 0) :=
          cr_term_shift _ _ hchar (fun hh => absurd hh (by omega))
        have ht3 : (if CastlingRights.containsCR pos.castling_rights
              CastlingRights.BLACK_KING_SIDE ∧ ¬m.testBit 63
            then CastlingRights.BLACK_KING_SIDE else 0) =
            (if CastlingRights.containsCR pos.castling_rights
              CastlingRights.BLACK_KING_SIDE ∧ ¬m'.testBit 63
            then CastlingRights.BLACK_KING_SIDE else 0) :=
          cr_term_shift _ _ hchar (fun hh => absurd hh (by omega))
        have ht4 : (if CastlingRights.containsCR pos.castling_rights
              CastlingRights.BLACK_QUEEN_SIDE ∧ ¬m.testBit 56
            then CastlingRights.BLACK_QUEEN_SIDE else 0) =
            (if CastlingRights.containsCR pos.castling_rights
              CastlingRights.BLACK_QUEEN_SIDE ∧ ¬m'.testBit 56
            then CastlingRights.BLACK_QUEEN_SIDE else 0) :=
          cr_term_shift _ _ hchar (fun hh => absurd hh (by omega))
        rw [ht1, ht2, ht3, ht4]
      · show sq + 8 = _
        have hcone : ¬m'.testBit pos.epPawnSq = true := by
          rw [hes, hchar sq]
          simp
        rw [if_pos ⟨hepne, hcone⟩]
        exact hep8'.symm
  · -- nibble 13: a white rook carrying a castling right
    obtain ⟨hpc, hd⟩ := h13
    rcases hd with ⟨hsq0, hwq⟩ | ⟨hsq7, hwk⟩
    · subst hsq0
      rw [decompress_piece_13_q, ← hpc]
      refine ⟨pbl, pbcl, ppl, pbbE, pbcE, ppcE, ?_, ?_, ?_⟩
      · show p.stm = _
        rw [hstmE]
        refine stm_formula_shift pos m m' 0 hchar (fun _ => ?_)
        rw [hpc]
        decide
      · show p.castling_rights ||| CastlingRights.WHITE_QUEEN_SIDE = _
        rw [hcrE]
        have ht1 : (if CastlingRights.containsCR pos.castling_rights
              CastlingRights.WHITE_KING_SIDE ∧ ¬m.testBit 7
            then CastlingRights.WHITE_KING_SIDE else 0) =
            (if CastlingRights.containsCR pos.castling_rights
              CastlingRights.WHITE_KING_SIDE ∧ ¬m'.testBit 7
            then CastlingRights.WHITE_KING_SIDE else 0) :=
          cr_term_shift _ _ hchar (fun hh => absurd hh (by omega))
        have ht3 : (if CastlingRights.containsCR pos.castling_rights
              CastlingRights.BLACK_KING_SIDE ∧ ¬m.testBit 63
            then CastlingRights.BLACK_KING_SIDE else 0) =
            (if CastlingRights.containsCR pos.castling_rights
              CastlingRights.BLACK_KING_SIDE ∧ ¬m'.testBit 63
            then CastlingRights.BLACK_KING_SIDE else 0) :=
          cr_term_shift _ _ hchar (fun hh => absurd hh (by omega))
        have ht4 : (if CastlingRights.containsCR pos.castling_rights
              CastlingRights.BLACK_QUEEN_SIDE ∧ ¬m.testBit 56
            then CastlingRights.BLACK_QUEEN_SIDE else 0) =
            (if CastlingRights.containsCR pos.castling_rights
              CastlingRights.BLACK_QUEEN_SIDE ∧ ¬m'.testBit 56
            then CastlingRights.BLACK_QUEEN_SIDE else 0) :=
          cr_term_shift _ _ hchar (fun hh => absurd hh (by omega))
        have hold : (if CastlingRights.containsCR pos.castling_rights
              CastlingRights.WHITE_QUEEN_SIDE ∧ ¬m.testBit 0
            then CastlingRights.WHITE_QUEEN_SIDE else 0) = 0 :=
          if_neg (fun hh => hh.2 hbit)
        have hnew : (if CastlingRights.containsCR pos.castling_rights
              CastlingRights.WHITE_QUEEN_SIDE ∧ ¬m'.testBit 0
            then CastlingRights.WHITE_QUEEN_SIDE else 0) =
            CastlingRights.WHITE_QUEEN_SIDE :=
          if_pos ⟨hwq, by rw [hchar 0]; simp⟩
        rw [ht1, ht3, ht4, hold, hnew]
        exact or_reorder2 _ _ _ _
      · show p.enpassant = _
        rw [hepE]
        exact ep_formula_shift pos m m' 0 hchar
          (fun hnep => epPawnSq_ne_corner pos hwf (Or.inl (by omega)) hnep)
    · subst hsq7
      rw [decompress_piece_13_k p 7 (by decide), ← hpc]
      refine ⟨pbl, pbcl, ppl, pbbE, pbcE, ppcE, ?_, ?_, ?_⟩
      · show p.stm = _
        rw [hstmE]
        refine stm_formula_shift pos m m' 7 hchar (fun _ => ?_)
        rw [hpc]
        decide
      · show p.castling_rights ||| CastlingRights.WHITE_KING_SIDE = _
        rw [hcrE]
        have ht2 : (if CastlingRights.containsCR pos.castling_rights
              CastlingRights.WHITE_QUEEN_SIDE ∧ ¬m.testBit 0
            then CastlingRights.WHITE_QUEEN_SIDE else 0) =
            (if CastlingRights.containsCR pos.castling_rights
              CastlingRights.WHITE_QUEEN_SIDE ∧ ¬m'.testBit 0
            then CastlingRights.WHITE_QUEEN_SIDE else 0) :=
          cr_term_shift _ _ hchar (fun hh => absurd hh (by omega))
        have ht3 : (if CastlingRights.containsCR pos.castling_rights
              CastlingRights.BLACK_KING_SIDE ∧ ¬m.testBit 63
            then CastlingRights.BLACK_KING_SIDE else 0) =
            (if CastlingRights.containsCR pos.castling_rights
              CastlingRights.BLACK_KING_SIDE ∧ ¬m'.testBit 63
            then CastlingRights.BLACK_KING_SIDE else 0) :=
          cr_term_shift _ _ hchar (fun hh => absurd hh (by omega))
        have ht4 : (if CastlingRights.containsCR pos.castling_rights
              CastlingRights.BLACK_QUEEN_SIDE ∧ ¬m.testBit 56
            then CastlingRights.BLACK_QUEEN_SIDE else 0) =
            (if CastlingRights.containsCR pos.castling_rights
              CastlingRights.BLACK_QUEEN_SIDE ∧ ¬m'.testBit 56
            then CastlingRights.BLACK_QUEEN_SIDE else 0) :=
          cr_term_shift _ _ hchar (fun hh => absurd hh (by omega))
        have hold : (if CastlingRights.containsCR pos.castling_rights
              CastlingRights.WHITE_KING_SIDE ∧ ¬m.testBit 7
            then CastlingRights.WHITE_KING_SIDE else 0) = 0 :=
          if_neg (fun hh => hh.2 hbit)
        have hnew : (if CastlingRights.containsCR pos.castling_rights
              CastlingRights.WHITE_KING_SIDE ∧ ¬m'.testBit 7
            then CastlingRights.WHITE_KING_SIDE else 0) =
            CastlingRights.WHITE_KING_SIDE :=
          if_pos ⟨hwk, by rw [hchar 7]; simp⟩
        rw [ht2, ht3, ht4, hold, hnew]
        exact or_reorder1 _ _ _ _
      · show p.enpassant = _
        rw [hepE]
        exact ep_formula_shift pos m m' 7 hchar
          (fun hnep => epPawnSq_ne_corner pos hwf (Or.inl (by omega)) hnep)
  · -- nibble 14: a black rook carrying a castling right
    obtain ⟨hpc, hd⟩ := h14
    rcases hd with ⟨hsq56, hbq⟩ | ⟨hsq63, hbk⟩
    · subst hsq56
      rw [decompress_piece_14_q, ← hpc]
      refine ⟨pbl, pbcl, ppl, pbbE, pbcE, ppcE, ?_, ?_, ?_⟩
      · show p.stm = _
        rw [hstmE]
        refine stm_formula_shift pos m m' 56 hchar (fun _ => ?_)
        rw [hpc]
        decide
      · show p.castling_rights ||| CastlingRights.BLACK_QUEEN_SIDE = _
        rw [hcrE]
        have ht1 : (if CastlingRights.containsCR pos.castling_rights
              CastlingRights.WHITE_KING_SIDE ∧ ¬m.testBit 7
            then CastlingRights.WHITE_KING_SIDE else 0) =
            (if CastlingRights.containsCR pos.castling_rights
              CastlingRights.WHITE_KING_SIDE ∧ ¬m'.testBit 7
            then CastlingRights.WHITE_KING_SIDE else 0) :=
          cr_term_shift _ _ hchar (fun hh => absurd hh (by omega))
        have ht2 : (if CastlingRights.containsCR pos.castling_rights
              CastlingRights.WHITE_QUEEN_SIDE ∧ ¬m.testBit 0
            then CastlingRights.WHITE_QUEEN_SIDE else 0) =
            (if CastlingRights.containsCR pos.castling_rights
              CastlingRights.WHITE_QUEEN_SIDE ∧ ¬m'.testBit 0
            then CastlingRights.WHITE_QUEEN_SIDE else 0) :=
          cr_term_shift _ _ hchar (fun hh => absurd hh (by omega))
        have ht3 : (if CastlingRights.containsCR pos.castling_rights
              CastlingRights.BLACK_KING_SIDE ∧ ¬m.testBit 63
            then CastlingRights.BLACK_KING_SIDE else 0) =
            (if CastlingRights.containsCR pos.castling_rights
              CastlingRights.BLACK_KING_SIDE ∧ ¬m'.testBit 63
            then CastlingRights.BLACK_KING_SIDE else 0) :=
          cr_term_shift _ _ hchar (fun hh => absurd hh (by omega))
        have hold : (if CastlingRights.containsCR pos.castling_rights
              CastlingRights.BLACK_QUEEN_SIDE ∧ ¬m.testBit 56
            then CastlingRights.BLACK_QUEEN_SIDE else 0) = 0 :=
          if_neg (fun hh => hh.2 hbit)
        have hnew : (if CastlingRights.containsCR pos.castling_rights
              CastlingRights.BLACK_QUEEN_SIDE ∧ ¬m'.testBit 56
            then CastlingRights.BLACK_QUEEN_SIDE else 0) =
            CastlingRights.BLACK_QUEEN_SIDE :=
          if_pos ⟨hbq, by rw [hchar 56]; simp⟩
        rw [ht1, ht2, ht3, hold, hnew]
        exact or_reorder4 _ _ _ _
      · show p.enpassant = _
        rw [hepE]
        exact ep_formula_shift pos m m' 56 hchar
          (fun hnep => epPawnSq_ne_corner pos hwf (Or.inr (by omega)) hnep)
    · subst hsq63
      rw [decompress_piece_14_k p 63 (by decide), ← hpc]
      refine ⟨pbl, pbcl, ppl, pbbE, pbcE, ppcE, ?_, ?_, ?_⟩
      · show p.stm = _
        rw [hstmE]
        refine stm_formula_shift pos m m' 63 hchar (fun _ => ?_)
        rw [hpc]
        decide
      · show p.castling_rights ||| CastlingRights.BLACK_KING_SIDE = _
        rw [hcrE]
        have ht1 : (if CastlingRights.containsCR pos.castling_rights
              CastlingRights.WHITE_KING_SIDE ∧ ¬m.testBit 7
            then CastlingRights.WHITE_KING_SIDE else 0) =
            (if CastlingRights.containsCR pos.castling_rights
              CastlingRights.WHITE_KING_SIDE ∧ ¬m'.testBit 7
            then CastlingRights.WHITE_KING_SIDE else 0) :=
          cr_term_shift _ _ hchar (fun hh => absurd hh (by omega))
        have ht2 : (if CastlingRights.containsCR pos.castling_rights
              CastlingRights.WHITE_QUEEN_SIDE ∧ ¬m.testBit 0
            then CastlingRights.WHITE_QUEEN_SIDE else 0) =
            (if CastlingRights.containsCR pos.castling_rights
              CastlingRights.WHITE_QUEEN_SIDE ∧ ¬m'.testBit 0
            then CastlingRights.WHITE_QUEEN_SIDE else 0) :=
          cr_term_shift _ _ hchar (fun hh => absurd hh (by omega))
        have ht4 : (if CastlingRights.containsCR pos.castling_rights
              CastlingRights.BLACK_QUEEN_SIDE ∧ ¬m.testBit 56
            then CastlingRights.BLACK_QUEEN_SIDE else 0) =
            (if CastlingRights.containsCR pos.castling_rights
              CastlingRights.BLACK_QUEEN_SIDE ∧ ¬m'.testBit 56
            then CastlingRights.BLACK_QUEEN_SIDE else 0) :=
          cr_term_shift _ _ hchar (fun hh => absurd hh (by omega))
        have hold : (if CastlingRights.containsCR pos.castling_rights
              CastlingRights.BLACK_KING_SIDE ∧ ¬m.testBit 63
            then CastlingRights.BLACK_KING_SIDE else 0) = 0 :=
          if_neg (fun hh => hh.2 hbit)
        have hnew : (if CastlingRights.containsCR pos.castling_rights
              CastlingRights.BLACK_KING_SIDE ∧ ¬m'.testBit 63
            then CastlingRights.BLACK_KING_SIDE else 0) =
            CastlingRights.BLACK_KING_SIDE :=
          if_pos ⟨hbk, by rw [hchar 63]; simp⟩
        rw [ht1, ht2, ht4, hold, hnew]
        exact or_reorder3 _ _ _ _
      · show p.enpassant = _
        rw [hepE]
        exact ep_formula_shift pos m m' 63 hchar
          (fun hnep => epPawnSq_ne_corner pos hwf (Or.inr (by omega)) hnep)
  · -- nibble 15: the black king with Black to move
    obtain ⟨hpc, hB⟩ := h15
    rw [decompress_piece_15 p sq, ← hpc]
    refine ⟨pbl, pbcl, ppl, pbbE, pbcE, ppcE, ?_, ?_, ?_⟩
    · show Color.Black = _
      have hex : ∃ s : Fin 64, ¬m'.testBit s.val ∧
          pos.piece_at s.val = Piece.BLACK_KING :=
        ⟨⟨sq, hsq⟩, show ¬m'.testBit sq = true from by rw [hchar sq]; simp, hpc⟩
      rw [if_pos ⟨hB, hex⟩]
    · show p.castling_rights = _
      rw [hcrE]
      have ht1 : (if CastlingRights.containsCR pos.castling_rights
            CastlingRights.WHITE_KING_SIDE ∧ ¬m.testBit 7
          then CastlingRights.WHITE_KING_SIDE else 0) =
          (if CastlingRights.containsCR pos.castling_rights
            CastlingRights.WHITE_KING_SIDE ∧ ¬m'.testBit 7
          then CastlingRights.WHITE_KING_SIDE else 0) :=
        cr_term_shift _ _ hchar
          (fun hh hc => absurd ((hwks hc).symm.trans (hh ▸ hpc)) (by decide))
      have ht2 : (if CastlingRights.containsCR pos.castling_rights
            CastlingRights.WHITE_QUEEN_SIDE ∧ ¬m.testBit 0
          then CastlingRights.WHITE_QUEEN_SIDE else 0) =
          (if CastlingRights.containsCR pos.castling_rights
            CastlingRights.WHITE_QUEEN_SIDE ∧ ¬m'.testBit 0
          then CastlingRights.WHITE_QUEEN_SIDE else 0) :=
        cr_term_shift _ _ hchar
          (fun hh hc => absurd ((hwqs hc).symm.trans (hh ▸ hpc)) (by decide))
      have ht3 : (if CastlingRights.containsCR pos.castling_rights
            CastlingRights.BLACK_KING_SIDE ∧ ¬m.testBit 63
          then CastlingRights.BLACK_KING_SIDE else 0) =
          (if CastlingRights.containsCR pos.castling_rights
            CastlingRights.BLACK_KING_SIDE ∧ ¬m'.testBit 63
          then CastlingRights.BLACK_KING_SIDE else 0) :=
        cr_term_shift _ _ hchar
          (fun hh hc => absurd ((hbks hc).symm.trans (hh ▸ hpc)) (by decide))
      have ht4 : (if CastlingRights.containsCR pos.castling_rights
            CastlingRights.BLACK_QUEEN_SIDE ∧ ¬m.testBit 56
          then CastlingRights.BLACK_QUEEN_SIDE else 0) =
          (if CastlingRights.containsCR pos.castling_rights
            CastlingRights.BLACK_QUEEN_SIDE ∧ ¬m'.testBit 56
          then CastlingRights.BLACK_QUEEN_SIDE else 0) :=
        cr_term_shift _ _ hchar
          (fun hh hc => absurd ((hbqs hc).symm.trans (hh ▸ hpc)) (by decide))
      rw [ht1, ht2, ht3, ht4]
    · show p.enpassant = _
      rw [hepE]
      refine ep_formula_shift pos m m' sq hchar (fun hnep => ?_)
      intro hh
      obtain ⟨e, hepe, h24, h40, hor⟩ := epPawnSq_spec pos hwf hnep
      have hesq : @Eq Nat e sq := hepe.symm.trans hh
      rcases hor with ⟨-, hpe, -⟩ | ⟨-, hpe, -⟩ <;> rw [hesq] at hpe
      · exact absurd (hpe.symm.trans hpc) (by decide)
      · exact absurd (hpe.symm.trans hpc) (by decide)
  · -- the plain nibble: the piece id
    rw [decompress_piece_le11 p sq _ (by omega)]
    refine ⟨pbl, pbcl, ppl, pbbE, pbcE, ppcE, ?_, ?_, ?_⟩
    · show p.stm = _
      rw [hstmE]
      exact stm_formula_shift pos m m' sq hchar (fun hB hbk => h15 ⟨hbk, hB⟩)
    · show p.castling_rights = _
      rw [hcrE]
      have ht1 : (if CastlingRights.containsCR pos.castling_rights
            CastlingRights.WHITE_KING_SIDE ∧ ¬m.testBit 7
          then CastlingRights.WHITE_KING_SIDE else 0) =
          (if CastlingRights.containsCR pos.castling_rights
            CastlingRights.WHITE_KING_SIDE ∧ ¬m'.testBit 7
          then CastlingRights.WHITE_KING_SIDE else 0) :=
        cr_term_shift _ _ hchar
          (fun hh hc => h13 ⟨by rw [hh]; exact hwks hc, Or.inr ⟨hh, hc⟩⟩)
      have ht2 : (if CastlingRights.containsCR pos.castling_rights
            CastlingRights.WHITE_QUEEN_SIDE ∧ ¬m.testBit 0
          then CastlingRights.WHITE_QUEEN_SIDE else 0) =
          (if CastlingRights.containsCR pos.castling_rights
            CastlingRights.WHITE_QUEEN_SIDE ∧ ¬m'.testBit 0
          then CastlingRights.WHITE_QUEEN_SIDE else 0) :=
        cr_term_shift _ _ hchar
          (fun hh hc => h13 ⟨by rw [hh]; exact hwqs hc, Or.inl ⟨hh, hc⟩⟩)
      have ht3 : (if CastlingRights.containsCR pos.castling_rights
            CastlingRights.BLACK_KING_SIDE ∧ ¬m.testBit 63
          then CastlingRights.BLACK_KING_SIDE else 0) =
          (if CastlingRights.containsCR pos.castling_rights
            CastlingRights.BLACK_KING_SIDE ∧ ¬m'.testBit 63
          then CastlingRights.BLACK_KING_SIDE else 0) :=
        cr_term_shift _ _ hchar
          (fun hh hc => h14 ⟨by rw [hh]; exact hbks hc, Or.inr ⟨hh, hc⟩⟩)
      have ht4 : (if CastlingRights.containsCR pos.castling_rights
            CastlingRights.BLACK_QUEEN_SIDE ∧ ¬m.testBit 56
          then CastlingRights.BLACK_QUEEN_SIDE else 0) =
          (if CastlingRights.containsCR pos.castling_rights
            CastlingRights.BLACK_QUEEN_SIDE ∧ ¬m'.testBit 56
          then CastlingRights.BLACK_QUEEN_SIDE else 0) :=
        cr_term_shift _ _ hchar
          (fun hh hc => h14 ⟨by rw [hh]; exact hbqs hc, Or.inl ⟨hh, hc⟩⟩)
      rw [ht1, ht2, ht3, ht4]
    · show p.enpassant = _
      rw [hepE]
      refine ep_formula_shift pos m m' sq hchar (fun hnep => ?_)
      intro hh
      obtain ⟨e, hepe, h24, h40, hor⟩ := epPawnSq_spec pos hwf hnep
      have hesq : @Eq Nat e sq := hepe.symm.trans hh
      rcases hor with ⟨hre, hpe, hee⟩ | ⟨hre, hpe, hee⟩ <;>
        rw [hesq] at hre hpe hee
      · exact h12 ⟨by rw [hpe]; decide, hnep,
          Or.inl ⟨by rw [hpe]; decide, hre, hee⟩⟩
      · exact h12 ⟨by rw [hpe]; decide, hnep,
          Or.inr ⟨by rw [hpe]; decide, hre, hee⟩⟩

/-- Folding the decoder over the LSB-first square list clears the whole mask:
the invariant descends from `m` to `0`. The hypothesis `m % 2 ^ (64 - fuel) = 0`
tracks that the trailing-zero count only grows, so 64 units of fuel suffice. -/
lemma decode_fold_inv (pos : Position) (hwf : pos.WellFormed) :
    ∀ (fuel m : Nat) (p : Position), m < 2 ^ 64 → m % 2 ^ (64 - fuel) = 0 →
      fuel ≤ 64 →
      (∀ j, m.testBit j = true → pos.occupied.testBit j = true) →
      CodecInv pos m p →
      CodecInv pos 0 (CompressedPosition.decode_fold pos (natToLsbList fuel m) p)
  | 0, m, p => by
      intro hm64 hmod _ _ hinv
      have hm0 : m = 0 := by
        rw [show (64 : Nat) - 0 = 64 from rfl,
          show (2 : Nat) ^ 64 = 18446744073709551616 from by norm_num] at hmod
        have hm64' : m < 18446744073709551616 :=
          lt_of_lt_of_le hm64 (by norm_num)
        omega
      subst hm0
      rw [natToLsbList_zero]
      exact hinv
  | fuel + 1, m, p => by
      intro hm64 hmod hf hsub hinv
      rcases eq_or_ne m 0 with rfl | hm0
      · rw [natToLsbList_fuel_zero]
        exact hinv
      · rw [natToLsbList_succ fuel m hm0]
        have hmlt : m < 18446744073709551616 :=
          lt_of_lt_of_le hm64 (by norm_num)
        have htz : m.testBit (trailingZeros64 m) = true :=
          trailingZeros64_testBit hm0 hmlt
        have htz64 : trailingZeros64 m < 64 := by
          by_contra hge
          rw [testBit_ge hm64 (by omega)] at htz
          exact Bool.false_ne_true htz
        have hchar : ∀ j, (m &&& (m - 1)).testBit j =
            (m.testBit j && !(j == trailingZeros64 m)) :=
          fun j => and_pred_testBit hm0 hm64 j
        have hstep := decode_step pos hwf m (m &&& (m - 1)) p (trailingZeros64 m)
          htz64 htz (hsub _ htz) hchar hinv
        show CodecInv pos 0 (CompressedPosition.decode_fold pos
          (natToLsbList fuel (m &&& (m - 1)))
          (CompressedPosition.decompress_piece p (trailingZeros64 m)
            (CompressedPosition.pack_piece pos (trailingZeros64 m))))
        refine decode_fold_inv pos hwf fuel (m &&& (m - 1)) _
          (lt_of_le_of_lt Nat.and_le_left hm64) ?_ (by omega) ?_ hstep
        · apply mod_two_pow_eq_zero_of_testBit
          intro j hj
          rw [hchar j]
          by_cases hmj : m.testBit j = true
          · have hjtz : trailingZeros64 m ≤ j := by
              by_contra hlt
              rw [trailingZeros64_min m j (by omega)] at hmj
              exact Bool.false_ne_true hmj
            have htzge : 64 - (fuel + 1) ≤ trailingZeros64 m := by
              by_contra hlt
              rw [testBit_false_of_mod_two_pow hmod (by omega)] at htz
              exact Bool.false_ne_true htz
            have hjeq : j = trailingZeros64 m := by omega
            rw [hmj, hjeq]
            simp
          · rw [Bool.not_eq_true] at hmj
            rw [hmj]
            rfl
        · intro j hj
          rw [hchar j] at hj
          exact hsub j (Bool.and_eq_true_iff.mp hj).1

/-- The empty board with no castling rights satisfies the invariant with the
full occupancy mask still to process. -/
lemma codec_inv_init (pos : Position) (hwf : pos.WellFormed) :
    CodecInv pos pos.occupied
      (Position.empty.set_castling_rights CastlingRights.NONE) := by
  have hwfd := hwf
  obtain ⟨-, -, -, hbb64, hbc64, hcons, -, hwks, hwqs, hbks, hbqs, -, -, -⟩ := hwfd
  have hrep : ∀ k, k < 64 →
      (List.replicate 64 Piece.noPiece).getD k Piece.noPiece = Piece.noPiece := by
    intro k hk
    rw [List.getD_eq_getElem?_getD, List.getElem?_replicate, if_pos hk]
    rfl
  refine ⟨rfl, rfl, rfl, ?_, ?_, ?_, ?_, ?_, ?_⟩
  · intro i
    have hz : ∀ k, k < 6 →
        ([0, 0, 0, 0, 0, 0] : List Nat).getD k 0 = 0 := by
      decide
    rw [show (Position.empty.set_castling_rights CastlingRights.NONE).bb =
        [0, 0, 0, 0, 0, 0] from rfl, hz i.val i.isLt]
    apply Eq.symm
    apply Nat.eq_of_testBit_eq
    intro j
    rw [Nat.testBit_and, Nat.zero_testBit]
    by_cases hj64 : j < 64
    · rw [testBit_compl _ j hj64]
      rcases eq_or_ne (pos.piece_at j) Piece.noPiece with he | hne
      · rw [((hcons ⟨j, hj64⟩).1 he).1 i]
        rfl
      · rw [occ_testBit_true pos hwf hj64 hne]
        simp
    · rw [testBit_ge (hbb64 i) (by omega)]
      rfl
  · intro c
    have hz : ∀ k, k < 2 → ([0, 0] : List Nat).getD k 0 = 0 := by
      decide
    rw [show (Position.empty.set_castling_rights CastlingRights.NONE).bb_color =
        [0, 0] from rfl, hz c.val c.isLt]
    apply Eq.symm
    apply Nat.eq_of_testBit_eq
    intro j
    rw [Nat.testBit_and, Nat.zero_testBit]
    by_cases hj64 : j < 64
    · rw [testBit_compl _ j hj64]
      rcases eq_or_ne (pos.piece_at j) Piece.noPiece with he | hne
      · rw [((hcons ⟨j, hj64⟩).1 he).2 c]
        rfl
      · rw [occ_testBit_true pos hwf hj64 hne]
        simp
    · rw [testBit_ge (hbc64 c) (by omega)]
      rfl
  · intro s
    rw [show (Position.empty.set_castling_rights CastlingRights.NONE).pieces =
        List.replicate 64 Piece.noPiece from rfl, hrep s.val s.isLt]
    by_cases hb : pos.occupied.testBit s.val = true
    · rw [if_pos hb]
    · rw [if_neg hb]
      rcases eq_or_ne (pos.piece_at s.val) Piece.noPiece with he | hne
      · exact he.symm
      · exact absurd (occ_testBit_true pos hwf s.isLt hne) hb
  · show Color.White = _
    have hcond : ¬(pos.stm = Color.Black ∧ ∃ s : Fin 64,
        ¬pos.occupied.testBit s.val ∧ pos.piece_at s.val = Piece.BLACK_KING) := by
      rintro ⟨-, s, hnb, hbk⟩
      exact hnb (occ_testBit_true pos hwf s.isLt (by rw [hbk]; decide))
    rw [if_neg hcond]
  · show CastlingRights.NONE = _
    have hc1 : ¬(CastlingRights.containsCR pos.castling_rights
        CastlingRights.WHITE_KING_SIDE ∧ ¬pos.occupied.testBit 7) :=
      fun hh => hh.2 (occ_testBit_true pos hwf (by omega)
        (by rw [hwks hh.1]; decide))
    have hc2 : ¬(CastlingRights.containsCR pos.castling_rights
        CastlingRights.WHITE_QUEEN_SIDE ∧ ¬pos.occupied.testBit 0) :=
      fun hh => hh.2 (occ_testBit_true pos hwf (by omega)
        (by rw [hwqs hh.1]; decide))
    have hc3 : ¬(CastlingRights.containsCR pos.castling_rights
        CastlingRights.BLACK_KING_SIDE ∧ ¬pos.occupied.testBit 63) :=
      fun hh => hh.2 (occ_testBit_true pos hwf (by omega)
        (by rw [hbks hh.1]; decide))
    have hc4 : ¬(CastlingRights.containsCR pos.castling_rights
        CastlingRights.BLACK_QUEEN_SIDE ∧ ¬pos.occupied.testBit 56) :=
      fun hh => hh.2 (occ_testBit_true pos hwf (by omega)
        (by rw [hbqs hh.1]; decide))
    rw [if_neg hc1, if_neg hc2, if_neg hc3, if_neg hc4]
    rfl
  · show Square.NONE = _
    have hcond : ¬(pos.ep_square ≠ Square.NONE ∧
        ¬pos.occupied.testBit pos.epPawnSq) := by
      rintro ⟨hne, hnb⟩
      obtain ⟨e, hepe, -, h40, hor⟩ := epPawnSq_spec pos hwf hne
      refine hnb ?_
      rw [hepe]
      rcases hor with ⟨-, hpe, -⟩ | ⟨-, hpe, -⟩ <;>
        exact occ_testBit_true pos hwf (by omega) (by rw [hpe]; decide)
    rw [if_neg hcond]

/-- At mask `0` the invariant forces agreement with `pos` on all six
codec-relevant fields. -/
lemma codec_inv_final (pos p : Position) (hwf : pos.WellFormed)
    (hinv : CodecInv pos 0 p) :
    p.bb = pos.bb ∧ p.bb_color = pos.bb_color ∧ p.pieces = pos.pieces ∧
    p.stm = pos.stm ∧ p.castling_rights = pos.castling_rights ∧
    p.enpassant = pos.enpassant := by
  obtain ⟨hbl, hbcl, hpl, hbbE, hbcE, hpcE, hstmE, hcrE, hepE⟩ := hinv
  have hwfd := hwf
  obtain ⟨hbl6, hbcl2, hpl64, hbb64, hbc64, -, hcr16, -, -, -, -, -, hking, -⟩ := hwfd
  have hcompl0 : Bitboard.complement 0 = 2 ^ 64 - 1 := by
    unfold Bitboard.complement
    norm_num
  refine ⟨?_, ?_, ?_, ?_, ?_, ?_⟩
  · have key : ∀ i : Fin 6, p.bb.getD i.val 0 = pos.bb.getD i.val 0 := by
      intro i
      rw [hbbE i, hcompl0, and_mask_mod, Nat.mod_eq_of_lt (hbb64 i)]
    apply List.ext_getElem (by rw [hbl, hbl6])
    intro i h1 h2
    have hi : i < 6 := by rw [hbl] at h1; exact h1
    have hk := key ⟨i, hi⟩
    rwa [getD_eq_getElem_of_lt _ _ h1, getD_eq_getElem_of_lt _ _ h2] at hk
  · have key : ∀ c : Fin 2, p.bb_color.getD c.val 0 = pos.bb_color.getD c.val 0 := by
      intro c
      rw [hbcE c, hcompl0, and_mask_mod, Nat.mod_eq_of_lt (hbc64 c)]
    apply List.ext_getElem (by rw [hbcl, hbcl2])
    intro i h1 h2
    have hi : i < 2 := by rw [hbcl] at h1; exact h1
    have hk := key ⟨i, hi⟩
    rwa [getD_eq_getElem_of_lt _ _ h1, getD_eq_getElem_of_lt _ _ h2] at hk
  · have key : ∀ s : Fin 64, p.pieces.getD s.val Piece.noPiece =
        pos.pieces.getD s.val Piece.noPiece := by
      intro s
      have hp := hpcE s
      rw [Nat.zero_testBit] at hp
      rwa [if_neg (by simp)] at hp
    apply List.ext_getElem (by rw [hpl, hpl64])
    intro i h1 h2
    have hi : i < 64 := by rw [hpl] at h1; exact h1
    have hk := key ⟨i, hi⟩
    rwa [getD_eq_getElem_of_lt _ _ h1, getD_eq_getElem_of_lt _ _ h2] at hk
  · cases hstm : pos.stm with
    | White =>
      rw [hstmE, if_neg (fun hh => by rw [hstm] at hh; exact absurd hh.1 (by decide))]
    | Black =>
      obtain ⟨s, hbk⟩ := hking hstm
      rw [hstmE, if_pos ⟨hstm, s, by simp, hbk⟩]
  · have hdec := (show ∀ r : Fin 16,
        ((if CastlingRights.containsCR r.val CastlingRights.WHITE_KING_SIDE ∧
            ¬(0 : Nat).testBit 7 then CastlingRights.WHITE_KING_SIDE else 0) |||
         (if CastlingRights.containsCR r.val CastlingRights.WHITE_QUEEN_SIDE ∧
            ¬(0 : Nat).testBit 0 then CastlingRights.WHITE_QUEEN_SIDE else 0) |||
         (if CastlingRights.containsCR r.val CastlingRights.BLACK_KING_SIDE ∧
            ¬(0 : Nat).testBit 63 then CastlingRights.BLACK_KING_SIDE else 0) |||
         (if CastlingRights.containsCR r.val CastlingRights.BLACK_QUEEN_SIDE ∧
            ¬(0 : Nat).testBit 56 then CastlingRights.BLACK_QUEEN_SIDE else 0)) =
          r.val from by decide) ⟨pos.castling_rights, hcr16⟩
    exact hcrE.trans hdec
  · by_cases hne : pos.ep_square = Square.NONE
    · rw [hepE, if_neg (fun hh => hh.1 hne)]
      exact hne.symm
    · rw [hepE, if_pos ⟨hne, by simp⟩]
      rfl

/-- The complete position-codec round-trip, assembled from the packing lemma
and the fold invariant. -/
lemma codec_roundtrip_aux (pos : Position) (hwf : pos.WellFormed) :
    (CompressedPosition.compress pos).decompress.bb = pos.bb ∧
    (CompressedPosition.compress pos).decompress.bb_color = pos.bb_color ∧
    (CompressedPosition.compress pos).decompress.pieces = pos.pieces ∧
    (CompressedPosition.compress pos).decompress.stm = pos.stm ∧
    (CompressedPosition.compress pos).decompress.castling_rights =
      pos.castling_rights ∧
    (CompressedPosition.compress pos).decompress.enpassant = pos.enpassant := by
  have hwfd := hwf
  obtain ⟨-, -, -, -, hbc64, -, -, -, -, -, -, -, -, hcount⟩ := hwfd
  have hocc64 : pos.occupied < 2 ^ 64 := by
    have h0 := hbc64 ⟨0, by omega⟩
    have h1 := hbc64 ⟨1, by omega⟩
    exact Nat.or_lt_two_pow h0 h1
  have hnib : ∀ sq ∈ natToLsbList 64 pos.occupied,
      CompressedPosition.pack_piece pos sq < 16 := by
    intro sq hmem
    have hbitocc := mem_natToLsbList_testBit 64 pos.occupied sq
      (lt_of_lt_of_le hocc64 (by norm_num)) hmem
    have hsq64 : sq < 64 := by
      by_contra hge
      rw [testBit_ge hocc64 (Nat.not_lt.mp hge)] at hbitocc
      exact Bool.false_ne_true hbitocc
    exact pack_piece_lt_16 pos hwf sq hsq64 hbitocc
  have hmain := decompress_compress pos hcount hnib
  rw [hmain]
  exact codec_inv_final pos _ hwf
    (decode_fold_inv pos hwf 64 pos.occupied _ hocc64 (by simp [Nat.mod_one]) (le_refl 64)
      (fun _ h => h) (codec_inv_init pos hwf))

/-- **C3**. For every position satisfying `Position.WellFormed` — the
structural invariant of legal positions reachable by `do_move` from the
initial position — `CompressedPosition::compress` followed by `decompress`
yields a position agreeing with the original on the piece bitboards, the
mailbox piece list, the side to move, the castling rights and the en-passant
square; the half-move clock and full-move counter are not constrained. -/
theorem position_codec_roundtrip (pos : Position) (hwf : pos.WellFormed) :
    (CompressedPosition.compress pos).decompress.bb = pos.bb ∧
    (CompressedPosition.compress pos).decompress.bb_color = pos.bb_color ∧
    (CompressedPosition.compress pos).decompress.pieces = pos.pieces ∧
    (CompressedPosition.compress pos).decompress.stm = pos.stm ∧
    (CompressedPosition.compress pos).decompress.castling_rights =
      pos.castling_rights ∧
    (CompressedPosition.compress pos).decompress.enpassant = pos.enpassant :=
  codec_roundtrip_aux pos hwf

/-- Witness for C3 at the standard starting position. -/
theorem position_codec_roundtrip_witness :
    Position.new.WellFormed ∧
      (CompressedPosition.compress Position.new).decompress.pieces =
        Position.new.pieces :=
  ⟨by decide, (position_codec_roundtrip Position.new (by decide)).2.2.1⟩

/-! ### C2: the packed-stem round-trip -/

lemma or_eq_add_of_dvd (k : Nat) {x b : Nat} (hx : x % 2 ^ k = 0) (hb : b < 2 ^ k) :
    x ||| b = x + b := by
  apply Nat.eq_of_testBit_eq
  intro j
  have hxd : x = 2 ^ k * (x / 2 ^ k) :=
    (Nat.mul_div_cancel' (Nat.dvd_of_mod_eq_zero hx)).symm
  rw [Nat.testBit_or,
    show x + b = 2 ^ k * (x / 2 ^ k) + b from by rw [← hxd],
    Nat.testBit_mul_pow_two_add _ hb]
  by_cases hj : j < k
  · rw [if_pos hj, testBit_false_of_mod_two_pow hx hj]
    simp
  · rw [if_neg hj, testBit_ge hb (Nat.not_lt.mp hj), Bool.or_false]
    conv_lhs => rw [hxd]
    rw [show 2 ^ k * (x / 2 ^ k) = 2 ^ k * (x / 2 ^ k) + 0 from (Nat.add_zero _).symm,
      Nat.testBit_mul_pow_two_add _ (pow_pos (by norm_num) k), if_neg hj]

set_option maxHeartbeats 1600000 in
/-- Reassembling the eight big-endian bytes of a `u64` recovers it. -/
lemma occ_bytes_roundtrip (occ : Nat) (h : occ < 2 ^ 64) :
    ((occ >>> 56) % 256) <<< 56 ||| ((occ >>> 48) &&& 255) <<< 48 |||
    ((occ >>> 40) &&& 255) <<< 40 ||| ((occ >>> 32) &&& 255) <<< 32 |||
    ((occ >>> 24) &&& 255) <<< 24 ||| ((occ >>> 16) &&& 255) <<< 16 |||
    ((occ >>> 8) &&& 255) <<< 8 ||| (occ &&& 255) = occ := by
  simp only [show (255 : Nat) = 2 ^ 8 - 1 from rfl, show (256 : Nat) = 2 ^ 8 from rfl,
    and_mask_mod, Nat.shiftLeft_eq, Nat.shiftRight_eq_div_pow]
  have e1 : occ / 2 ^ 56 % 2 ^ 8 * 2 ^ 56 ||| occ / 2 ^ 48 % 2 ^ 8 * 2 ^ 48 =
      occ / 2 ^ 56 % 2 ^ 8 * 2 ^ 56 + occ / 2 ^ 48 % 2 ^ 8 * 2 ^ 48 :=
    or_eq_add_of_dvd 56 (by omega) (by omega)
  have e2 : occ / 2 ^ 56 % 2 ^ 8 * 2 ^ 56 + occ / 2 ^ 48 % 2 ^ 8 * 2 ^ 48 |||
      occ / 2 ^ 40 % 2 ^ 8 * 2 ^ 40 =
      occ / 2 ^ 56 % 2 ^ 8 * 2 ^ 56 + occ / 2 ^ 48 % 2 ^ 8 * 2 ^ 48 +
        occ / 2 ^ 40 % 2 ^ 8 * 2 ^ 40 :=
    or_eq_add_of_dvd 48 (by omega) (by omega)
  have e3 : occ / 2 ^ 56 % 2 ^ 8 * 2 ^ 56 + occ / 2 ^ 48 % 2 ^ 8 * 2 ^ 48 +
      occ / 2 ^ 40 % 2 ^ 8 * 2 ^ 40 ||| occ / 2 ^ 32 % 2 ^ 8 * 2 ^ 32 =
      occ / 2 ^ 56 % 2 ^ 8 * 2 ^ 56 + occ / 2 ^ 48 % 2 ^ 8 * 2 ^ 48 +
        occ / 2 ^ 40 % 2 ^ 8 * 2 ^ 40 + occ / 2 ^ 32 % 2 ^ 8 * 2 ^ 32 :=
    or_eq_add_of_dvd 40 (by omega) (by omega)
  have e4 : occ / 2 ^ 56 % 2 ^ 8 * 2 ^ 56 + occ / 2 ^ 48 % 2 ^ 8 * 2 ^ 48 +
      occ / 2 ^ 40 % 2 ^ 8 * 2 ^ 40 + occ / 2 ^ 32 % 2 ^ 8 * 2 ^ 32 |||
      occ / 2 ^ 24 % 2 ^ 8 * 2 ^ 24 =
      occ / 2 ^ 56 % 2 ^ 8 * 2 ^ 56 + occ / 2 ^ 48 % 2 ^ 8 * 2 ^ 48 +
        occ / 2 ^ 40 % 2 ^ 8 * 2 ^ 40 + occ / 2 ^ 32 % 2 ^ 8 * 2 ^ 32 +
        occ / 2 ^ 24 % 2 ^ 8 * 2 ^ 24 :=
    or_eq_add_of_dvd 32 (by omega) (by omega)
  have e5 : occ / 2 ^ 56 % 2 ^ 8 * 2 ^ 56 + occ / 2 ^ 48 % 2 ^ 8 * 2 ^ 48 +
      occ / 2 ^ 40 % 2 ^ 8 * 2 ^ 40 + occ / 2 ^ 32 % 2 ^ 8 * 2 ^ 32 +
      occ / 2 ^ 24 % 2 ^ 8 * 2 ^ 24 ||| occ / 2 ^ 16 % 2 ^ 8 * 2 ^ 16 =
      occ / 2 ^ 56 % 2 ^ 8 * 2 ^ 56 + occ / 2 ^ 48 % 2 ^ 8 * 2 ^ 48 +
        occ / 2 ^ 40 % 2 ^ 8 * 2 ^ 40 + occ / 2 ^ 32 % 2 ^ 8 * 2 ^ 32 +
        occ / 2 ^ 24 % 2 ^ 8 * 2 ^ 24 + occ / 2 ^ 16 % 2 ^ 8 * 2 ^ 16 :=
    or_eq_add_of_dvd 24 (by omega) (by omega)
  have e6 : occ / 2 ^ 56 % 2 ^ 8 * 2 ^ 56 + occ / 2 ^ 48 % 2 ^ 8 * 2 ^ 48 +
      occ / 2 ^ 40 % 2 ^ 8 * 2 ^ 40 + occ / 2 ^ 32 % 2 ^ 8 * 2 ^ 32 +
      occ / 2 ^ 24 % 2 ^ 8 * 2 ^ 24 + occ / 2 ^ 16 % 2 ^ 8 * 2 ^ 16 |||
      occ / 2 ^ 8 % 2 ^ 8 * 2 ^ 8 =
      occ / 2 ^ 56 % 2 ^ 8 * 2 ^ 56 + occ / 2 ^ 48 % 2 ^ 8 * 2 ^ 48 +
        occ / 2 ^ 40 % 2 ^ 8 * 2 ^ 40 + occ / 2 ^ 32 % 2 ^ 8 * 2 ^ 32 +
        occ / 2 ^ 24 % 2 ^ 8 * 2 ^ 24 + occ / 2 ^ 16 % 2 ^ 8 * 2 ^ 16 +
        occ / 2 ^ 8 % 2 ^ 8 * 2 ^ 8 :=
    or_eq_add_of_dvd 16 (by omega) (by omega)
  have e7 : occ / 2 ^ 56 % 2 ^ 8 * 2 ^ 56 + occ / 2 ^ 48 % 2 ^ 8 * 2 ^ 48 +
      occ / 2 ^ 40 % 2 ^ 8 * 2 ^ 40 + occ / 2 ^ 32 % 2 ^ 8 * 2 ^ 32 +
      occ / 2 ^ 24 % 2 ^ 8 * 2 ^ 24 + occ / 2 ^ 16 % 2 ^ 8 * 2 ^ 16 +
      occ / 2 ^ 8 % 2 ^ 8 * 2 ^ 8 ||| occ % 2 ^ 8 =
      occ / 2 ^ 56 % 2 ^ 8 * 2 ^ 56 + occ / 2 ^ 48 % 2 ^ 8 * 2 ^ 48 +
        occ / 2 ^ 40 % 2 ^ 8 * 2 ^ 40 + occ / 2 ^ 32 % 2 ^ 8 * 2 ^ 32 +
        occ / 2 ^ 24 % 2 ^ 8 * 2 ^ 24 + occ / 2 ^ 16 % 2 ^ 8 * 2 ^ 16 +
        occ / 2 ^ 8 % 2 ^ 8 * 2 ^ 8 + occ % 2 ^ 8 :=
    or_eq_add_of_dvd 8 (by omega) (by omega)
  rw [e1, e2, e3, e4, e5, e6, e7]
  omega

/-- Reassembling the two big-endian bytes of a `u16` recovers it. -/
lemma u16_bytes_roundtrip {w : Nat} (h : w < 65536) :
    (((w >>> 8) % 256) <<< 8) ||| (w % 256) = w := by
  simp only [show (256 : Nat) = 2 ^ 8 from rfl, Nat.shiftLeft_eq,
    Nat.shiftRight_eq_div_pow]
  have e : w / 2 ^ 8 % 2 ^ 8 * 2 ^ 8 ||| w % 2 ^ 8 =
      w / 2 ^ 8 % 2 ^ 8 * 2 ^ 8 + w % 2 ^ 8 :=
    or_eq_add_of_dvd 8 (by omega) (by omega)
  rw [e]
  omega

lemma u16_bytes_roundtrip_and {w : Nat} (h : w < 65536) :
    (((w >>> 8) % 256) <<< 8) ||| (w &&& 255) = w := by
  rw [show (255 : Nat) = 2 ^ 8 - 1 from rfl, and_mask_mod]
  exact u16_bytes_roundtrip h

/-- Reading back a written compressed position (followed by arbitrary further
bytes) recovers it exactly. -/
lemma read_write_big_endian (c : CompressedPosition) (hocc : c.occupied < 2 ^ 64)
    (hlen : c.packed_state.length = 16) (rest : List Nat) :
    CompressedPosition.read_from_big_endian (c.write_to_big_endian ++ rest) = c := by
  have hdrop : ((c.write_to_big_endian ++ rest).drop 8) = c.packed_state ++ rest := rfl
  have htake : ((c.write_to_big_endian ++ rest).drop 8).take 16 = c.packed_state := by
    rw [hdrop]
    exact List.take_left' hlen
  unfold CompressedPosition.read_from_big_endian
  rw [htake]
  have hchain : ((c.write_to_big_endian ++ rest).getD 0 0 <<< 56) |||
      ((c.write_to_big_endian ++ rest).getD 1 0 <<< 48) |||
      ((c.write_to_big_endian ++ rest).getD 2 0 <<< 40) |||
      ((c.write_to_big_endian ++ rest).getD 3 0 <<< 32) |||
      ((c.write_to_big_endian ++ rest).getD 4 0 <<< 24) |||
      ((c.write_to_big_endian ++ rest).getD 5 0 <<< 16) |||
      ((c.write_to_big_endian ++ rest).getD 6 0 <<< 8) |||
      (c.write_to_big_endian ++ rest).getD 7 0 = c.occupied := by
    show ((c.occupied >>> 56) % 256) <<< 56 ||| ((c.occupied >>> 48) &&& 255) <<< 48 |||
      ((c.occupied >>> 40) &&& 255) <<< 40 ||| ((c.occupied >>> 32) &&& 255) <<< 32 |||
      ((c.occupied >>> 24) &&& 255) <<< 24 ||| ((c.occupied >>> 16) &&& 255) <<< 16 |||
      ((c.occupied >>> 8) &&& 255) <<< 8 ||| (c.occupied &&& 255) = c.occupied
    exact occ_bytes_roundtrip c.occupied hocc
  rw [hchain]

/-- The packed stem laid out as explicit appended segments. -/
lemma from_entry_data (entry : TrainingDataEntry) :
    (PackedTrainingDataEntry.from_entry entry).data =
      (CompressedPosition.compress entry.pos).write_to_big_endian ++
      ((CompressedMove.compress entry.mv).write_to_big_endian ++
        [(signed_to_unsigned entry.score >>> 8) % 256,
         signed_to_unsigned entry.score % 256,
         ((entry.ply ||| ((signed_to_unsigned entry.result <<< 14) % 65536)) >>> 8) %
           256,
         (entry.ply ||| ((signed_to_unsigned entry.result <<< 14) % 65536)) % 256,
         (entry.pos.rule50_counter >>> 8) % 256, entry.pos.rule50_counter % 256]) := by
  unfold PackedTrainingDataEntry.from_entry
  dsimp only
  rw [List.append_assoc]

/-- Bytes 24 and 25 of a packed stem are the big-endian compressed move. -/
lemma from_entry_move_bytes (entry : TrainingDataEntry) :
    (PackedTrainingDataEntry.from_entry entry).data.getD 24 0 =
      ((CompressedMove.compress entry.mv).packed >>> 8) % 256 ∧
    (PackedTrainingDataEntry.from_entry entry).data.getD 25 0 =
      (CompressedMove.compress entry.mv).packed &&& 0xFF := by
  unfold PackedTrainingDataEntry.from_entry
  have h24 : (CompressedPosition.compress entry.pos).write_to_big_endian.length = 24 := by
    rw [write_to_big_endian_length, compress_packed_state_length]
  constructor <;>
    · dsimp only
      rw [List.append_assoc, getD_append_ge (by omega), h24]
      try rfl

lemma compress_packed_lt (m : Move) (hv : m.valid) :
    (CompressedMove.compress m).packed < 65536 := by
  rcases hv with rfl | ⟨hf, ht, hne, -⟩
  · decide
  · rcases m with ⟨f, v, mt, pp⟩
    simp only at hf ht hne
    have hf' : @LT.lt Nat _ f 64 := hf
    have ht' : @LT.lt Nat _ v 64 := ht
    unfold CompressedMove.compress CompressedMove.from_move
    rw [if_pos hne]
    dsimp only
    have h1 : mt.ordinal <<< 14 < 2 ^ 16 := by
      have hmt4 := MoveType.ordinal_lt mt
      rw [Nat.shiftLeft_eq, show (2 : Nat) ^ 14 = 16384 from by norm_num,
        show (2 : Nat) ^ 16 = 65536 from by norm_num]
      omega
    have h2 : @LT.lt Nat _ (f <<< 8) (2 ^ 16) := by
      rw [Nat.shiftLeft_eq, show (2 : Nat) ^ 8 = 256 from by norm_num,
        show (2 : Nat) ^ 16 = 65536 from by norm_num]
      omega
    have h3 : @LT.lt Nat _ (v <<< 2) (2 ^ 16) := by
      rw [Nat.shiftLeft_eq, show (2 : Nat) ^ 2 = 4 from by norm_num,
        show (2 : Nat) ^ 16 = 65536 from by norm_num]
      omega
    have h4 : pp.piece_type.ordinal - PieceType.Knight.ordinal < 2 ^ 16 := by
      have h7 : pp.piece_type.ordinal < 7 := by
        cases pp.piece_type <;> decide
      rw [show (2 : Nat) ^ 16 = 65536 from by norm_num]
      omega
    by_cases hmt : mt = MoveType.Promotion
    · rw [if_pos hmt]
      calc (mt.ordinal <<< 14) ||| (f <<< 8) ||| (v <<< 2) |||
            (pp.piece_type.ordinal - PieceType.Knight.ordinal) < 2 ^ 16 :=
          Nat.or_lt_two_pow (Nat.or_lt_two_pow (Nat.or_lt_two_pow h1 h2) h3) h4
        _ = 65536 := by norm_num
    · rw [if_neg hmt]
      calc (mt.ordinal <<< 14) ||| (f <<< 8) ||| (v <<< 2) < 2 ^ 16 :=
          Nat.or_lt_two_pow (Nat.or_lt_two_pow h1 h2) h3
        _ = 65536 := by norm_num

lemma signed_to_unsigned_lt (a : Int) : signed_to_unsigned a < 65536 := by
  unfold signed_to_unsigned
  dsimp only
  split_ifs with hb
  · exact u16_rotate_left1_lt (xor_7FFF_lt (i16_to_u16_lt a))
  · exact u16_rotate_left1_lt (i16_to_u16_lt a)

lemma move_bytes_roundtrip (cm : CompressedMove) (h : cm.packed < 65536) :
    CompressedMove.read_from_big_endian ((cm.packed >>> 8) % 256)
      (cm.packed &&& 0xFF) = cm := by
  rcases cm with ⟨pk⟩
  unfold CompressedMove.read_from_big_endian
  have he : (((pk >>> 8) % 256) <<< 8) ||| (pk &&& 0xFF) = pk :=
    u16_bytes_roundtrip_and h
  rw [he]

lemma s2u_result_lt (r : Int) (h : r = -1 ∨ r = 0 ∨ r = 1) :
    signed_to_unsigned r < 4 := by
  rcases h with rfl | rfl | rfl <;> decide

/-- `unpack_entry` written without the intermediate `let` bindings. -/
lemma unpack_entry_eval (p : PackedTrainingDataEntry) :
    p.unpack_entry =
      ⟨(((CompressedPosition.read_from_big_endian p.data).decompress).set_ply
          (p.read_u16_be 28 &&& 0x3FFF)).set_rule50_counter (p.read_u16_be 30),
        (CompressedMove.read_from_big_endian (p.data.getD 24 0)
          (p.data.getD 25 0)).decompress,
        unsigned_to_signed (p.read_u16_be 26),
        p.read_u16_be 28 &&& 0x3FFF,
        unsigned_to_signed (p.read_u16_be 28 >>> 14)⟩ := rfl

set_option maxHeartbeats 4000000 in
/-- **C2** (amended). Packing then unpacking a `TrainingDataEntry` preserves
the position in the position-codec sense plus the move, score, ply, result
and rule-50 counter exactly, provided the position is well formed with a
rule-50 counter below 256, the move is valid (or null), the score is a
16-bit signed value, the ply is below 2^14 and the result is −1, 0 or 1.
For a ply of 2^14 or more the unmasked OR into the ply/result word corrupts
both the ply and the result (see the counterexample). -/
theorem stem_roundtrip (entry : TrainingDataEntry)
    (hwf : entry.pos.WellFormed) (hmv : entry.mv.valid)
    (hlo : -32768 ≤ entry.score) (hhi : entry.score < 32768)
    (hply : entry.ply < 16384)
    (hres : entry.result = -1 ∨ entry.result = 0 ∨ entry.result = 1)
    (hr50 : entry.pos.rule50_counter < 256) :
    ((PackedTrainingDataEntry.from_entry entry).unpack_entry.pos.bb = entry.pos.bb ∧
      (PackedTrainingDataEntry.from_entry entry).unpack_entry.pos.bb_color =
        entry.pos.bb_color ∧
      (PackedTrainingDataEntry.from_entry entry).unpack_entry.pos.pieces =
        entry.pos.pieces ∧
      (PackedTrainingDataEntry.from_entry entry).unpack_entry.pos.stm =
        entry.pos.stm ∧
      (PackedTrainingDataEntry.from_entry entry).unpack_entry.pos.castling_rights =
        entry.pos.castling_rights ∧
      (PackedTrainingDataEntry.from_entry entry).unpack_entry.pos.enpassant =
        entry.pos.enpassant) ∧
    (PackedTrainingDataEntry.from_entry entry).unpack_entry.pos.rule50_counter =
      entry.pos.rule50_counter ∧
    (PackedTrainingDataEntry.from_entry entry).unpack_entry.mv = entry.mv ∧
    (PackedTrainingDataEntry.from_entry entry).unpack_entry.score = entry.score ∧
    (PackedTrainingDataEntry.from_entry entry).unpack_entry.ply = entry.ply ∧
    (PackedTrainingDataEntry.from_entry entry).unpack_entry.result = entry.result := by
  obtain ⟨h26, h27, h28, h29, h30, h31⟩ := from_entry_data_layout entry
  have hwfd := hwf
  obtain ⟨-, -, -, -, hbc64, -⟩ := hwfd
  have hocc64 : entry.pos.occupied < 2 ^ 64 := by
    have h0 := hbc64 ⟨0, by omega⟩
    have h1 := hbc64 ⟨1, by omega⟩
    exact Nat.or_lt_two_pow h0 h1
  have hv4 : signed_to_unsigned entry.result < 4 := s2u_result_lt entry.result hres
  have hshift : (signed_to_unsigned entry.result <<< 14) % 65536 =
      signed_to_unsigned entry.result * 16384 := by
    rw [Nat.shiftLeft_eq, show (2 : Nat) ^ 14 = 16384 from by norm_num,
      Nat.mod_eq_of_lt (by omega)]
  have hor : entry.ply ||| signed_to_unsigned entry.result * 16384 =
      entry.ply + signed_to_unsigned entry.result * 16384 := by
    rw [Nat.or_comm]
    have e : signed_to_unsigned entry.result * 16384 ||| entry.ply =
        signed_to_unsigned entry.result * 16384 + entry.ply := by
      refine or_eq_add_of_dvd 14 ?_ ?_
      · rw [show (2 : Nat) ^ 14 = 16384 from by norm_num]
        omega
      · rw [show (2 : Nat) ^ 14 = 16384 from by norm_num]
        omega
    rw [e]
    omega
  have hprlt : entry.ply ||| ((signed_to_unsigned entry.result <<< 14) % 65536) <
      65536 := by
    rw [hshift, hor]
    omega
  have hply14 : (entry.ply ||| ((signed_to_unsigned entry.result <<< 14) % 65536)) &&&
      0x3FFF = entry.ply := by
    rw [hshift, hor, show (0x3FFF : Nat) = 2 ^ 14 - 1 from by norm_num, and_mask_mod,
      show (2 : Nat) ^ 14 = 16384 from by norm_num]
    omega
  have hres14 : (entry.ply ||| ((signed_to_unsigned entry.result <<< 14) % 65536)) >>>
      14 = signed_to_unsigned entry.result := by
    rw [hshift, hor, Nat.shiftRight_eq_div_pow,
      show (2 : Nat) ^ 14 = 16384 from by norm_num]
    omega
  have hread26 : (PackedTrainingDataEntry.from_entry entry).read_u16_be 26 =
      signed_to_unsigned entry.score := by
    unfold PackedTrainingDataEntry.read_u16_be
    rw [show (26 : Nat) + 1 = 27 from rfl, h26, h27]
    exact u16_bytes_roundtrip (signed_to_unsigned_lt entry.score)
  have hread28 : (PackedTrainingDataEntry.from_entry entry).read_u16_be 28 =
      entry.ply ||| ((signed_to_unsigned entry.result <<< 14) % 65536) := by
    unfold PackedTrainingDataEntry.read_u16_be
    rw [show (28 : Nat) + 1 = 29 from rfl, h28, h29]
    exact u16_bytes_roundtrip hprlt
  have hread30 : (PackedTrainingDataEntry.from_entry entry).read_u16_be 30 =
      entry.pos.rule50_counter := by
    unfold PackedTrainingDataEntry.read_u16_be
    rw [show (30 : Nat) + 1 = 31 from rfl, h30, h31]
    exact u16_bytes_roundtrip (by omega)
  have hcpos : CompressedPosition.read_from_big_endian
      (PackedTrainingDataEntry.from_entry entry).data =
      CompressedPosition.compress entry.pos := by
    have h := read_write_big_endian (CompressedPosition.compress entry.pos) hocc64
      (compress_packed_state_length entry.pos)
      ((CompressedMove.compress entry.mv).write_to_big_endian ++
        [(signed_to_unsigned entry.score >>> 8) % 256,
         signed_to_unsigned entry.score % 256,
         ((entry.ply ||| ((signed_to_unsigned entry.result <<< 14) % 65536)) >>> 8) %
           256,
         (entry.ply ||| ((signed_to_unsigned entry.result <<< 14) % 65536)) % 256,
         (entry.pos.rule50_counter >>> 8) % 256, entry.pos.rule50_counter % 256])
    rw [from_entry_data]
    exact h
  have hmove : (CompressedMove.read_from_big_endian
      ((PackedTrainingDataEntry.from_entry entry).data.getD 24 0)
      ((PackedTrainingDataEntry.from_entry entry).data.getD 25 0)) =
      CompressedMove.compress entry.mv := by
    obtain ⟨hm24, hm25⟩ := from_entry_move_bytes entry
    rw [hm24, hm25]
    exact move_bytes_roundtrip _ (compress_packed_lt entry.mv hmv)
  obtain ⟨cbb, cbc, cpieces, cstm, ccr, cep⟩ := codec_roundtrip_aux entry.pos hwf
  rw [unpack_entry_eval]
  refine ⟨⟨?_, ?_, ?_, ?_, ?_, ?_⟩, ?_, ?_, ?_, ?_, ?_⟩
  · show (CompressedPosition.read_from_big_endian
      (PackedTrainingDataEntry.from_entry entry).data).decompress.bb = entry.pos.bb
    rw [hcpos]
    exact cbb
  · show (CompressedPosition.read_from_big_endian
      (PackedTrainingDataEntry.from_entry entry).data).decompress.bb_color =
      entry.pos.bb_color
    rw [hcpos]
    exact cbc
  · show (CompressedPosition.read_from_big_endian
      (PackedTrainingDataEntry.from_entry entry).data).decompress.pieces =
      entry.pos.pieces
    rw [hcpos]
    exact cpieces
  · show (CompressedPosition.read_from_big_endian
      (PackedTrainingDataEntry.from_entry entry).data).decompress.stm = entry.pos.stm
    rw [hcpos]
    exact cstm
  · show (CompressedPosition.read_from_big_endian
      (PackedTrainingDataEntry.from_entry entry).data).decompress.castling_rights =
      entry.pos.castling_rights
    rw [hcpos]
    exact ccr
  · show (CompressedPosition.read_from_big_endian
      (PackedTrainingDataEntry.from_entry entry).data).decompress.enpassant =
      entry.pos.enpassant
    rw [hcpos]
    exact cep
  · show (PackedTrainingDataEntry.from_entry entry).read_u16_be 30 % 256 =
      entry.pos.rule50_counter
    rw [hread30]
    omega
  · show (CompressedMove.read_from_big_endian
      ((PackedTrainingDataEntry.from_entry entry).data.getD 24 0)
      ((PackedTrainingDataEntry.from_entry entry).data.getD 25 0)).decompress =
      entry.mv
    rw [hmove]
    exact move_roundtrip_aux entry.mv hmv
  · show unsigned_to_signed ((PackedTrainingDataEntry.from_entry entry).read_u16_be 26) =
      entry.score
    rw [hread26]
    exact unsigned_to_signed_signed_to_unsigned hlo hhi
  · show (PackedTrainingDataEntry.from_entry entry).read_u16_be 28 &&& 0x3FFF =
      entry.ply
    rw [hread28]
    exact hply14
  · show unsigned_to_signed
      ((PackedTrainingDataEntry.from_entry entry).read_u16_be 28 >>> 14) =
      entry.result
    rw [hread28, hres14]
    refine unsigned_to_signed_signed_to_unsigned ?_ ?_ <;>
      rcases hres with h | h | h <;> rw [h] <;> norm_num

/-- **C2** (counterexample). At ply 16384 the unmasked OR into the
ply/result word corrupts the entry: it unpacks with ply 0 and result −1
instead of ply 16384 and result 0. -/
theorem stem_roundtrip_refuted :
    (PackedTrainingDataEntry.from_entry
        ⟨Position.empty, Move.null, 0, 16384, 0⟩).unpack_entry.ply ≠ 16384 ∧
    (PackedTrainingDataEntry.from_entry
        ⟨Position.empty, Move.null, 0, 16384, 0⟩).unpack_entry.result ≠ 0 := by
  decide

/-- Witness for the amended C2 at a concrete entry over the starting
position. -/
theorem stem_roundtrip_witness :
    ((PackedTrainingDataEntry.from_entry
        ⟨Position.new, Move.normal 12 28, -127, 5, 1⟩).unpack_entry.ply = 5) ∧
    ((PackedTrainingDataEntry.from_entry
        ⟨Position.new, Move.normal 12 28, -127, 5, 1⟩).unpack_entry.score = -127) :=
  ⟨(stem_roundtrip ⟨Position.new, Move.normal 12 28, -127, 5, 1⟩ (by decide)
      (by decide) (by decide) (by decide) (by decide) (by decide)
      (by decide)).2.2.2.2.1,
    (stem_roundtrip ⟨Position.new, Move.normal 12 28, -127, 5, 1⟩ (by decide)
      (by decide) (by decide) (by decide) (by decide) (by decide)
      (by decide)).2.2.2.1⟩

end SfBinpack
